import Mathlib

/-!
# zkbas-crypto: range proof (`ctrange`) and AddLiquidity Sigma protocol (`zero`)

A shallow embedding of

* `rangeProofs/twistededwards/tebn254/ctrange/ctrange.go` (`Prove`, `phase1`, `phase2`,
  `RangeProof.Verify`),
* `zero/twistededwards/tebn254/zero/addLiquidity.go` (`ProveAddLiquidity`,
  `AddLiquidityProof.Verify`, `verifyAddLiquidityParams`, `AddPoolInfo`),
* `ecc/bn128/alt_bn128.go` (`F`),
* `wasm/txtypes/mint_nft.go` (`MintNftTxInfo.Validate`, `MintNftTxInfo.Hash`), and
* `zecrey/circuit/bn254/transactions/block.go` (`SetBlockWitness`),

followed by the properties proved about them.

Conventions of the embedding.

* `*big.Int` is `Int`; `uint64`/`uint32` fields are `Nat`, and every conversion to `int64`
  is written with its wrap-around (`int64`).
* A Go result `(value, error)` of a prover is a `GoResult`; the verifiers return the pair
  `(res, err)` as `Bool × GoError`.
* Fresh randomness (`curve.RandomValue()`) is an explicit argument: one record of draws per
  prover call.
* The twisted-Edwards group, the hash and the byte encodings are not part of the translated
  sources; they are the fields of `Params` and the operations of an additive commutative
  group on `Point` (see `curve`).
* A fixed-size Go array `[RangeMaxBits]T` is its slot function `Nat → T`; only the slots
  below `RangeMaxBits` are ever read or written.
-/

set_option autoImplicit false
set_option linter.unusedSectionVars false

/-- A byte string (the contents of a `bytes.Buffer`); every entry is a byte value. -/
abbrev Bytes : Type := List Nat

/-- Go's `error`: `none` is `nil`. -/
abbrev GoError : Type := Option String

/-- Outcome of a Go call returning `(*T, error)`. -/
inductive GoResult (α : Type) where
  /-- The call returned `(val, nil)`. -/
  | ok (val : α) : GoResult α
  /-- The call returned `(nil, err)`. -/
  | error (err : String) : GoResult α
  /-- The call did not return: a nil value was dereferenced, or a receive blocked forever. -/
  | crashed : GoResult α

/-- Modelled from the spec: the curve package `ecc/ztwistededwards/tebn254`, the hash
`util.HashToInt(buf, zmimc.Hmimc)` and the constants `Order`, `Q`, `FixedCurve` are not among
the sources. Spec §3/§4.2: points form a group with a base generator `G` and an independent
generator `H`; `q` (`Order`) is the order of the prime subgroup; §4.3/§6.1: a point is encoded
as its two coordinate byte strings; §6.3: the hash is a black box that may fail. -/
structure Params (Point : Type) where
  /-- The base point `curve.G`. -/
  G : Point
  /-- The second generator `curve.H`. -/
  H : Point
  /-- The constant `curve.Order` (the scalar modulus `q`). -/
  Order : Nat
  /-- The constant `ctrange.Q`, the modulus of the range-proof challenge. -/
  Q : Nat
  /-- The bytes `PaddingBigIntBytes(FixedCurve)`, the domain-separation tag. -/
  FixedCurve : Bytes
  /-- The encoding `p.X.Marshal()`. -/
  marshalX : Point → Bytes
  /-- The encoding `p.Y.Marshal()`. -/
  marshalY : Point → Bytes
  /-- The hash `util.HashToInt(buf, zmimc.Hmimc)`: a value, or an error. -/
  HashToInt : Bytes → Except String Int

/-- Conversion of an integer to `int64` (two's complement wrap-around). -/
def int64 (n : Int) : Int := (n + 2 ^ 63) % 2 ^ 64 - 2 ^ 63

/-- Conversion of an integer to `uint64` (wrap-around). -/
def uint64 (n : Nat) : Nat := n % 2 ^ 64

namespace ffmath

/-- Modelled from the spec: package `ffmath` is not among the sources (§4.1).
`Multiply` is the product of two big integers, without reduction. -/
def Multiply (a b : Int) : Int := a * b

/-- Modelled from the spec: `ffmath.Sub` is the difference of two big integers (§4.1). -/
def Sub (a b : Int) : Int := a - b

/-- Modelled from the spec: `ffmath.Mod` reduces into `[0, m)` (§4.1, Euclidean remainder of
`big.Int.Mod`). -/
def Mod (a m : Int) : Int := a % m

/-- Modelled from the spec: `ffmath.AddMod` is `(a + b) mod m` (§4.1). -/
def AddMod (a b m : Int) : Int := (a + b) % m

/-- Modelled from the spec: `ffmath.Equal` compares two big integers. -/
def Equal (a b : Int) : Bool := decide (a = b)

/-- Modelled from the spec: `ffmath.ModInverse` (§4.1) returns the inverse of `a` modulo `m`
in `[0, m)`, and `nil` (`none`) when `a` is not invertible. -/
def ModInverse (a m : Int) : Option Int :=
  ((List.range m.toNat).find? (fun (x : Nat) => decide ((a * (x : Int)) % m = 1 % m))).map Int.ofNat

end ffmath

namespace curve

variable {Point : Type} [AddCommGroup Point] [DecidableEq Point]

/-- Modelled from the spec: `curve.Add` is the group addition (§4.2). -/
@[reducible] def Add (a b : Point) : Point := a + b

/-- Modelled from the spec: `curve.Neg` is the group negation (§4.2). -/
@[reducible] def Neg (a : Point) : Point := -a

/-- Modelled from the spec: `curve.ZeroPoint` is the identity (§4.2). -/
@[reducible] def ZeroPoint : Point := 0

/-- Modelled from the spec: `curve.ScalarMul(p, s)` is `s·p` (§4.2). -/
@[reducible] def ScalarMul (a : Point) (b : Int) : Point := b • a

/-- Modelled from the spec: `curve.ScalarBaseMul(s)` is `s·G` (§4.2, `base_mul`). -/
@[reducible] def ScalarBaseMul (pp : Params Point) (b : Int) : Point := b • pp.G

/-- Modelled from the spec: `curve.IsInSubGroup` (§4.2, `in_subgroup`): multiplying by the
subgroup order gives the identity. -/
def IsInSubGroup (pp : Params Point) (p : Point) : Bool := decide ((pp.Order : Int) • p = 0)

end curve

namespace pedersen

variable {Point : Type} [AddCommGroup Point]

/-- Modelled from the spec: `pedersen.Commit(a, r, g, h) = a·g + r·h` (§4.4, where it is
written `Commit(v, r, H, G) = v·H + r·G`); its error is returned for nil arguments only. -/
def Commit (a r : Int) (g h : Point) : Point :=
  curve.Add (curve.ScalarMul g a) (curve.ScalarMul h r)

end pedersen

section buffers

variable {Point : Type}

/-- The two writes `buf.Write(p.X.Marshal()); buf.Write(p.Y.Marshal())`. -/
def writeXY (pp : Params Point) (buf : Bytes) (p : Point) : Bytes :=
  buf ++ pp.marshalX p ++ pp.marshalY p

end buffers

namespace ctrange

variable {Point : Type} [AddCommGroup Point] [DecidableEq Point]

/-- Modelled from the spec: the constant `RangeMaxBits` is `N = 32` (§6.4). -/
def RangeMaxBits : Nat := 32

/-- Modelled from the spec: the constant `ErrCode` is the error sentinel sent on the
completion channel (§4.6); it differs from every bit index. -/
def ErrCode : Int := -1

/-- The error of `Prove` on invalid parameters. -/
def errInvalidParams : String := "[ctrange Prove] err: invalid params"

/-- The error of `Prove` when a worker reports `ErrCode`. -/
def errUnableToConstruct : String := "[ctrange Prove] unable to construct the proof"

/-- The error of `toBinary` on a value outside `[0, 2^n)`. -/
def errToBinary : String := "[toBinary] invalid value"

/-- The type `RangeProof` (its declaration is not among the sources; the fields are those
`Prove` and `Verify` use). -/
structure RangeProof (Point : Type) where
  /-- The generator `g`. -/
  G : Point
  /-- The generator `h`. -/
  H : Point
  /-- The challenge. -/
  C : Int
  /-- The responses, one per bit. -/
  Zs : Nat → Int
  /-- The commitments, one per bit. -/
  As : Nat → Point
  /-- The aggregate commitment. -/
  A : Point

/-- Modelled from the spec: `toBinary` is not among the sources. §3: the bit decomposition
satisfies `∑ bᵢ·2^i = v` with `bᵢ ∈ {0,1}`; §8 (S5): a value that does not fit in `n` bits is
refused. The bits are listed from the least significant one. -/
def toBinary (b : Int) (n : Nat) : Except String (List Int) :=
  if b < 0 ∨ (2 : Int) ^ n ≤ b then Except.error errToBinary
  else Except.ok ((List.range n).map (fun i => (b / 2 ^ i) % 2))

/-- The draws of `curve.RandomValue()` in one call of `Prove`: slot `i` of `alphas` and of
`rs` receives `alphas i` and `rs i`. -/
structure RangeDraws where
  /-- The values drawn for `alphas[i]`. -/
  alphas : Nat → Int
  /-- The values drawn for `rs[i]`. -/
  rs : Nat → Int

/-- The arrays shared by the workers of `Prove`: the locals `alphas`, `rs`, `cs`, `A_As` and
the fields `proof.As`, `proof.Zs`. A slot is `none` (nil) until it is written. -/
structure ProverSlots (Point : Type) where
  /-- The local array `alphas`. -/
  alphas : Nat → Option Int
  /-- The local array `rs`. -/
  rs : Nat → Option Int
  /-- The local array `cs`. -/
  cs : Nat → Option Int
  /-- The local array `A_As`. -/
  A_As : Nat → Option Point
  /-- The field `proof.As`. -/
  As : Nat → Option Point
  /-- The field `proof.Zs`. -/
  Zs : Nat → Option Int

/-- The arrays before any worker has run. -/
def ProverSlots.empty : ProverSlots Point :=
  { alphas := fun _ => none, rs := fun _ => none, cs := fun _ => none,
    A_As := fun _ => none, As := fun _ => none, Zs := fun _ => none }

/-- What a worker (or a sequence of workers) did: the messages it put on `bitchan`, in
order, the arrays afterwards, and whether it dereferenced a nil value. -/
structure TaskRun (Point : Type) where
  /-- The messages sent on `bitchan`. -/
  sent : List Int
  /-- The shared arrays after the run. -/
  slots : ProverSlots Point
  /-- Whether the run ended in a run-time failure. -/
  crashed : Bool

/-- The worker `phase1`. `drawAlpha` and `drawR` are the values `curve.RandomValue()` returns
for `alphas[i]` and `rs[i]`. When the hash fails the worker sends `ErrCode` and goes on to
`curve.ScalarMul(proof.As[i], cs[i])` with `cs[i]` nil. -/
def phase1 (pp : Params Point) (i : Nat) (bi : Int) (htwoExp : Point)
    (st : ProverSlots Point) (g _h : Point) (drawAlpha drawR : Int) : TaskRun Point :=
  if bi = 0 then
    let st := { st with alphas := Function.update st.alphas i (some drawAlpha) }
    let st := { st with A_As := Function.update st.A_As i (some (curve.ScalarMul g drawAlpha)) }
    { sent := [(i : Int)], slots := st, crashed := false }
  else if bi = 1 then
    let st := { st with rs := Function.update st.rs i (some drawR) }
    let Asi := curve.Add (curve.ScalarMul g drawR) htwoExp
    let st := { st with As := Function.update st.As i (some Asi) }
    let st := { st with alphas := Function.update st.alphas i (some drawAlpha) }
    let galphai := curve.ScalarMul g drawAlpha
    match pp.HashToInt (writeXY pp [] galphai) with
    | Except.error _ => { sent := [ErrCode], slots := st, crashed := true }
    | Except.ok ci =>
      let st := { st with cs := Function.update st.cs i (some ci) }
      let st := { st with A_As := Function.update st.A_As i (some (curve.ScalarMul Asi ci)) }
      { sent := [(i : Int)], slots := st, crashed := false }
  else
    { sent := [ErrCode], slots := st, crashed := false }

/-- The worker `phase2`; `C` is `proof.C`. When the hash fails the worker sends `ErrCode` and
goes on to `ffmath.ModInverse(cs[i], Order)` with `cs[i]` nil; when `cs[i]` has no inverse
the product with the nil inverse fails. -/
def phase2 (pp : Params Point) (i : Nat) (bi : Int) (twoExp : Int) (C : Int)
    (st : ProverSlots Point) (g h : Point) (drawR : Int) : TaskRun Point :=
  if bi = 0 then
    let st := { st with rs := Function.update st.rs i (some drawR) }
    let tmp := pedersen.Commit (ffmath.Multiply C twoExp) drawR h g
    match pp.HashToInt (writeXY pp [] tmp) with
    | Except.error _ => { sent := [ErrCode], slots := st, crashed := true }
    | Except.ok ci =>
      let st := { st with cs := Function.update st.cs i (some ci) }
      match st.alphas i, ffmath.ModInverse ci pp.Order with
      | some alphai, some ciInv =>
        let Asi := curve.ScalarMul g (ffmath.Multiply alphai ciInv)
        let st := { st with As := Function.update st.As i (some Asi) }
        let Zsi := ffmath.AddMod drawR (ffmath.Multiply (ffmath.Multiply alphai C) ciInv) pp.Order
        let st := { st with Zs := Function.update st.Zs i (some Zsi) }
        { sent := [(i : Int)], slots := st, crashed := false }
      | _, _ => { sent := [], slots := st, crashed := true }
  else if bi = 1 then
    match st.alphas i, st.rs i with
    | some alphai, some ri =>
      let Zsi := ffmath.AddMod alphai (ffmath.Multiply C ri) pp.Order
      let st := { st with Zs := Function.update st.Zs i (some Zsi) }
      { sent := [(i : Int)], slots := st, crashed := false }
    | _, _ => { sent := [], slots := st, crashed := true }
  else
    { sent := [ErrCode], slots := st, crashed := false }

/-- The loop `for i, bi := range bs { go phase1(…); current = curve.Add(current, current) }`,
from index `i`; the workers are run in index order. -/
def phase1Loop (pp : Params Point) (g h : Point) (draws : RangeDraws) :
    List Int → Nat → Point → ProverSlots Point → TaskRun Point
  | [], _, _, st => { sent := [], slots := st, crashed := false }
  | bi :: bs, i, current, st =>
    let t := phase1 pp i bi current st g h (draws.alphas i) (draws.rs i)
    let r := phase1Loop pp g h draws bs (i + 1) (curve.Add current current) t.slots
    { sent := t.sent ++ r.sent, slots := r.slots, crashed := t.crashed || r.crashed }

/-- The loop `for i, bi := range bs { go phase2(…); twoExp += twoExp }`, from index `i`;
the workers are run in index order. (`twoExp` stays below `2^63` for the 32 bits.) -/
def phase2Loop (pp : Params Point) (C : Int) (g h : Point) (draws : RangeDraws) :
    List Int → Nat → Int → ProverSlots Point → TaskRun Point
  | [], _, _, st => { sent := [], slots := st, crashed := false }
  | bi :: bs, i, twoExp, st =>
    let t := phase2 pp i bi twoExp C st g h (draws.rs i)
    let r := phase2Loop pp C g h draws bs (i + 1) (twoExp + twoExp) t.slots
    { sent := t.sent ++ r.sent, slots := r.slots, crashed := t.crashed || r.crashed }

/-- The loop `for i := 0; i < RangeMaxBits; i++ { index := <-bitchan; … }`: it receives `n`
messages and returns the error at the first `ErrCode`; with no message left it blocks. -/
def joinWorkers : List Int → Nat → GoResult Unit
  | _, 0 => GoResult.ok ()
  | [], _ + 1 => GoResult.crashed
  | m :: rest, n + 1 =>
    if m = ErrCode then GoResult.error errUnableToConstruct else joinWorkers rest n

/-- The loop writing `A_As[i].X`, `A_As[i].Y` for `i = from, …, from + n - 1`; a nil slot
fails. -/
def writeSlots (pp : Params Point) (A_As : Nat → Option Point) :
    Nat → Nat → Bytes → Option Bytes
  | 0, _, buf => some buf
  | n + 1, i, buf =>
    match A_As i with
    | none => none
    | some p => writeSlots pp A_As n (i + 1) (writeXY pp buf p)

/-- The loop `proof.A = curve.Add(proof.A, proof.As[i])` for `i = from, …`; a nil slot
fails. -/
def sumSlots (As : Nat → Option Point) : Nat → Nat → Point → Option Point
  | 0, _, A => some A
  | n + 1, i, A =>
    match As i with
    | none => none
    | some p => sumSlots As n (i + 1) (curve.Add A p)

/-- The function `Prove`. -/
def Prove (pp : Params Point) (b : Int) (g h : Point) (draws : RangeDraws) :
    GoResult (RangeProof Point) :=
  if b < 0 ∨ curve.IsInSubGroup pp g = false ∨ curve.IsInSubGroup pp h = false then
    GoResult.error errInvalidParams
  else
    match toBinary b RangeMaxBits with
    | Except.error e => GoResult.error e
    | Except.ok bs =>
      let run1 := phase1Loop pp g h draws bs 0 pp.H ProverSlots.empty
      if run1.crashed then GoResult.crashed
      else
        match joinWorkers run1.sent RangeMaxBits with
        | GoResult.error e => GoResult.error e
        | GoResult.crashed => GoResult.crashed
        | GoResult.ok _ =>
          match writeSlots pp run1.slots.A_As RangeMaxBits 0 [] with
          | none => GoResult.crashed
          | some buf =>
            match pp.HashToInt buf with
            | Except.error e => GoResult.error e
            | Except.ok c =>
              let C := ffmath.Mod c pp.Q
              let run2 := phase2Loop pp C g h draws bs 0 1 run1.slots
              if run2.crashed then GoResult.crashed
              else
                match joinWorkers run2.sent RangeMaxBits with
                | GoResult.error e => GoResult.error e
                | GoResult.crashed => GoResult.crashed
                | GoResult.ok _ =>
                  match sumSlots run2.slots.As RangeMaxBits 0 curve.ZeroPoint with
                  | none => GoResult.crashed
                  | some A =>
                    GoResult.ok
                      { G := g, H := h, C := C,
                        Zs := fun i => (run2.slots.Zs i).getD 0,
                        As := fun i => (run2.slots.As i).getD curve.ZeroPoint,
                        A := A }

/-- The first loop of `RangeProof.Verify`, from index `i` for `n` more iterations, with
`current = -(2^i)·proof.H`. It returns the points `A_As[i], …, A_As[i+n-1]`, or the error of
the first hash that fails. -/
def RangeProof.verifyBits (pp : Params Point) (proof : RangeProof Point) :
    Nat → Nat → Point → Except String (List Point)
  | 0, _, _ => Except.ok []
  | n + 1, i, current =>
    let AihNeg := curve.Add (proof.As i) current
    let AihNegNeg := curve.ScalarMul (curve.Neg AihNeg) proof.C
    let com := curve.Add (curve.ScalarMul proof.G (proof.Zs i)) AihNegNeg
    match pp.HashToInt (writeXY pp [] com) with
    | Except.error e => Except.error e
    | Except.ok ci =>
      match RangeProof.verifyBits pp proof n (i + 1) (curve.Add current current) with
      | Except.error e => Except.error e
      | Except.ok rest => Except.ok (curve.ScalarMul (proof.As i) ci :: rest)

/-- The loop `for _, Ai := range proof.As { A = curve.Add(A, Ai) }`. -/
def sumAs (As : Nat → Point) : Point :=
  (List.range RangeMaxBits).foldl (fun A i => curve.Add A (As i)) curve.ZeroPoint

/-- The method `RangeProof.Verify`. -/
def RangeProof.Verify (pp : Params Point) (proof : RangeProof Point) : Bool × GoError :=
  match RangeProof.verifyBits pp proof RangeMaxBits 0 (curve.Neg proof.H) with
  | Except.error e => (false, some e)
  | Except.ok A_As =>
    match pp.HashToInt (A_As.foldl (writeXY pp) []) with
    | Except.error e => (false, some e)
    | Except.ok hatc =>
      let hatc := ffmath.Mod hatc pp.Q
      if !ffmath.Equal hatc proof.C then (false, none)
      else
        let A := sumAs proof.As
        if !decide (A = proof.A) then (false, none)
        else (true, none)

end ctrange

namespace zero

variable {Point : Type} [AddCommGroup Point] [DecidableEq Point]

/-- The type `RangeProof` of package `zero` is the one of `ctrange`. -/
abbrev RangeProof (Point : Type) : Type := ctrange.RangeProof Point

/-- The constant `ErrCode` of package `zero` (the error sentinel of the range routines). -/
def ErrCode : Int := ctrange.ErrCode

/-- The error `Verify` returns on a structural mismatch. -/
def errVerifyInvalidParams : String := "[Verify AddLiquidityProof] invalid params"

/-- The type `ElGamalEnc`: a twisted ElGamal ciphertext `(CL, CR)`. -/
structure ElGamalEnc (Point : Type) where
  /-- The left component `r·pk`. -/
  CL : Point
  /-- The right component `r·G + v·H`. -/
  CR : Point

/-- Modelled from the spec: `twistedElgamal.EncAdd` is the pointwise sum (§4.5); its error is
returned for nil arguments only. -/
def EncAdd (C1 C2 : ElGamalEnc Point) : ElGamalEnc Point :=
  { CL := curve.Add C1.CL C2.CL, CR := curve.Add C1.CR C2.CR }

/-- Modelled from the spec: `negElgamal(c) = (−CL, −CR)` (§4.5). -/
def negElgamal (C : ElGamalEnc Point) : ElGamalEnc Point :=
  { CL := curve.Neg C.CL, CR := curve.Neg C.CR }

/-- Modelled from the spec: `equalEnc` compares two ciphertexts component by component. -/
def equalEnc (C1 C2 : ElGamalEnc Point) : Bool :=
  decide (C1.CL = C2.CL) && decide (C1.CR = C2.CR)

/-- Modelled from the spec: `writePointIntoBuf` appends the two coordinate encodings of a
point (§4.3). -/
def writePointIntoBuf (pp : Params Point) (buf : Bytes) (p : Point) : Bytes :=
  writeXY pp buf p

/-- Modelled from the spec: `writeEncIntoBuf` appends the two points of a ciphertext. -/
def writeEncIntoBuf (pp : Params Point) (buf : Bytes) (C : ElGamalEnc Point) : Bytes :=
  writePointIntoBuf pp (writePointIntoBuf pp buf C.CL) C.CR

/-- Modelled from the spec: `writeUint64IntoBuf` appends the 8-byte big-endian encoding of an
integer (§4.3). -/
def writeUint64IntoBuf (buf : Bytes) (n : Nat) : Bytes :=
  buf ++ (List.range 8).map (fun k => (n / 256 ^ (7 - k)) % 256)

/-- The type `AddLiquidityRelation` (its declaration is not among the sources; the fields
are those `ProveAddLiquidity` reads). -/
structure AddLiquidityRelation (Point : Type) where
  C_uA : ElGamalEnc Point
  C_uB : ElGamalEnc Point
  C_uA_Delta : ElGamalEnc Point
  C_uB_Delta : ElGamalEnc Point
  LC_poolA_Delta : ElGamalEnc Point
  LC_poolB_Delta : ElGamalEnc Point
  C_LP_Delta : ElGamalEnc Point
  Pk_u : Point
  Pk_pool : Point
  R_DeltaA : Int
  R_DeltaB : Int
  T_uA : Point
  T_uB : Point
  B_poolA : Nat
  B_poolB : Nat
  B_A_Delta : Nat
  B_B_Delta : Nat
  Delta_LP : Nat
  AssetAId : Nat
  AssetBId : Nat
  Sk_u : Int
  Bar_r_A : Int
  Bar_r_B : Int
  R_DeltaLP : Int
  ARangeProof : RangeProof Point
  BRangeProof : RangeProof Point
  C_fee : ElGamalEnc Point
  T_fee : Point
  GasFeeAssetId : Nat
  GasFee : Nat
  Bar_r_fee : Int
  GasFeePrimeRangeProof : RangeProof Point

/-- The type `AddLiquidityProof` (its declaration is not among the sources; the fields are
those of the literal built by `ProveAddLiquidity`). -/
structure AddLiquidityProof (Point : Type) where
  A_CLPL_Delta : Point
  A_CLPR_DeltaHExp_DeltaLPNeg : Point
  Z_rDelta_LP : Int
  A_pk_u : Point
  A_T_uAC_uARPrimeInv : Point
  A_T_uBC_uBRPrimeInv : Point
  Z_sk_u : Int
  Z_bar_r_A : Int
  Z_bar_r_B : Int
  Z_sk_uInv : Int
  ARangeProof : RangeProof Point
  BRangeProof : RangeProof Point
  C_uA : ElGamalEnc Point
  C_uB : ElGamalEnc Point
  C_uA_Delta : ElGamalEnc Point
  C_uB_Delta : ElGamalEnc Point
  LC_poolA_Delta : ElGamalEnc Point
  LC_poolB_Delta : ElGamalEnc Point
  C_LP_Delta : ElGamalEnc Point
  Pk_u : Point
  Pk_pool : Point
  R_DeltaA : Int
  R_DeltaB : Int
  T_uA : Point
  T_uB : Point
  B_poolA : Nat
  B_poolB : Nat
  B_A_Delta : Nat
  B_B_Delta : Nat
  Delta_LP : Nat
  AssetAId : Nat
  AssetBId : Nat
  A_T_feeC_feeRPrimeInv : Point
  Z_bar_r_fee : Int
  C_fee : ElGamalEnc Point
  T_fee : Point
  GasFeeAssetId : Nat
  GasFee : Nat
  GasFeePrimeRangeProof : RangeProof Point

/-- The draws of `curve.RandomValue()` in one call of `ProveAddLiquidity`, in the order of
the calls; `alpha_bar_r_fee` is drawn in the cross-asset branch only. -/
structure AddLiquidityDraws where
  alpha_r_DeltaLP : Int
  alpha_sk_u : Int
  alpha_bar_r_A : Int
  alpha_bar_r_B : Int
  alpha_bar_r_fee : Int

/-- The statement part of the transcript: what `ProveAddLiquidity` (lines 53–65) and `Verify`
(lines 191–203) write before the auxiliary points. -/
def statementBuf (pp : Params Point) (Pk_u Pk_pool : Point)
    (C_uA C_uB C_uA_Delta C_uB_Delta C_LP_Delta : ElGamalEnc Point) (T_uA T_uB : Point)
    (AssetAId AssetBId : Nat) : Bytes :=
  let buf : Bytes := [] ++ pp.FixedCurve
  let buf := writePointIntoBuf pp buf Pk_u
  let buf := writePointIntoBuf pp buf Pk_pool
  let buf := writeEncIntoBuf pp buf C_uA
  let buf := writeEncIntoBuf pp buf C_uB
  let buf := writeEncIntoBuf pp buf C_uA_Delta
  let buf := writeEncIntoBuf pp buf C_uB_Delta
  let buf := writeEncIntoBuf pp buf C_LP_Delta
  let buf := writePointIntoBuf pp buf T_uA
  let buf := writePointIntoBuf pp buf T_uB
  let buf := writeUint64IntoBuf buf (uint64 AssetAId)
  let buf := writeUint64IntoBuf buf (uint64 AssetBId)
  buf

/-- The result of `ProveAddLiquidity` together with two of its locals: the transcript `buf`
at the time it is hashed and the challenge `c`. -/
structure AddLiquidityTrace (Point : Type) where
  /-- The local `buf` when `util.HashToInt` is called. -/
  buf : Bytes
  /-- The local `c`. -/
  c : Int
  /-- The returned proof. -/
  proof : AddLiquidityProof Point

/-- The body of `ProveAddLiquidity`, returning the locals `buf` and `c` next to the proof.
A nil result of `ffmath.ModInverse` fails at its first use (`curve.ScalarMul` for
`alpha_sk_uInv`, `ffmath.Multiply` for the inverse of `Sk_u`). The test `relation == nil`
has no counterpart: a relation is a value here. -/
def ProveAddLiquidity.trace (pp : Params Point) (relation : AddLiquidityRelation Point)
    (draws : AddLiquidityDraws) : GoResult (AddLiquidityTrace Point) :=
  let buf := statementBuf pp relation.Pk_u relation.Pk_pool relation.C_uA relation.C_uB
    relation.C_uA_Delta relation.C_uB_Delta relation.C_LP_Delta relation.T_uA relation.T_uB
    relation.AssetAId relation.AssetBId
  -- valid enc
  let alpha_r_DeltaLP := draws.alpha_r_DeltaLP
  let A_CLPL_Delta := curve.ScalarMul relation.Pk_u alpha_r_DeltaLP
  let A_CLPR_DeltaHExp_DeltaLPNeg := curve.ScalarMul pp.G alpha_r_DeltaLP
  let buf := writePointIntoBuf pp buf A_CLPL_Delta
  let buf := writePointIntoBuf pp buf A_CLPR_DeltaHExp_DeltaLPNeg
  -- ownership
  let alpha_sk_u := draws.alpha_sk_u
  match ffmath.ModInverse alpha_sk_u pp.Order with
  | none => GoResult.crashed
  | some alpha_sk_uInv =>
    let alpha_bar_r_A := draws.alpha_bar_r_A
    let alpha_bar_r_B := draws.alpha_bar_r_B
    let A_pk_u := curve.ScalarMul pp.G alpha_sk_u
    -- user asset A part
    let A_T_uAC_uARPrimeInv := curve.Add relation.C_uA.CL relation.C_uA_Delta.CL
    let A_T_uAC_uARPrimeInv := curve.Neg A_T_uAC_uARPrimeInv
    let A_T_uAC_uARPrimeInv := curve.ScalarMul A_T_uAC_uARPrimeInv alpha_sk_uInv
    let A_T_uAC_uARPrimeInv :=
      curve.Add A_T_uAC_uARPrimeInv (curve.ScalarMul pp.G alpha_bar_r_A)
    -- user asset B part
    let A_T_uBC_uBRPrimeInv := curve.Add relation.C_uB.CL relation.C_uB_Delta.CL
    let A_T_uBC_uBRPrimeInv := curve.Neg A_T_uBC_uBRPrimeInv
    let A_T_uBC_uBRPrimeInv := curve.ScalarMul A_T_uBC_uBRPrimeInv alpha_sk_uInv
    let A_T_uBC_uBRPrimeInv :=
      curve.Add A_T_uBC_uBRPrimeInv (curve.ScalarMul pp.G alpha_bar_r_B)
    -- gas part
    let gas : Int × Point :=
      if relation.GasFeeAssetId = relation.AssetAId then
        (alpha_bar_r_A, A_T_uAC_uARPrimeInv)
      else if relation.GasFeeAssetId = relation.AssetBId then
        (alpha_bar_r_B, A_T_uBC_uBRPrimeInv)
      else
        let C_feeLPrimeInv := curve.Neg relation.C_fee.CL
        let alpha_bar_r_fee := draws.alpha_bar_r_fee
        (alpha_bar_r_fee,
          curve.Add (curve.ScalarMul pp.G alpha_bar_r_fee)
            (curve.ScalarMul C_feeLPrimeInv alpha_sk_uInv))
    let alpha_bar_r_fee := gas.1
    let A_T_feeC_feeRPrimeInv := gas.2
    -- gas fee
    let buf := writePointIntoBuf pp buf A_T_feeC_feeRPrimeInv
    let buf := writeEncIntoBuf pp buf relation.C_fee
    let buf := writeUint64IntoBuf buf (uint64 relation.GasFeeAssetId)
    let buf := writeUint64IntoBuf buf relation.GasFee
    -- write into buf
    let buf := writePointIntoBuf pp buf A_pk_u
    let buf := writePointIntoBuf pp buf A_T_uAC_uARPrimeInv
    let buf := writePointIntoBuf pp buf A_T_uBC_uBRPrimeInv
    -- compute challenge
    match pp.HashToInt buf with
    | Except.error e => GoResult.error e
    | Except.ok c =>
      match ffmath.ModInverse relation.Sk_u pp.Order with
      | none => GoResult.crashed
      | some Sk_uInv =>
        -- compute response values
        let Z_rDelta_LP :=
          ffmath.AddMod alpha_r_DeltaLP (ffmath.Multiply c relation.R_DeltaLP) pp.Order
        let Z_sk_u := ffmath.AddMod alpha_sk_u (ffmath.Multiply c relation.Sk_u) pp.Order
        let Z_bar_r_A :=
          ffmath.AddMod alpha_bar_r_A (ffmath.Multiply c relation.Bar_r_A) pp.Order
        let Z_bar_r_B :=
          ffmath.AddMod alpha_bar_r_B (ffmath.Multiply c relation.Bar_r_B) pp.Order
        let Z_sk_uInv := ffmath.AddMod alpha_sk_uInv (ffmath.Multiply c Sk_uInv) pp.Order
        -- gas fee
        let Z_bar_r_fee :=
          ffmath.AddMod alpha_bar_r_fee (ffmath.Multiply c relation.Bar_r_fee) pp.Order
        GoResult.ok { buf := buf, c := c, proof :=
          { A_CLPL_Delta := A_CLPL_Delta
            A_CLPR_DeltaHExp_DeltaLPNeg := A_CLPR_DeltaHExp_DeltaLPNeg
            Z_rDelta_LP := Z_rDelta_LP
            A_pk_u := A_pk_u
            A_T_uAC_uARPrimeInv := A_T_uAC_uARPrimeInv
            A_T_uBC_uBRPrimeInv := A_T_uBC_uBRPrimeInv
            Z_sk_u := Z_sk_u
            Z_bar_r_A := Z_bar_r_A
            Z_bar_r_B := Z_bar_r_B
            Z_sk_uInv := Z_sk_uInv
            ARangeProof := relation.ARangeProof
            BRangeProof := relation.BRangeProof
            C_uA := relation.C_uA
            C_uB := relation.C_uB
            C_uA_Delta := relation.C_uA_Delta
            C_uB_Delta := relation.C_uB_Delta
            LC_poolA_Delta := relation.LC_poolA_Delta
            LC_poolB_Delta := relation.LC_poolB_Delta
            C_LP_Delta := relation.C_LP_Delta
            Pk_u := relation.Pk_u
            Pk_pool := relation.Pk_pool
            R_DeltaA := relation.R_DeltaA
            R_DeltaB := relation.R_DeltaB
            T_uA := relation.T_uA
            T_uB := relation.T_uB
            B_poolA := relation.B_poolA
            B_poolB := relation.B_poolB
            B_A_Delta := relation.B_A_Delta
            B_B_Delta := relation.B_B_Delta
            Delta_LP := relation.Delta_LP
            AssetAId := relation.AssetAId
            AssetBId := relation.AssetBId
            A_T_feeC_feeRPrimeInv := A_T_feeC_feeRPrimeInv
            Z_bar_r_fee := Z_bar_r_fee
            C_fee := relation.C_fee
            T_fee := relation.T_fee
            GasFeeAssetId := relation.GasFeeAssetId
            GasFee := relation.GasFee
            GasFeePrimeRangeProof := relation.GasFeePrimeRangeProof } }

/-- The function `ProveAddLiquidity`. -/
def ProveAddLiquidity (pp : Params Point) (relation : AddLiquidityRelation Point)
    (draws : AddLiquidityDraws) : GoResult (AddLiquidityProof Point) :=
  match ProveAddLiquidity.trace pp relation draws with
  | GoResult.ok t => GoResult.ok t.proof
  | GoResult.error e => GoResult.error e
  | GoResult.crashed => GoResult.crashed

/-- Number of binary digits of `n` (`0` for `0`), for `n < 2^fuel`. -/
def bitLenAux : Nat → Nat → Nat
  | 0, _ => 0
  | fuel + 1, n => if n = 0 then 0 else bitLenAux fuel (n / 2) + 1

/-- Number of binary digits of a value below `2^64`. -/
def bitLen (n : Nat) : Nat := bitLenAux 64 n

/-- Integer square root, bit by bit: `res` holds the bits above position `k`. -/
def isqrtBits (n : Nat) : Nat → Nat → Nat
  | 0, res => res
  | k + 1, res =>
    let cand := res + 2 ^ k
    isqrtBits n k (if cand * cand ≤ n then cand else res)

/-- The integer square root `⌊√n⌋` of a value below `2^192`. -/
def isqrt (n : Nat) : Nat := isqrtBits n 96 0

/-- The conversion `float64(x)` of a `uint64`: the value of the nearest double (53-bit
significand, ties to even), which is an integer. -/
def float64OfUint64 (n : Nat) : Nat :=
  let e := bitLen n - 53
  if e = 0 then n
  else
    let q := n / 2 ^ e
    let r := n % 2 ^ e
    let half := 2 ^ (e - 1)
    let m := if half < r ∨ (r = half ∧ q % 2 = 1) then q + 1 else q
    m * 2 ^ e

/-- The value `math.Floor(math.Sqrt(x))` for a double `x` that is an integer in `[0, 2^64]`:
`math.Sqrt` returns the double nearest to `√x`, whose 53-bit significand `M` is `√x` scaled
by `2^sh` and rounded to nearest (a tie cannot occur); `math.Floor` drops the `sh` fraction
bits. -/
def floorSqrtFloat64 (x : Nat) : Nat :=
  let s := isqrt x
  let k := bitLen s
  let sh := 53 - k
  let X := x * 4 ^ sh
  let t := isqrt X
  let M := if t * t + t < X then t + 1 else t
  M / 2 ^ sh

/-- The conversion `int64(f)` of a double that is a non-negative integer. Go leaves the
result for `f ≥ 2^63` to the implementation; on amd64 it is the least `int64`. -/
def float64ToInt64 (f : Nat) : Int := if f < 2 ^ 63 then (f : Int) else -(2 ^ 63)

/-- The function `verifyAddLiquidityParams` (its error is always nil, so only `res` is
returned). -/
def verifyAddLiquidityParams (pp : Params Point) (proof : AddLiquidityProof Point) : Bool :=
  let B_A_Delta := int64 (-(int64 proof.B_A_Delta))
  let B_B_Delta := int64 (-(int64 proof.B_B_Delta))
  -- C_uA_Delta
  let C_uA_DeltaCL := curve.ScalarMul proof.Pk_u proof.R_DeltaA
  let C_uA_DeltaCRL := curve.ScalarBaseMul pp proof.R_DeltaA
  let C_uA_DeltaCRR := curve.ScalarMul pp.H B_A_Delta
  let C_uA_DeltaCR := curve.Add C_uA_DeltaCRL C_uA_DeltaCRR
  let C_uA_Delta : ElGamalEnc Point := { CL := C_uA_DeltaCL, CR := C_uA_DeltaCR }
  -- C_uB_Delta
  let C_uB_DeltaCL := curve.ScalarMul proof.Pk_u proof.R_DeltaB
  let C_uB_DeltaCRL := curve.ScalarBaseMul pp proof.R_DeltaB
  let C_uB_DeltaCRR := curve.ScalarMul pp.H B_B_Delta
  let C_uB_DeltaCR := curve.Add C_uB_DeltaCRL C_uB_DeltaCRR
  let C_uB_Delta : ElGamalEnc Point := { CL := C_uB_DeltaCL, CR := C_uB_DeltaCR }
  let LC_poolA_Delta : ElGamalEnc Point :=
    { CL := curve.ScalarMul proof.Pk_pool proof.R_DeltaA
      CR := curve.Add C_uA_DeltaCRL (curve.Neg C_uA_DeltaCRR) }
  let LC_poolB_Delta : ElGamalEnc Point :=
    { CL := curve.ScalarMul proof.Pk_pool proof.R_DeltaB
      CR := curve.Add C_uB_DeltaCRL (curve.Neg C_uB_DeltaCRR) }
  if !equalEnc C_uA_Delta proof.C_uA_Delta || !equalEnc C_uB_Delta proof.C_uB_Delta ||
      !equalEnc LC_poolA_Delta proof.LC_poolA_Delta ||
      !equalEnc LC_poolB_Delta proof.LC_poolB_Delta then
    false
  else
    -- verify LP
    let Delta_LPCheck :=
      uint64 (floorSqrtFloat64 (float64OfUint64 (uint64 (proof.B_A_Delta * proof.B_B_Delta))))
    if Delta_LPCheck ≠ proof.Delta_LP then false
    else
      -- verify AMM info & DAO balance info
      let l := ffmath.Multiply (int64 proof.B_poolB) (int64 proof.B_A_Delta)
      let r := ffmath.Multiply (int64 proof.B_poolA) (int64 proof.B_B_Delta)
      let maxPool :=
        float64ToInt64 (max (float64OfUint64 proof.B_poolA) (float64OfUint64 proof.B_poolB))
      if (ffmath.Sub l r).natAbs > maxPool then false
      else true

/-- Modelled from the spec: `verifyCtRangeRoutine` is not among the sources. §4.7/§5: each
range-proof verification runs as a task that sends the error sentinel `ErrCode` when the
verification fails (it rejects or returns an error) and a success value otherwise. -/
def verifyCtRangeRoutine (pp : Params Point) (proof : RangeProof Point) : Int :=
  match ctrange.RangeProof.Verify pp proof with
  | (true, none) => 1
  | _ => ErrCode

/-- The transcript `Verify` builds (lines 191–216). -/
def AddLiquidityProof.challengeBuf (pp : Params Point) (proof : AddLiquidityProof Point) :
    Bytes :=
  let buf := statementBuf pp proof.Pk_u proof.Pk_pool proof.C_uA proof.C_uB
    proof.C_uA_Delta proof.C_uB_Delta proof.C_LP_Delta proof.T_uA proof.T_uB
    proof.AssetAId proof.AssetBId
  -- write into buf
  let buf := writePointIntoBuf pp buf proof.A_CLPL_Delta
  let buf := writePointIntoBuf pp buf proof.A_CLPR_DeltaHExp_DeltaLPNeg
  -- gas fee
  let buf := writePointIntoBuf pp buf proof.A_T_feeC_feeRPrimeInv
  let buf := writeEncIntoBuf pp buf proof.C_fee
  let buf := writeUint64IntoBuf buf (uint64 proof.GasFeeAssetId)
  let buf := writeUint64IntoBuf buf proof.GasFee
  let buf := writePointIntoBuf pp buf proof.A_pk_u
  let buf := writePointIntoBuf pp buf proof.A_T_uAC_uARPrimeInv
  let buf := writePointIntoBuf pp buf proof.A_T_uBC_uBRPrimeInv
  buf

/-- The comparison of `Verify` for one opening: with `CPrimeNeg` the negated refreshed
ciphertext, `l = Z·G + Z_sk_uInv·CPrimeNeg.CL` and `r = A_T + c·(T + CPrimeNeg.CR)`; the
result is `l.Equal(r)` (the checks `l3 = r3`, `l4 = r4`, `l5 = r5`). -/
def openingHolds (pp : Params Point) (Z Z_sk_uInv : Int) (A_T T : Point)
    (CPrimeNeg : ElGamalEnc Point) (c : Int) : Bool :=
  let l := curve.Add (curve.ScalarMul pp.G Z) (curve.ScalarMul CPrimeNeg.CL Z_sk_uInv)
  let r := curve.Add A_T (curve.ScalarMul (curve.Add T CPrimeNeg.CR) c)
  decide (l = r)

/-- The refreshed ciphertext on the side that pays the fee: `EncAdd(C_u, C_u_Delta)` with
`curve.ScalarMul(H, big.NewInt(-int64(GasFee)))` added to `CR`. -/
def refreshWithFee (pp : Params Point) (C_u C_u_Delta : ElGamalEnc Point) (GasFee : Nat) :
    ElGamalEnc Point :=
  let CPrime := EncAdd C_u C_u_Delta
  { CPrime with
    CR := curve.Add CPrime.CR (curve.ScalarMul pp.H (int64 (-(int64 GasFee)))) }

/-- The fee ciphertext of the cross-asset branch: `C_fee` with
`curve.ScalarMul(H, big.NewInt(-int64(GasFee)))` added to `CR`. -/
def feePrime (pp : Params Point) (C_fee : ElGamalEnc Point) (GasFee : Nat) :
    ElGamalEnc Point :=
  let C_feeRPrime := curve.Add C_fee.CR (curve.ScalarMul pp.H (int64 (-(int64 GasFee))))
  { CL := C_fee.CL, CR := C_feeRPrime }

/-- The last part of `Verify` (lines 477–492): the three range proofs are verified by
`verifyCtRangeRoutine` and the results are received; an `ErrCode` gives `(false, nil)`. -/
def verifyRangeProofs (pp : Params Point) (proof : AddLiquidityProof Point) : Bool × GoError :=
  let vals := [verifyCtRangeRoutine pp proof.ARangeProof,
    verifyCtRangeRoutine pp proof.BRangeProof,
    verifyCtRangeRoutine pp proof.GasFeePrimeRangeProof]
  if vals.any (fun val => decide (val = ErrCode)) then (false, none) else (true, none)

/-- The method `AddLiquidityProof.Verify`. -/
def AddLiquidityProof.Verify (pp : Params Point) (proof : AddLiquidityProof Point) :
    Bool × GoError :=
  -- verify range proofs
  if !decide (proof.ARangeProof.A = proof.T_uA) || !decide (proof.BRangeProof.A = proof.T_uB)
  then (false, some errVerifyInvalidParams)
  else
    -- compute challenge
    match pp.HashToInt (proof.challengeBuf pp) with
    | Except.error e => (false, some e)
    | Except.ok c =>
      -- verify params
      if !verifyAddLiquidityParams pp proof then (false, some errVerifyInvalidParams)
      else
        -- verify enc
        let l1 := curve.ScalarMul proof.Pk_u proof.Z_rDelta_LP
        let r1 := curve.Add proof.A_CLPL_Delta (curve.ScalarMul proof.C_LP_Delta.CL c)
        if !decide (l1 = r1) then (false, none)
        else
          -- verify ownership
          let l2 := curve.ScalarMul pp.G proof.Z_sk_u
          let r2 := curve.Add proof.A_pk_u (curve.ScalarMul proof.Pk_u c)
          if !decide (l2 = r2) then (false, none)
          else if proof.GasFeeAssetId = proof.AssetAId then
            if !equalEnc proof.C_uA proof.C_fee ||
                !decide (proof.A_T_uAC_uARPrimeInv = proof.A_T_feeC_feeRPrimeInv) then
              (false, some errVerifyInvalidParams)
            else
              -- A part
              let C_uAPrimeNeg := negElgamal (refreshWithFee pp proof.C_uA proof.C_uA_Delta
                proof.GasFee)
              if !openingHolds pp proof.Z_bar_r_A proof.Z_sk_uInv proof.A_T_uAC_uARPrimeInv
                  proof.T_uA C_uAPrimeNeg c then (false, none)
              else
                -- B part
                let C_uBPrimeNeg := negElgamal (EncAdd proof.C_uB proof.C_uB_Delta)
                if !openingHolds pp proof.Z_bar_r_B proof.Z_sk_uInv proof.A_T_uBC_uBRPrimeInv
                    proof.T_uB C_uBPrimeNeg c then (false, none)
                else
                  -- fee part
                  let C_feePrimeNeg : ElGamalEnc Point :=
                    { CL := C_uAPrimeNeg.CL, CR := C_uAPrimeNeg.CR }
                  if !openingHolds pp proof.Z_bar_r_fee proof.Z_sk_uInv
                      proof.A_T_feeC_feeRPrimeInv proof.T_fee C_feePrimeNeg c then (false, none)
                  else verifyRangeProofs pp proof
          else if proof.GasFeeAssetId = proof.AssetBId then
            if !equalEnc proof.C_uB proof.C_fee ||
                !decide (proof.A_T_uBC_uBRPrimeInv = proof.A_T_feeC_feeRPrimeInv) then
              (false, some errVerifyInvalidParams)
            else
              -- A part
              let C_uAPrimeNeg := negElgamal (EncAdd proof.C_uA proof.C_uA_Delta)
              if !openingHolds pp proof.Z_bar_r_A proof.Z_sk_uInv proof.A_T_uAC_uARPrimeInv
                  proof.T_uA C_uAPrimeNeg c then (false, none)
              else
                -- B part
                let C_uBPrimeNeg := negElgamal (refreshWithFee pp proof.C_uB proof.C_uB_Delta
                  proof.GasFee)
                if !openingHolds pp proof.Z_bar_r_B proof.Z_sk_uInv proof.A_T_uBC_uBRPrimeInv
                    proof.T_uB C_uBPrimeNeg c then (false, none)
                else
                  -- fee part
                  let C_feePrimeNeg : ElGamalEnc Point :=
                    { CL := C_uBPrimeNeg.CL, CR := C_uBPrimeNeg.CR }
                  if !openingHolds pp proof.Z_bar_r_fee proof.Z_sk_uInv
                      proof.A_T_feeC_feeRPrimeInv proof.T_fee C_feePrimeNeg c then (false, none)
                  else verifyRangeProofs pp proof
          else
            -- A part
            let C_uAPrimeNeg := negElgamal (EncAdd proof.C_uA proof.C_uA_Delta)
            if !openingHolds pp proof.Z_bar_r_A proof.Z_sk_uInv proof.A_T_uAC_uARPrimeInv
                proof.T_uA C_uAPrimeNeg c then (false, none)
            else
              -- B part
              let C_uBPrimeNeg := negElgamal (EncAdd proof.C_uB proof.C_uB_Delta)
              if !openingHolds pp proof.Z_bar_r_B proof.Z_sk_uInv proof.A_T_uBC_uBRPrimeInv
                  proof.T_uB C_uBPrimeNeg c then (false, none)
              else
                -- fee part
                let C_feePrimeNeg := negElgamal (feePrime pp proof.C_fee proof.GasFee)
                if !openingHolds pp proof.Z_bar_r_fee proof.Z_sk_uInv
                    proof.A_T_feeC_feeRPrimeInv proof.T_fee C_feePrimeNeg c then (false, none)
                else verifyRangeProofs pp proof

/-- The check `l1 = r1` of `Verify` (encryption of the LP delta) under the challenge `c`. -/
def AddLiquidityProof.encHolds (proof : AddLiquidityProof Point) (c : Int) : Bool :=
  decide (curve.ScalarMul proof.Pk_u proof.Z_rDelta_LP =
    curve.Add proof.A_CLPL_Delta (curve.ScalarMul proof.C_LP_Delta.CL c))

/-- The check `l2 = r2` of `Verify` (ownership of the secret key) under the challenge `c`. -/
def AddLiquidityProof.ownershipHolds (pp : Params Point) (proof : AddLiquidityProof Point)
    (c : Int) : Bool :=
  decide (curve.ScalarMul pp.G proof.Z_sk_u =
    curve.Add proof.A_pk_u (curve.ScalarMul proof.Pk_u c))

/-- The aliasing test of `Verify` (lines 246 and 323): when the fee asset is A (or else B),
`C_fee` and the fee auxiliary point must be those of that side; no test otherwise. -/
def AddLiquidityProof.feeAliased (proof : AddLiquidityProof Point) : Bool :=
  if proof.GasFeeAssetId = proof.AssetAId then
    equalEnc proof.C_uA proof.C_fee &&
      decide (proof.A_T_uAC_uARPrimeInv = proof.A_T_feeC_feeRPrimeInv)
  else if proof.GasFeeAssetId = proof.AssetBId then
    equalEnc proof.C_uB proof.C_fee &&
      decide (proof.A_T_uBC_uBRPrimeInv = proof.A_T_feeC_feeRPrimeInv)
  else true

/-- The refreshed A-side ciphertext `C_uAPrime` of `Verify`, in each of the three branches. -/
def AddLiquidityProof.C_uAPrime (pp : Params Point) (proof : AddLiquidityProof Point) :
    ElGamalEnc Point :=
  if proof.GasFeeAssetId = proof.AssetAId then
    refreshWithFee pp proof.C_uA proof.C_uA_Delta proof.GasFee
  else EncAdd proof.C_uA proof.C_uA_Delta

/-- The refreshed B-side ciphertext `C_uBPrime` of `Verify`, in each of the three branches. -/
def AddLiquidityProof.C_uBPrime (pp : Params Point) (proof : AddLiquidityProof Point) :
    ElGamalEnc Point :=
  if proof.GasFeeAssetId = proof.AssetAId then EncAdd proof.C_uB proof.C_uB_Delta
  else if proof.GasFeeAssetId = proof.AssetBId then
    refreshWithFee pp proof.C_uB proof.C_uB_Delta proof.GasFee
  else EncAdd proof.C_uB proof.C_uB_Delta

/-- The refreshed fee ciphertext whose negation is `C_feePrimeNeg` in `Verify`. -/
def AddLiquidityProof.C_feePrime (pp : Params Point) (proof : AddLiquidityProof Point) :
    ElGamalEnc Point :=
  if proof.GasFeeAssetId = proof.AssetAId then proof.C_uAPrime pp
  else if proof.GasFeeAssetId = proof.AssetBId then proof.C_uBPrime pp
  else feePrime pp proof.C_fee proof.GasFee

/-- The check `l3 = r3` of `Verify`. -/
def AddLiquidityProof.openingA (pp : Params Point) (proof : AddLiquidityProof Point)
    (c : Int) : Bool :=
  openingHolds pp proof.Z_bar_r_A proof.Z_sk_uInv proof.A_T_uAC_uARPrimeInv proof.T_uA
    (negElgamal (proof.C_uAPrime pp)) c

/-- The check `l4 = r4` of `Verify`. -/
def AddLiquidityProof.openingB (pp : Params Point) (proof : AddLiquidityProof Point)
    (c : Int) : Bool :=
  openingHolds pp proof.Z_bar_r_B proof.Z_sk_uInv proof.A_T_uBC_uBRPrimeInv proof.T_uB
    (negElgamal (proof.C_uBPrime pp)) c

/-- The check `l5 = r5` of `Verify`. -/
def AddLiquidityProof.openingFee (pp : Params Point) (proof : AddLiquidityProof Point)
    (c : Int) : Bool :=
  openingHolds pp proof.Z_bar_r_fee proof.Z_sk_uInv proof.A_T_feeC_feeRPrimeInv proof.T_fee
    (negElgamal (proof.C_feePrime pp)) c

/-- The checks of `Verify` in the order in which it makes them, with the result of each
failure. -/
def AddLiquidityProof.verdict (pp : Params Point) (proof : AddLiquidityProof Point) :
    Bool × GoError :=
  if proof.ARangeProof.A ≠ proof.T_uA ∨ proof.BRangeProof.A ≠ proof.T_uB then
    (false, some errVerifyInvalidParams)
  else
    match pp.HashToInt (proof.challengeBuf pp) with
    | Except.error e => (false, some e)
    | Except.ok c =>
      if verifyAddLiquidityParams pp proof = false then (false, some errVerifyInvalidParams)
      else if proof.encHolds c = false then (false, none)
      else if proof.ownershipHolds pp c = false then (false, none)
      else if proof.feeAliased = false then (false, some errVerifyInvalidParams)
      else if proof.openingA pp c = false then (false, none)
      else if proof.openingB pp c = false then (false, none)
      else if proof.openingFee pp c = false then (false, none)
      else verifyRangeProofs pp proof

/-- The randomness `alpha_bar_r_fee` of `ProveAddLiquidity`: the A-side or B-side value when
the fee is paid in that asset, a fresh draw otherwise. -/
def AddLiquidityRelation.feeAlpha (relation : AddLiquidityRelation Point)
    (draws : AddLiquidityDraws) : Int :=
  if relation.GasFeeAssetId = relation.AssetAId then draws.alpha_bar_r_A
  else if relation.GasFeeAssetId = relation.AssetBId then draws.alpha_bar_r_B
  else draws.alpha_bar_r_fee

/-- The auxiliary point `A_T_feeC_feeRPrimeInv` of `ProveAddLiquidity`: the A-side or B-side
point when the fee is paid in that asset, `alpha_bar_r_fee·G + alpha_sk_uInv·(−C_fee.CL)`
otherwise. -/
def AddLiquidityRelation.feeAux (pp : Params Point) (relation : AddLiquidityRelation Point)
    (draws : AddLiquidityDraws) (alpha_sk_uInv : Int) : Point :=
  if relation.GasFeeAssetId = relation.AssetAId then
    alpha_sk_uInv • (-(relation.C_uA.CL + relation.C_uA_Delta.CL)) +
      draws.alpha_bar_r_A • pp.G
  else if relation.GasFeeAssetId = relation.AssetBId then
    alpha_sk_uInv • (-(relation.C_uB.CL + relation.C_uB_Delta.CL)) +
      draws.alpha_bar_r_B • pp.G
  else draws.alpha_bar_r_fee • pp.G + alpha_sk_uInv • (-relation.C_fee.CL)

/-- The proof `ProveAddLiquidity` returns, written in closed form from the relation, the
draws, the two inverses (of `alpha_sk_u` and of `Sk_u`) and the challenge `c`. -/
def honestProof (pp : Params Point) (relation : AddLiquidityRelation Point)
    (draws : AddLiquidityDraws) (alpha_sk_uInv Sk_uInv c : Int) : AddLiquidityProof Point :=
  { A_CLPL_Delta := draws.alpha_r_DeltaLP • relation.Pk_u
    A_CLPR_DeltaHExp_DeltaLPNeg := draws.alpha_r_DeltaLP • pp.G
    Z_rDelta_LP := (draws.alpha_r_DeltaLP + c * relation.R_DeltaLP) % pp.Order
    A_pk_u := draws.alpha_sk_u • pp.G
    A_T_uAC_uARPrimeInv :=
      alpha_sk_uInv • (-(relation.C_uA.CL + relation.C_uA_Delta.CL)) +
        draws.alpha_bar_r_A • pp.G
    A_T_uBC_uBRPrimeInv :=
      alpha_sk_uInv • (-(relation.C_uB.CL + relation.C_uB_Delta.CL)) +
        draws.alpha_bar_r_B • pp.G
    Z_sk_u := (draws.alpha_sk_u + c * relation.Sk_u) % pp.Order
    Z_bar_r_A := (draws.alpha_bar_r_A + c * relation.Bar_r_A) % pp.Order
    Z_bar_r_B := (draws.alpha_bar_r_B + c * relation.Bar_r_B) % pp.Order
    Z_sk_uInv := (alpha_sk_uInv + c * Sk_uInv) % pp.Order
    ARangeProof := relation.ARangeProof
    BRangeProof := relation.BRangeProof
    C_uA := relation.C_uA
    C_uB := relation.C_uB
    C_uA_Delta := relation.C_uA_Delta
    C_uB_Delta := relation.C_uB_Delta
    LC_poolA_Delta := relation.LC_poolA_Delta
    LC_poolB_Delta := relation.LC_poolB_Delta
    C_LP_Delta := relation.C_LP_Delta
    Pk_u := relation.Pk_u
    Pk_pool := relation.Pk_pool
    R_DeltaA := relation.R_DeltaA
    R_DeltaB := relation.R_DeltaB
    T_uA := relation.T_uA
    T_uB := relation.T_uB
    B_poolA := relation.B_poolA
    B_poolB := relation.B_poolB
    B_A_Delta := relation.B_A_Delta
    B_B_Delta := relation.B_B_Delta
    Delta_LP := relation.Delta_LP
    AssetAId := relation.AssetAId
    AssetBId := relation.AssetBId
    A_T_feeC_feeRPrimeInv := relation.feeAux pp draws alpha_sk_uInv
    Z_bar_r_fee := (relation.feeAlpha draws + c * relation.Bar_r_fee) % pp.Order
    C_fee := relation.C_fee
    T_fee := relation.T_fee
    GasFeeAssetId := relation.GasFeeAssetId
    GasFee := relation.GasFee
    GasFeePrimeRangeProof := relation.GasFeePrimeRangeProof }

/-- The transcript in the documented order, from the statement of the relation and the
auxiliary points of a proof: `FixedCurve, Pk_u, Pk_pool, C_uA, C_uB, C_uA_Delta, C_uB_Delta,
C_LP_Delta, T_uA, T_uB, AssetAId, AssetBId, A_CLPL_Delta, A_CLPR_DeltaHExp_DeltaLPNeg,
A_T_feeC_feeRPrimeInv, C_fee, GasFeeAssetId, GasFee, A_pk_u, A_T_uAC_uARPrimeInv,
A_T_uBC_uBRPrimeInv`. A point is its two coordinate encodings, a ciphertext its two points,
an integer its 8 big-endian bytes. -/
def documentedTranscript (pp : Params Point) (relation : AddLiquidityRelation Point)
    (proof : AddLiquidityProof Point) : Bytes :=
  let pt := fun (p : Point) => pp.marshalX p ++ pp.marshalY p
  let enc := fun (C : ElGamalEnc Point) => pt C.CL ++ pt C.CR
  let u64 := fun (n : Nat) => (List.range 8).map (fun k => (n / 256 ^ (7 - k)) % 256)
  List.flatten
    [pp.FixedCurve, pt relation.Pk_u, pt relation.Pk_pool, enc relation.C_uA,
      enc relation.C_uB, enc relation.C_uA_Delta, enc relation.C_uB_Delta,
      enc relation.C_LP_Delta, pt relation.T_uA, pt relation.T_uB,
      u64 (uint64 relation.AssetAId), u64 (uint64 relation.AssetBId),
      pt proof.A_CLPL_Delta, pt proof.A_CLPR_DeltaHExp_DeltaLPNeg,
      pt proof.A_T_feeC_feeRPrimeInv, enc relation.C_fee,
      u64 (uint64 relation.GasFeeAssetId), u64 relation.GasFee,
      pt proof.A_pk_u, pt proof.A_T_uAC_uARPrimeInv, pt proof.A_T_uBC_uBRPrimeInv]

/-- A Pedersen-style opening of the refreshed ciphertext `CPrime`: the commitment
`CPrime.CR − Sk_uInv·CPrime.CL + r̄·G`. -/
def openingOf (pp : Params Point) (CPrime : ElGamalEnc Point) (Sk_uInv bar_r : Int) : Point :=
  CPrime.CR - Sk_uInv • CPrime.CL + bar_r • pp.G

/-- The conditions on a relation that do not depend on the fee asset. `Sk_uInv` is an
inverse of `Sk_u` modulo `q`. The amounts are the unsigned 64-bit values stored in the
relation: the user-side delta ciphertexts encrypt `−B_A_Delta` and `−B_B_Delta`, the pool-side
ones `B_A_Delta` and `B_B_Delta`, the LP rule is `Delta_LP = ⌊√(B_A_Delta · B_B_Delta)⌋` on the
exact product and the AMM rule is `|B_poolB·B_A_Delta − B_poolA·B_B_Delta| ≤
max(B_poolA, B_poolB)` on the exact integers. The `CL` components of the current ciphertexts
lie in the prime-order subgroup, as those of every ciphertext `(r·pk, r·G + v·H)` do. -/
structure AddLiquidityRelation.WellFormed (pp : Params Point)
    (relation : AddLiquidityRelation Point) (Sk_uInv : Int) : Prop where
  /-- `Pk_u = Sk_u·G`. -/
  pk : relation.Pk_u = relation.Sk_u • pp.G
  /-- `Sk_u` is invertible modulo `q`, with inverse `Sk_uInv`. -/
  skInv : (relation.Sk_u * Sk_uInv) % pp.Order = 1 % pp.Order
  /-- `C_LP_Delta.CL = R_DeltaLP·Pk_u`. -/
  lpEnc : relation.C_LP_Delta.CL = relation.R_DeltaLP • relation.Pk_u
  /-- `C_uA.CL` is in the prime-order subgroup. -/
  subA : (pp.Order : Int) • relation.C_uA.CL = 0
  /-- `C_uB.CL` is in the prime-order subgroup. -/
  subB : (pp.Order : Int) • relation.C_uB.CL = 0
  /-- The amounts are `uint64` values. -/
  amounts : relation.B_poolA < 2 ^ 64 ∧ relation.B_poolB < 2 ^ 64 ∧
    relation.B_A_Delta < 2 ^ 64 ∧ relation.B_B_Delta < 2 ^ 64 ∧ relation.Delta_LP < 2 ^ 64
  /-- `C_uA_Delta.CL = R_DeltaA·Pk_u`. -/
  deltaACL : relation.C_uA_Delta.CL = relation.R_DeltaA • relation.Pk_u
  /-- `C_uA_Delta.CR = R_DeltaA·G − B_A_Delta·H`. -/
  deltaACR : relation.C_uA_Delta.CR =
    relation.R_DeltaA • pp.G + (-(relation.B_A_Delta : Int)) • pp.H
  /-- `C_uB_Delta.CL = R_DeltaB·Pk_u`. -/
  deltaBCL : relation.C_uB_Delta.CL = relation.R_DeltaB • relation.Pk_u
  /-- `C_uB_Delta.CR = R_DeltaB·G − B_B_Delta·H`. -/
  deltaBCR : relation.C_uB_Delta.CR =
    relation.R_DeltaB • pp.G + (-(relation.B_B_Delta : Int)) • pp.H
  /-- `LC_poolA_Delta.CL = R_DeltaA·Pk_pool`. -/
  poolACL : relation.LC_poolA_Delta.CL = relation.R_DeltaA • relation.Pk_pool
  /-- `LC_poolA_Delta.CR = R_DeltaA·G + B_A_Delta·H`. -/
  poolACR : relation.LC_poolA_Delta.CR =
    relation.R_DeltaA • pp.G + (relation.B_A_Delta : Int) • pp.H
  /-- `LC_poolB_Delta.CL = R_DeltaB·Pk_pool`. -/
  poolBCL : relation.LC_poolB_Delta.CL = relation.R_DeltaB • relation.Pk_pool
  /-- `LC_poolB_Delta.CR = R_DeltaB·G + B_B_Delta·H`. -/
  poolBCR : relation.LC_poolB_Delta.CR =
    relation.R_DeltaB • pp.G + (relation.B_B_Delta : Int) • pp.H
  /-- The LP rule: `Delta_LP = ⌊√(B_A_Delta · B_B_Delta)⌋`. -/
  lpRule : relation.Delta_LP = Nat.sqrt (relation.B_A_Delta * relation.B_B_Delta)
  /-- The AMM rule: `|B_poolB·B_A_Delta − B_poolA·B_B_Delta| ≤ max(B_poolA, B_poolB)`. -/
  ammRule : Int.natAbs ((relation.B_poolB : Int) * relation.B_A_Delta -
      (relation.B_poolA : Int) * relation.B_B_Delta) ≤ max relation.B_poolA relation.B_poolB
  /-- The A range proof verifies. -/
  rangeA : ctrange.RangeProof.Verify pp relation.ARangeProof = (true, none)
  /-- The B range proof verifies. -/
  rangeB : ctrange.RangeProof.Verify pp relation.BRangeProof = (true, none)
  /-- The fee range proof verifies. -/
  rangeFee : ctrange.RangeProof.Verify pp relation.GasFeePrimeRangeProof = (true, none)
  /-- `ARangeProof.A = T_uA`. -/
  bindA : relation.ARangeProof.A = relation.T_uA
  /-- `BRangeProof.A = T_uB`. -/
  bindB : relation.BRangeProof.A = relation.T_uB

/-- The amounts on which the machine arithmetic of `verifyAddLiquidityParams` is exact: the
deltas are below `2^63`, so that `int64` keeps them; their product is below `2^52`, so that
it does not wrap and the double `math.Sqrt` returns has the floor of the exact square root;
the pool balances are below `2^53`, so that `float64` keeps them. -/
structure AddLiquidityRelation.AmountsExact (relation : AddLiquidityRelation Point) :
    Prop where
  /-- `B_A_Delta < 2^63`. -/
  deltaA : relation.B_A_Delta < 2 ^ 63
  /-- `B_B_Delta < 2^63`. -/
  deltaB : relation.B_B_Delta < 2 ^ 63
  /-- `B_A_Delta · B_B_Delta < 2^52`. -/
  product : relation.B_A_Delta * relation.B_B_Delta < 2 ^ 52
  /-- `B_poolA < 2^53`. -/
  poolA : relation.B_poolA < 2 ^ 53
  /-- `B_poolB < 2^53`. -/
  poolB : relation.B_poolB < 2 ^ 53

/-- The fee is paid in asset A: `C_fee` is the A-side ciphertext, and `T_uA`, `T_fee` open the
A-side refreshed ciphertext with the fee deducted, `T_uB` the B-side one. -/
structure AddLiquidityRelation.FeeInA (pp : Params Point)
    (relation : AddLiquidityRelation Point) (Sk_uInv : Int) : Prop where
  /-- The fee asset is asset A. -/
  asset : relation.GasFeeAssetId = relation.AssetAId
  /-- `C_fee.CL = C_uA.CL`. -/
  feeCL : relation.C_fee.CL = relation.C_uA.CL
  /-- `C_fee.CR = C_uA.CR`. -/
  feeCR : relation.C_fee.CR = relation.C_uA.CR
  /-- `T_uA` opens `C_uA + C_uA_Delta − GasFee·H`. -/
  openA : relation.T_uA = openingOf pp
    (refreshWithFee pp relation.C_uA relation.C_uA_Delta relation.GasFee) Sk_uInv
    relation.Bar_r_A
  /-- `T_uB` opens `C_uB + C_uB_Delta`. -/
  openB : relation.T_uB = openingOf pp (EncAdd relation.C_uB relation.C_uB_Delta) Sk_uInv
    relation.Bar_r_B
  /-- `T_fee` opens `C_uA + C_uA_Delta − GasFee·H`. -/
  openFee : relation.T_fee = openingOf pp
    (refreshWithFee pp relation.C_uA relation.C_uA_Delta relation.GasFee) Sk_uInv
    relation.Bar_r_fee

/-- The fee is paid in asset B (and asset B is not asset A): `C_fee` is the B-side
ciphertext, and `T_uB`, `T_fee` open the B-side refreshed ciphertext with the fee deducted,
`T_uA` the A-side one. -/
structure AddLiquidityRelation.FeeInB (pp : Params Point)
    (relation : AddLiquidityRelation Point) (Sk_uInv : Int) : Prop where
  /-- The fee asset is not asset A. -/
  notA : relation.GasFeeAssetId ≠ relation.AssetAId
  /-- The fee asset is asset B. -/
  asset : relation.GasFeeAssetId = relation.AssetBId
  /-- `C_fee.CL = C_uB.CL`. -/
  feeCL : relation.C_fee.CL = relation.C_uB.CL
  /-- `C_fee.CR = C_uB.CR`. -/
  feeCR : relation.C_fee.CR = relation.C_uB.CR
  /-- `T_uA` opens `C_uA + C_uA_Delta`. -/
  openA : relation.T_uA = openingOf pp (EncAdd relation.C_uA relation.C_uA_Delta) Sk_uInv
    relation.Bar_r_A
  /-- `T_uB` opens `C_uB + C_uB_Delta − GasFee·H`. -/
  openB : relation.T_uB = openingOf pp
    (refreshWithFee pp relation.C_uB relation.C_uB_Delta relation.GasFee) Sk_uInv
    relation.Bar_r_B
  /-- `T_fee` opens `C_uB + C_uB_Delta − GasFee·H`. -/
  openFee : relation.T_fee = openingOf pp
    (refreshWithFee pp relation.C_uB relation.C_uB_Delta relation.GasFee) Sk_uInv
    relation.Bar_r_fee

/-- The fee is paid in a third asset: `T_uA` and `T_uB` open the refreshed ciphertexts
without fee deduction, and `T_fee` opens `C_fee` with the fee deducted:
`T_fee = (C_fee.CR − GasFee·H) − Sk_uInv·C_fee.CL + Bar_r_fee·G`. -/
structure AddLiquidityRelation.CrossFee (pp : Params Point)
    (relation : AddLiquidityRelation Point) (Sk_uInv : Int) : Prop where
  /-- The fee asset is not asset A. -/
  notA : relation.GasFeeAssetId ≠ relation.AssetAId
  /-- The fee asset is not asset B. -/
  notB : relation.GasFeeAssetId ≠ relation.AssetBId
  /-- `C_fee.CL` is in the prime-order subgroup. -/
  subFee : (pp.Order : Int) • relation.C_fee.CL = 0
  /-- `T_uA` opens `C_uA + C_uA_Delta`. -/
  openA : relation.T_uA = openingOf pp (EncAdd relation.C_uA relation.C_uA_Delta) Sk_uInv
    relation.Bar_r_A
  /-- `T_uB` opens `C_uB + C_uB_Delta`. -/
  openB : relation.T_uB = openingOf pp (EncAdd relation.C_uB relation.C_uB_Delta) Sk_uInv
    relation.Bar_r_B
  /-- `T_fee` opens `C_fee − GasFee·H`. -/
  openFee : relation.T_fee = openingOf pp (feePrime pp relation.C_fee relation.GasFee)
    Sk_uInv relation.Bar_r_fee

/-- What an accepted proof satisfies: the hash of its transcript is some `c`, and every
check of `Verify` holds under `c`. -/
structure AddLiquidityProof.Accepted (pp : Params Point) (proof : AddLiquidityProof Point)
    (c : Int) : Prop where
  hash : pp.HashToInt (proof.challengeBuf pp) = Except.ok c
  bindA : proof.ARangeProof.A = proof.T_uA
  bindB : proof.BRangeProof.A = proof.T_uB
  params : verifyAddLiquidityParams pp proof = true
  enc : proof.encHolds c = true
  own : proof.ownershipHolds pp c = true
  aliased : proof.feeAliased = true
  openA : proof.openingA pp c = true
  openB : proof.openingB pp c = true
  openFee : proof.openingFee pp c = true
  rangeA : ctrange.RangeProof.Verify pp proof.ARangeProof = (true, none)
  rangeB : ctrange.RangeProof.Verify pp proof.BRangeProof = (true, none)
  rangeFee : ctrange.RangeProof.Verify pp proof.GasFeePrimeRangeProof = (true, none)

end zero

namespace ctrange

variable {Point : Type} [AddCommGroup Point] [DecidableEq Point]

/-- The value of the hash of `buf` when the hash succeeds (and `0` when it fails). -/
def hashValue (pp : Params Point) (buf : Bytes) : Int :=
  match pp.HashToInt buf with
  | Except.ok v => v
  | Except.error _ => 0

/-- The per-bit challenge the verifier recomputes:
`c_i = Hash(Zs[i]·G − C·(As[i] − 2^i·H))`, with `G`, `H` the generators of the proof. -/
def RangeProof.bitChallenge (pp : Params Point) (proof : RangeProof Point) (i : Nat) : Int :=
  hashValue pp (writeXY pp []
    (proof.Zs i • proof.G - proof.C • (proof.As i - ((2 : Int) ^ i) • proof.H)))

/-- The per-bit auxiliary point the verifier recomputes: `A_A_i = c_i·As[i]`. -/
def RangeProof.auxPoint (pp : Params Point) (proof : RangeProof Point) (i : Nat) : Point :=
  proof.bitChallenge pp i • proof.As i

/-- The challenge the verifier recomputes: `Hash(A_A_0 ‖ … ‖ A_A_31) mod Q`, each point
written as its two coordinates. -/
def RangeProof.recomputedChallenge (pp : Params Point) (proof : RangeProof Point) : Int :=
  hashValue pp (((List.range RangeMaxBits).map
    (fun i => pp.marshalX (proof.auxPoint pp i) ++ pp.marshalY (proof.auxPoint pp i))).flatten)
    % pp.Q

/-- The bit `i` of `b`, as `toBinary` lists it. -/
def bitOf (b : Int) (i : Nat) : Int := (b / 2 ^ i) % 2

/-- The per-bit challenge of the prover for a bit `0`: the hash of the commitment
`(C·2^i)·h + rs[i]·g` built in `phase2`. -/
def proverChallenge (pp : Params Point) (C : Int) (g h : Point) (draws : RangeDraws)
    (i : Nat) : Int :=
  hashValue pp (writeXY pp []
    (pedersen.Commit (ffmath.Multiply C ((2 : Int) ^ i)) (draws.rs i) h g))

/-- The inverse modulo `Order` of the per-bit challenge of the prover (`0` when there is
none). -/
def proverChallengeInv (pp : Params Point) (C : Int) (g h : Point) (draws : RangeDraws)
    (i : Nat) : Int :=
  (ffmath.ModInverse (proverChallenge pp C g h draws i) pp.Order).getD 0

/-- The blinding factor of `As[i]`: `r_i` for a bit `1`, `α_i·c_i⁻¹` for a bit `0`. -/
def blindingOf (pp : Params Point) (b C : Int) (g h : Point) (draws : RangeDraws)
    (i : Nat) : Int :=
  if bitOf b i = 1 then draws.rs i
  else draws.alphas i * proverChallengeInv pp C g h draws i

end ctrange

namespace ffmath

/-- Modelled from the spec: `ffmath.Add` is the sum of two big integers, without reduction
(§4.1). -/
def Add (a b : Int) : Int := a + b

end ffmath

namespace bn128

/-- The constant `ORDER`. -/
def ORDER : Int :=
  21888242871839275222246405745257275088548364400416034343698204186575808495617

/-- The function `F`; `new(big.Int).SetInt64(7)` is `7`. -/
def F (x : Int) : Int × GoError :=
  -- Compute x^2
  let x3p3 := ffmath.Multiply x x
  let x3p3 := ffmath.Mod x3p3 ORDER
  -- Compute x^3
  let x3p3 := ffmath.Multiply x3p3 x
  let x3p3 := ffmath.Mod x3p3 ORDER
  -- Compute X^3 + 3
  let x3p3 := ffmath.Add x3p3 7
  let x3p3 := ffmath.Mod x3p3 ORDER
  (x3p3, none)

end bn128

namespace ctrange

variable {Point : Type} [AddCommGroup Point] [DecidableEq Point]

/-- The part of `Prove` after `toBinary` (lines 54–89), for the bits `bs`: the two rounds of
workers, the challenge between them and the aggregate. `Prove` runs it on the bits of `b`
(`Prove_eq_proveBits`). -/
def proveBits (pp : Params Point) (bs : List Int) (g h : Point) (draws : RangeDraws) :
    GoResult (RangeProof Point) :=
  let run1 := phase1Loop pp g h draws bs 0 pp.H ProverSlots.empty
  if run1.crashed then GoResult.crashed
  else
    match joinWorkers run1.sent RangeMaxBits with
    | GoResult.error e => GoResult.error e
    | GoResult.crashed => GoResult.crashed
    | GoResult.ok _ =>
      match writeSlots pp run1.slots.A_As RangeMaxBits 0 [] with
      | none => GoResult.crashed
      | some buf =>
        match pp.HashToInt buf with
        | Except.error e => GoResult.error e
        | Except.ok c =>
          let C := ffmath.Mod c pp.Q
          let run2 := phase2Loop pp C g h draws bs 0 1 run1.slots
          if run2.crashed then GoResult.crashed
          else
            match joinWorkers run2.sent RangeMaxBits with
            | GoResult.error e => GoResult.error e
            | GoResult.crashed => GoResult.crashed
            | GoResult.ok _ =>
              match sumSlots run2.slots.As RangeMaxBits 0 curve.ZeroPoint with
              | none => GoResult.crashed
              | some A =>
                GoResult.ok
                  { G := g, H := h, C := C,
                    Zs := fun i => (run2.slots.Zs i).getD 0,
                    As := fun i => (run2.slots.As i).getD curve.ZeroPoint,
                    A := A }

end ctrange

namespace zero

variable {Point : Type} [AddCommGroup Point] [DecidableEq Point]

/-- The error of `AddPoolInfo`. -/
def errAddPoolInfo : String := "[AddPoolInfo] invalid params"

/-- The method `AddLiquidityProof.AddPoolInfo`: the proof after the call and the error. The
helper `validUint64` is not among the sources; it is the argument `validUint64`. -/
def AddLiquidityProof.AddPoolInfo (validUint64 : Nat → Bool) (proof : AddLiquidityProof Point)
    (b_pool_A b_pool_B : Nat) : AddLiquidityProof Point × GoError :=
  if !validUint64 b_pool_A || !validUint64 b_pool_B then (proof, some errAddPoolInfo)
  else
    let proof := { proof with B_poolA := b_pool_A }
    let proof := { proof with B_poolB := b_pool_B }
    (proof, none)

end zero

namespace txtypes

/-- The type `MintNftTxInfo`; an `int64` field is an integer, `*big.Int` is an optional
integer (`none` is nil), `[]byte` is a byte string. -/
structure MintNftTxInfo where
  CreatorAccountIndex : Int
  ToAccountIndex : Int
  ToAccountNameHash : String
  NftIndex : Int
  NftContentHash : String
  NftCollectionId : Int
  CreatorTreasuryRate : Int
  GasAccountIndex : Int
  GasFeeAssetId : Int
  GasFeeAssetAmount : Option Int
  ExpiredAt : Int
  Nonce : Int
  Sig : Bytes

/-- The package-level constants and helpers `Validate` and `Hash` use, which are not among
the sources: the bounds (`minPackedFeeAmount` and `maxPackedFeeAmount` are `*big.Int`, the
others integer constants), `IsValidHash`, `ChainId`, `ToPackedFee`, the buffer writers
`WriteInt64IntoBuf` and `WriteBigIntIntoBuf`, `common.FromHex`, and `curve.Modulus`. -/
structure Package where
  minAccountIndex : Int
  maxAccountIndex : Int
  minCollectionId : Int
  maxCollectionId : Int
  minTreasuryRate : Int
  maxTreasuryRate : Int
  minAssetId : Int
  maxAssetId : Int
  minPackedFeeAmount : Int
  maxPackedFeeAmount : Int
  minNonce : Int
  IsValidHash : String → Bool
  ChainId : Int
  ToPackedFee : Option Int → Except String Int
  WriteInt64IntoBuf : Bytes → List Int → Bytes
  WriteBigIntIntoBuf : Bytes → Int → Bytes
  FromHex : String → Bytes
  Modulus : Int

/-- The value `fmt.Errorf(format, n)` for a format that ends in `%d` (or `%s` with the
decimal string of a big integer). -/
def errorfInt (msg : String) (n : Int) : GoError := some (msg ++ toString n)

/-- The method `MintNftTxInfo.Validate`. -/
def MintNftTxInfo.Validate (pkg : Package) (txInfo : MintNftTxInfo) : GoError :=
  -- CreatorAccountIndex
  if txInfo.CreatorAccountIndex < pkg.minAccountIndex then
    errorfInt "CreatorAccountIndex should not be less than " pkg.minAccountIndex
  else if txInfo.CreatorAccountIndex > pkg.maxAccountIndex then
    errorfInt "CreatorAccountIndex should not be larger than " pkg.maxAccountIndex
  -- ToAccountIndex
  else if txInfo.ToAccountIndex < pkg.minAccountIndex then
    errorfInt "ToAccountIndex should not be less than " pkg.minAccountIndex
  else if txInfo.ToAccountIndex > pkg.maxAccountIndex then
    errorfInt "ToAccountIndex should not be larger than " pkg.maxAccountIndex
  -- ToAccountNameHash
  else if !pkg.IsValidHash txInfo.ToAccountNameHash then
    some ("ToAccountNameHash(" ++ txInfo.ToAccountNameHash ++ ") is invalid")
  -- NftContentHash
  else if !pkg.IsValidHash txInfo.NftContentHash then
    some ("NftContentHash(" ++ txInfo.NftContentHash ++ ") is invalid")
  -- NftCollectionId
  else if txInfo.NftCollectionId < pkg.minCollectionId then
    errorfInt "NftCollectionId should not be less than " pkg.minCollectionId
  else if txInfo.NftCollectionId > pkg.maxCollectionId then
    errorfInt "NftCollectionId should not be larger than " pkg.maxCollectionId
  -- CreatorTreasuryRate
  else if txInfo.CreatorTreasuryRate < pkg.minTreasuryRate then
    errorfInt "CreatorTreasuryRate should  not be less than " pkg.minTreasuryRate
  else if txInfo.CreatorTreasuryRate > pkg.maxTreasuryRate then
    errorfInt "CreatorTreasuryRate should not be larger than " pkg.maxTreasuryRate
  -- GasAccountIndex
  else if txInfo.GasAccountIndex < pkg.minAccountIndex then
    errorfInt "GasAccountIndex should not be less than " pkg.minAccountIndex
  else if txInfo.GasAccountIndex > pkg.maxAccountIndex then
    errorfInt "GasAccountIndex should not be larger than " pkg.maxAccountIndex
  -- GasFeeAssetId
  else if txInfo.GasFeeAssetId < pkg.minAssetId then
    errorfInt "GasFeeAssetId should not be less than " pkg.minAssetId
  else if txInfo.GasFeeAssetId > pkg.maxAssetId then
    errorfInt "GasFeeAssetId should not be larger than " pkg.maxAssetId
  else
    -- GasFeeAssetAmount
    match txInfo.GasFeeAssetAmount with
    | none => some "GasFeeAssetAmount should not be nil"
    | some amount =>
      if amount < pkg.minPackedFeeAmount then
        errorfInt "GasFeeAssetAmount should not be less than " pkg.minPackedFeeAmount
      else if amount > pkg.maxPackedFeeAmount then
        errorfInt "GasFeeAssetAmount should not be larger than " pkg.maxPackedFeeAmount
      -- Nonce
      else if txInfo.Nonce < pkg.minNonce then
        errorfInt "Nonce should not be less than " pkg.minNonce
      else none

/-- Go's `hash.Hash`, as far as `Hash` uses it: the state of the hash function with `Reset`,
`Write` and `Sum`. -/
structure HashFunc (σ : Type) where
  Reset : σ → σ
  Write : σ → Bytes → σ
  Sum : σ → Bytes → Bytes

/-- The value `new(big.Int).SetBytes(b)`: the bytes read as a big-endian number. -/
def SetBytes (b : Bytes) : Int := ((b.foldl (fun acc x => acc * 256 + x) 0 : Nat) : Int)

/-- The method `MintNftTxInfo.Hash`: the digest or the error, and the state of `hFunc` after
the call. -/
def MintNftTxInfo.Hash {σ : Type} (pkg : Package) (hFunc : HashFunc σ) (st : σ)
    (txInfo : MintNftTxInfo) : Except String Bytes × σ :=
  let st := hFunc.Reset st
  let buf : Bytes := []
  match pkg.ToPackedFee txInfo.GasFeeAssetAmount with
  | Except.error err => (Except.error err, st)
  | Except.ok packedFee =>
    let buf := pkg.WriteInt64IntoBuf buf
      [pkg.ChainId, txInfo.CreatorAccountIndex, txInfo.Nonce, txInfo.ExpiredAt]
    let buf := pkg.WriteInt64IntoBuf buf
      [txInfo.GasAccountIndex, txInfo.GasFeeAssetId, packedFee]
    let buf := pkg.WriteInt64IntoBuf buf
      [txInfo.ToAccountIndex, txInfo.CreatorTreasuryRate, txInfo.NftCollectionId]
    let buf := pkg.WriteBigIntIntoBuf buf
      (ffmath.Mod (SetBytes (pkg.FromHex txInfo.ToAccountNameHash)) pkg.Modulus)
    let buf := pkg.WriteBigIntIntoBuf buf
      (ffmath.Mod (SetBytes (pkg.FromHex txInfo.NftContentHash)) pkg.Modulus)
    let st := hFunc.Write st buf
    (Except.ok (hFunc.Sum st []), st)

end txtypes

namespace transactions

/-- The type `BlockConstraints`: the array `Txs [35]TxConstraints` is its slot function; only
the slots below `35` exist. The type `TxConstraints` is not among the sources: it is the
type `Tx`, whose zero value is `default`. -/
structure BlockConstraints (Tx : Type) where
  Txs : Nat → Tx

/-- The loop `for i := 0; i < len(txs); i++ { witness.Txs[i] = txs[i] }` from index `i`, with
`txs[i:]` left to copy: an index `i ≥ 35` is out of range for the array. -/
def SetBlockWitness.loop {Tx : Type} :
    List Tx → Nat → BlockConstraints Tx → GoResult (BlockConstraints Tx)
  | [], _, witness => GoResult.ok witness
  | tx :: rest, i, witness =>
    if i < 35 then
      SetBlockWitness.loop rest (i + 1) { witness with Txs := Function.update witness.Txs i tx }
    else GoResult.crashed

/-- The function `SetBlockWitness`; the named result `witness` starts as the zero value and
the error is always nil. -/
def SetBlockWitness {Tx : Type} [Inhabited Tx] (txs : List Tx) (_isEnabled : Bool) :
    GoResult (BlockConstraints Tx) :=
  SetBlockWitness.loop txs 0 { Txs := fun _ => default }

end transactions

namespace ctrange

variable {Point : Type} [AddCommGroup Point] [DecidableEq Point]

/-- The loop `for i := 0; i < RangeMaxBits; i++ { index := <-bitchan; … }` on the contents
of the package-level channel `bitchan`: it receives the messages at the front, returns the
error at the first `ErrCode`, and leaves the other messages in the channel; with no message
left it blocks. The result is paired with the contents of the channel afterwards. -/
def receiveWorkers : List Int → Nat → GoResult Unit × List Int
  | chan, 0 => (GoResult.ok (), chan)
  | [], _ + 1 => (GoResult.crashed, [])
  | m :: rest, n + 1 =>
    if m = ErrCode then (GoResult.error errUnableToConstruct, rest)
    else receiveWorkers rest n

/-- The part of `Prove` after `toBinary` (lines 54–89) with the contents `chan` of the
package-level channel `bitchan` at the call: the workers of a round put their messages
behind those already in the channel, and the receiving loop takes messages from the front.
The result is paired with the contents of the channel afterwards. (As in `proveBits`, the
workers of a round have all run when the loop receives.) -/
def proveBitsOn (pp : Params Point) (chan : List Int) (bs : List Int) (g h : Point)
    (draws : RangeDraws) : GoResult (RangeProof Point) × List Int :=
  let run1 := phase1Loop pp g h draws bs 0 pp.H ProverSlots.empty
  let chan := chan ++ run1.sent
  if run1.crashed then (GoResult.crashed, chan)
  else
    match receiveWorkers chan RangeMaxBits with
    | (GoResult.error e, chan) => (GoResult.error e, chan)
    | (GoResult.crashed, chan) => (GoResult.crashed, chan)
    | (GoResult.ok _, chan) =>
      match writeSlots pp run1.slots.A_As RangeMaxBits 0 [] with
      | none => (GoResult.crashed, chan)
      | some buf =>
        match pp.HashToInt buf with
        | Except.error e => (GoResult.error e, chan)
        | Except.ok c =>
          let C := ffmath.Mod c pp.Q
          let run2 := phase2Loop pp C g h draws bs 0 1 run1.slots
          let chan := chan ++ run2.sent
          if run2.crashed then (GoResult.crashed, chan)
          else
            match receiveWorkers chan RangeMaxBits with
            | (GoResult.error e, chan) => (GoResult.error e, chan)
            | (GoResult.crashed, chan) => (GoResult.crashed, chan)
            | (GoResult.ok _, chan) =>
              match sumSlots run2.slots.As RangeMaxBits 0 curve.ZeroPoint with
              | none => (GoResult.crashed, chan)
              | some A =>
                (GoResult.ok
                  { G := g, H := h, C := C,
                    Zs := fun i => (run2.slots.Zs i).getD 0,
                    As := fun i => (run2.slots.As i).getD curve.ZeroPoint,
                    A := A }, chan)

/-- The function `Prove` with the contents `chan` of the package-level channel `bitchan` at
the call; the result is paired with the contents of the channel afterwards. -/
def ProveOn (pp : Params Point) (chan : List Int) (b : Int) (g h : Point)
    (draws : RangeDraws) : GoResult (RangeProof Point) × List Int :=
  if b < 0 ∨ curve.IsInSubGroup pp g = false ∨ curve.IsInSubGroup pp h = false then
    (GoResult.error errInvalidParams, chan)
  else
    match toBinary b RangeMaxBits with
    | Except.error e => (GoResult.error e, chan)
    | Except.ok bs => proveBitsOn pp chan bs g h draws

end ctrange

namespace ctrange

variable {Point : Type} [AddCommGroup Point] [DecidableEq Point]

/-- The per-bit auxiliary point `A_A_i` the prover hashes: `α_i·g` for a bit `0`, and
`c_i·(r_i·g + 2^i·H)` with `c_i = Hash(α_i·g)` for a bit `1` (the point `r_i·g + 2^i·H` is
`As[i]`). -/
def proverAux (pp : Params Point) (b : Int) (g : Point) (draws : RangeDraws) (i : Nat) :
    Point :=
  if bitOf b i = 1 then
    hashValue pp (writeXY pp [] (draws.alphas i • g)) •
      (draws.rs i • g + ((2 : Int) ^ i) • pp.H)
  else draws.alphas i • g

end ctrange

/-! ## A small instance

The cyclic group `ℤ/56` stands for the curve: its subgroup of order `7` (the multiples of
`8`) stands for the prime-order subgroup and the cofactor is `8`. The definitions are
evaluated on it. -/

namespace Small

/-- The points of the small instance: the integers modulo `56`. -/
def Pt : Type := ZMod 56

instance : DecidableEq Pt := inferInstanceAs (DecidableEq (ZMod 56))

/-- Scalar multiplication in `ℤ/56`, computed by one multiplication. -/
def smulInt (n : Int) (a : ZMod 56) : ZMod 56 := (n : ZMod 56) * a

instance : AddCommGroup Pt :=
  { (inferInstanceAs (AddCommGroup (ZMod 56))) with
    nsmul := fun (n : ℕ) (a : ZMod 56) => smulInt (n : ℤ) a
    nsmul_zero := fun (a : ZMod 56) => by
      show smulInt ((0 : ℕ) : ℤ) a = (0 : ZMod 56)
      simp [smulInt]
    nsmul_succ := fun (n : ℕ) (a : ZMod 56) => by
      show smulInt ((n + 1 : ℕ) : ℤ) a = (smulInt (n : ℤ) a + a : ZMod 56)
      simp only [smulInt]; push_cast; ring
    zsmul := fun (n : ℤ) (a : ZMod 56) => smulInt n a
    zsmul_zero' := fun (a : ZMod 56) => by
      show smulInt 0 a = (0 : ZMod 56)
      simp [smulInt]
    zsmul_succ' := fun (n : ℕ) (a : ZMod 56) => by
      show smulInt ((n.succ : ℕ) : ℤ) a = (smulInt ((n : ℕ) : ℤ) a + a : ZMod 56)
      simp only [smulInt]; push_cast; ring
    zsmul_neg' := fun (n : ℕ) (a : ZMod 56) => by
      show smulInt (Int.negSucc n) a = (-(smulInt ((n.succ : ℕ) : ℤ) a) : ZMod 56)
      simp only [smulInt, Int.negSucc_eq]; push_cast; ring }

/-- The point `n mod 56`. -/
def pt (n : Nat) : Pt := (n : ZMod 56)

/-- The hash of the small instance: a value in `[1, 5]`, never an error. -/
def hash (b : Bytes) : Except String Int :=
  Except.ok (1 + ((b.foldl (fun acc x => (3 * acc + x + 1) % 5) 0 : Nat) : Int))

/-- The parameters of the small instance: `G = 8` and `H = 16` generate the subgroup of
order `7`. -/
def pp : Params Pt :=
  { G := pt 8, H := pt 16, Order := 7, Q := 7, FixedCurve := [1, 2, 3],
    marshalX := fun p => [ZMod.val (show ZMod 56 from p)],
    marshalY := fun p => [(ZMod.val (show ZMod 56 from p) * 5 + 3) % 256],
    HashToInt := hash }

open zero

/-- The value of a successful call, and `d` otherwise. -/
def valueOr {α : Type} (r : GoResult α) (d : α) : α :=
  match r with
  | GoResult.ok a => a
  | _ => d

/-- Draws for the range prover, from a seed `k`. -/
def rangeDraws (k : Nat) : ctrange.RangeDraws :=
  { alphas := fun i => 1 + (((i + k) % 5 : Nat) : Int),
    rs := fun i => 2 + (((i + 2 * k) % 4 : Nat) : Int) }

/-- A range proof with nothing in it. -/
def noRangeProof : RangeProof Pt :=
  { G := pt 0, H := pt 0, C := 0, Zs := fun _ => 0, As := fun _ => pt 0, A := pt 0 }

/-- The range proof `Prove` returns for `b` under the generators `G`, `H`, with the draws of
seed `k`. -/
def rangeProofOf (b : Int) (k : Nat) : RangeProof Pt :=
  valueOr (ctrange.Prove pp b pp.G pp.H (rangeDraws k)) noRangeProof

/-- The twisted ElGamal ciphertext of `v` under `pk` with randomness `r`. -/
def enc (pk : Pt) (v r : Int) : ElGamalEnc Pt :=
  { CL := r • pk, CR := r • pp.G + v • pp.H }

/-- The user's public key, for the secret key `3`. -/
def pkU : Pt := (3 : Int) • pp.G

/-- The pool's public key. -/
def pkPool : Pt := (5 : Int) • pp.G

/-- An AddLiquidity relation with the fee paid in asset A (scenario S2: `bΔA = 100`,
`bΔB = 400`, fee `3` in asset `0`). -/
def relationA : AddLiquidityRelation Pt :=
  { C_uA := enc pkU 1000 2
    C_uB := enc pkU 2000 3
    C_uA_Delta := enc pkU (-100) 4
    C_uB_Delta := enc pkU (-400) 5
    LC_poolA_Delta := enc pkPool 100 4
    LC_poolB_Delta := enc pkPool 400 5
    C_LP_Delta := enc pkU 200 6
    Pk_u := pkU
    Pk_pool := pkPool
    R_DeltaA := 4
    R_DeltaB := 5
    T_uA := (rangeProofOf 897 1).A
    T_uB := (rangeProofOf 1600 2).A
    B_poolA := 10000
    B_poolB := 40000
    B_A_Delta := 100
    B_B_Delta := 400
    Delta_LP := 200
    AssetAId := 0
    AssetBId := 1
    Sk_u := 3
    Bar_r_A := 2
    Bar_r_B := 3
    R_DeltaLP := 6
    ARangeProof := rangeProofOf 897 1
    BRangeProof := rangeProofOf 1600 2
    C_fee := enc pkU 1000 2
    T_fee := (rangeProofOf 897 1).A
    GasFeeAssetId := 0
    GasFee := 3
    Bar_r_fee := 2
    GasFeePrimeRangeProof := rangeProofOf 897 1 }

/-- An AddLiquidity relation with a cross-asset fee (scenario S6): the fee `3` is paid in
asset `2`, whose balance `50` is encrypted in `C_fee`. -/
def relationX : AddLiquidityRelation Pt :=
  { relationA with
    T_uA := (rangeProofOf 897 1).A
    Bar_r_A := 3
    C_fee := enc pkU 50 3
    T_fee := (rangeProofOf 47 3).A
    GasFeeAssetId := 2
    Bar_r_fee := 2
    GasFeePrimeRangeProof := rangeProofOf 47 3 }

/-- Draws for `ProveAddLiquidity`. -/
def draws : AddLiquidityDraws :=
  { alpha_r_DeltaLP := 2, alpha_sk_u := 4, alpha_bar_r_A := 5, alpha_bar_r_B := 6,
    alpha_bar_r_fee := 3 }

/-- The run of `ProveAddLiquidity` on `relationA`: the inverses are `2` and `5`, the
challenge is `4`. -/
def traceA : AddLiquidityTrace Pt :=
  { buf := (honestProof pp relationA draws 2 5 4).challengeBuf pp, c := 4,
    proof := honestProof pp relationA draws 2 5 4 }

/-- The run of `ProveAddLiquidity` on `relationX`: the inverses are `2` and `5`, the
challenge is `3`. -/
def traceX : AddLiquidityTrace Pt :=
  { buf := (honestProof pp relationX draws 2 5 3).challengeBuf pp, c := 3,
    proof := honestProof pp relationX draws 2 5 3 }

/-- The proof of `traceA` with `T_uA` replaced: the aggregate of the A range proof no longer
equals `T_uA`. -/
def proofBadBinding : AddLiquidityProof Pt :=
  { traceA.proof with T_uA := pt 0 }

/-- The proof of `traceX` (cross-asset fee) with the fee range proof replaced by the A range
proof `rangeProofOf 897 1`. -/
def proofSwappedFeeRange : AddLiquidityProof Pt :=
  { traceX.proof with GasFeePrimeRangeProof := rangeProofOf 897 1 }

/-- A relation like `relationA` in which the randomness of each current ciphertext and that
of its delta add up to `q = 7`, so that both refreshed ciphertexts have `CL = 0`. -/
def relationZ : AddLiquidityRelation Pt :=
  { relationA with
    C_uA := enc pkU 1000 3
    C_uB := enc pkU 2000 2
    C_fee := enc pkU 1000 3 }

/-- The run of `ProveAddLiquidity` on `relationZ`: the inverses are `2` and `5`, the
challenge is `5`. -/
def traceZ : AddLiquidityTrace Pt :=
  { buf := (honestProof pp relationZ draws 2 5 5).challengeBuf pp, c := 5,
    proof := honestProof pp relationZ draws 2 5 5 }

/-- The result of `Prove(1, G, h)` for the generator `h = 2·H` of the subgroup, which is not
the fixed generator `H`. -/
def rangeProofOtherH : zero.RangeProof Pt :=
  valueOr (ctrange.Prove pp 1 pp.G (pt 32) (rangeDraws 0)) noRangeProof

end Small

namespace Small

open zero

/-- The parameters of the small instance with a hash whose values lie in `[8, 12]`, above the
subgroup order `7` (the hash of the sources returns a field element of 254 bits, the
subgroup order has 251 bits). -/
def ppWide : Params Pt :=
  { pp with
    HashToInt := fun b =>
      Except.ok (8 + ((b.foldl (fun acc x => (3 * acc + x + 1) % 5) 0 : Nat) : Int)) }

/-- The run of `ProveAddLiquidity` on `relationA` under `ppWide`: the challenge is `11`. -/
def traceWide : AddLiquidityTrace Pt :=
  { buf := (honestProof ppWide relationA draws 2 5 11).challengeBuf ppWide, c := 11,
    proof := honestProof ppWide relationA draws 2 5 11 }

/-- The proof of `traceA` (fee paid in asset A) with the fee range proof replaced by a range
proof that does not verify. -/
def proofNoFeeRange : AddLiquidityProof Pt :=
  { traceA.proof with GasFeePrimeRangeProof := noRangeProof }

/-- A range proof of the value `0` whose generator `h = 1` is not in the subgroup of order
`7`: the result of the body of `Prove` on 32 bits `0`. -/
def rangeProofBadH : zero.RangeProof Pt :=
  valueOr (ctrange.proveBits pp (List.replicate 32 0) pp.G (pt 1) (rangeDraws 0)) noRangeProof

/-- A relation like `relationA` whose pool public key `Pk_pool = 1` is not in the subgroup of
order `7`. -/
def relationP : AddLiquidityRelation Pt :=
  { relationA with
    Pk_pool := pt 1
    LC_poolA_Delta := enc (pt 1) 100 4
    LC_poolB_Delta := enc (pt 1) 400 5 }

/-- A relation with the deltas `bΔA = 94906266` and `bΔB = 94906268`, whose product is
`94906267² − 1`, and the LP amount `94906267`; the balances after the operation are those of
`relationA` (`897` and `1600`). -/
def relationLP : AddLiquidityRelation Pt :=
  { relationA with
    C_uA := enc pkU 94907166 2
    C_uB := enc pkU 94907868 3
    C_uA_Delta := enc pkU (-94906266) 4
    C_uB_Delta := enc pkU (-94906268) 5
    LC_poolA_Delta := enc pkPool 94906266 4
    LC_poolB_Delta := enc pkPool 94906268 5
    C_LP_Delta := enc pkU 94906267 6
    B_poolA := 94906266
    B_poolB := 94906268
    B_A_Delta := 94906266
    B_B_Delta := 94906268
    Delta_LP := 94906267
    C_fee := enc pkU 94907166 2 }

/-- A relation with both pool balances `2^53 + 1`, the deltas `bΔA = 2`, `bΔB = 1` and the LP
amount `1 = ⌊√2⌋`; the balances after the operation are those of `relationA`. -/
def relationAMM : AddLiquidityRelation Pt :=
  { relationA with
    C_uA := enc pkU 902 2
    C_uB := enc pkU 1601 3
    C_uA_Delta := enc pkU (-2) 4
    C_uB_Delta := enc pkU (-1) 5
    LC_poolA_Delta := enc pkPool 2 4
    LC_poolB_Delta := enc pkPool 1 5
    C_LP_Delta := enc pkU 1 6
    B_poolA := 9007199254740993
    B_poolB := 9007199254740993
    B_A_Delta := 2
    B_B_Delta := 1
    Delta_LP := 1
    C_fee := enc pkU 902 2 }

/-- A relation with the pool balances `2^53 + 3` and `1`, the deltas `bΔA = 2^54 + 7`,
`bΔB = 1` and the LP amount `2^27 = ⌊√(2^54 + 7)⌋`; the balances after the operation are
those of `relationA`. -/
def relationAMMUp : AddLiquidityRelation Pt :=
  { relationA with
    C_uA := enc pkU 18014398509482891 2
    C_uB := enc pkU 1601 3
    C_uA_Delta := enc pkU (-18014398509481991) 4
    C_uB_Delta := enc pkU (-1) 5
    LC_poolA_Delta := enc pkPool 18014398509481991 4
    LC_poolB_Delta := enc pkPool 1 5
    C_LP_Delta := enc pkU 134217728 6
    B_poolA := 9007199254740995
    B_poolB := 1
    B_A_Delta := 18014398509481991
    B_B_Delta := 1
    Delta_LP := 134217728
    C_fee := enc pkU 18014398509482891 2 }

/-- The run of `ProveAddLiquidity` on `relationP`: the challenge is `2`. -/
def traceP : AddLiquidityTrace Pt :=
  { buf := (honestProof pp relationP draws 2 5 2).challengeBuf pp, c := 2,
    proof := honestProof pp relationP draws 2 5 2 }

/-- The run of `ProveAddLiquidity` on `relationLP`: the challenge is `1`. -/
def traceLP : AddLiquidityTrace Pt :=
  { buf := (honestProof pp relationLP draws 2 5 1).challengeBuf pp, c := 1,
    proof := honestProof pp relationLP draws 2 5 1 }

/-- The run of `ProveAddLiquidity` on `relationAMM`: the challenge is `3`. -/
def traceAMM : AddLiquidityTrace Pt :=
  { buf := (honestProof pp relationAMM draws 2 5 3).challengeBuf pp, c := 3,
    proof := honestProof pp relationAMM draws 2 5 3 }

/-- The run of `ProveAddLiquidity` on `relationAMMUp`: the challenge is `1`. -/
def traceAMMUp : AddLiquidityTrace Pt :=
  { buf := (honestProof pp relationAMMUp draws 2 5 1).challengeBuf pp, c := 1,
    proof := honestProof pp relationAMMUp draws 2 5 1 }

/-- A relation with the deltas `bΔA = bΔB = 2^32`, whose product `2^64` does not fit in a
`uint64`, and the LP amount `0`; the balances after the operation are those of
`relationA`. -/
def relationLPWrap : AddLiquidityRelation Pt :=
  { relationA with
    C_uA := enc pkU 4294968196 2
    C_uB := enc pkU 4294968896 3
    C_uA_Delta := enc pkU (-4294967296) 4
    C_uB_Delta := enc pkU (-4294967296) 5
    LC_poolA_Delta := enc pkPool 4294967296 4
    LC_poolB_Delta := enc pkPool 4294967296 5
    C_LP_Delta := enc pkU 0 6
    B_poolA := 10000
    B_poolB := 10000
    B_A_Delta := 4294967296
    B_B_Delta := 4294967296
    Delta_LP := 0
    C_fee := enc pkU 4294968196 2 }

/-- The run of `ProveAddLiquidity` on `relationLPWrap`: the challenge is `5`. -/
def traceLPWrap : AddLiquidityTrace Pt :=
  { buf := (honestProof pp relationLPWrap draws 2 5 5).challengeBuf pp, c := 5,
    proof := honestProof pp relationLPWrap draws 2 5 5 }

end Small
namespace Small

open zero

/-- The parameters of the small instance with a hash whose values lie in `[1, 54]`: the hash
of `pp` plus `7` times a second digest in `[0, 7]`, so that it agrees with the hash of `pp`
modulo `7`. -/
def ppBig : Params Pt :=
  { pp with
    HashToInt := fun b =>
      Except.ok (1 + ((b.foldl (fun acc x => (3 * acc + x + 1) % 5) 0 : Nat) : Int) +
        7 * ((b.foldl (fun acc x => (5 * acc + x + 3) % 8) 0 : Nat) : Int)) }

/-- A simulated AddLiquidity proof for the public key `Pk_u = 1`, which is not in the
subgroup of order `7`: the challenge `c`, the response `z = Z_sk_u` and the other responses
are chosen first, and each auxiliary point is computed from its verification equation
(`A_pk_u = z·G − c·Pk_u`, and so on); `X` is the point `A_CLPR_DeltaHExp_DeltaLPNeg`, which
enters the transcript only. The statement is that of `relationA` with the ciphertexts
encrypted under `Pk_u = 1`. -/
def simulatedProof (c z : Int) (X : Pt) : AddLiquidityProof Pt :=
  let pk : Pt := pt 1
  let C_uA := enc pk 1000 2
  let C_uB := enc pk 2000 3
  let C_uA_Delta := enc pk (-100) 4
  let C_uB_Delta := enc pk (-400) 5
  let C_LP_Delta := enc pk 200 6
  let T_uA := (rangeProofOf 897 1).A
  let T_uB := (rangeProofOf 1600 2).A
  let C_uAPrimeNeg := negElgamal (refreshWithFee pp C_uA C_uA_Delta 3)
  let C_uBPrimeNeg := negElgamal (EncAdd C_uB C_uB_Delta)
  let A_T_uA := (2 : Int) • pp.G + (3 : Int) • C_uAPrimeNeg.CL - c • (T_uA + C_uAPrimeNeg.CR)
  let A_T_uB := (4 : Int) • pp.G + (3 : Int) • C_uBPrimeNeg.CL - c • (T_uB + C_uBPrimeNeg.CR)
  { A_CLPL_Delta := (5 : Int) • pk - c • C_LP_Delta.CL
    A_CLPR_DeltaHExp_DeltaLPNeg := X
    Z_rDelta_LP := 5
    A_pk_u := z • pp.G - c • pk
    A_T_uAC_uARPrimeInv := A_T_uA
    A_T_uBC_uBRPrimeInv := A_T_uB
    Z_sk_u := z
    Z_bar_r_A := 2
    Z_bar_r_B := 4
    Z_sk_uInv := 3
    ARangeProof := rangeProofOf 897 1
    BRangeProof := rangeProofOf 1600 2
    C_uA := C_uA
    C_uB := C_uB
    C_uA_Delta := C_uA_Delta
    C_uB_Delta := C_uB_Delta
    LC_poolA_Delta := enc pkPool 100 4
    LC_poolB_Delta := enc pkPool 400 5
    C_LP_Delta := C_LP_Delta
    Pk_u := pk
    Pk_pool := pkPool
    R_DeltaA := 4
    R_DeltaB := 5
    T_uA := T_uA
    T_uB := T_uB
    B_poolA := 10000
    B_poolB := 40000
    B_A_Delta := 100
    B_B_Delta := 400
    Delta_LP := 200
    AssetAId := 0
    AssetBId := 1
    A_T_feeC_feeRPrimeInv := A_T_uA
    Z_bar_r_fee := 2
    C_fee := C_uA
    T_fee := T_uA
    GasFeeAssetId := 0
    GasFee := 3
    GasFeePrimeRangeProof := rangeProofOf 897 1 }

end Small

namespace Small

open zero

/-- The parameters of the small instance with a hash whose values lie in `[0, 6]`, so that
some buffers hash to `0`. -/
def ppZero : Params Pt :=
  { pp with
    HashToInt := fun b =>
      Except.ok (((b.foldl (fun acc x => (3 * acc + x + 1) % 7) 0 : Nat) : Int)) }

/-- The parameters of the small instance with a hash that fails on every buffer. -/
def ppNoHash : Params Pt :=
  { pp with HashToInt := fun _ => Except.error "hash" }

/-- The arrays of the prover when every `alphas[i]` holds `3` and nothing else is written. -/
def slotsAlpha : ctrange.ProverSlots Pt :=
  { alphas := fun _ => some 3, rs := fun _ => none, cs := fun _ => none,
    A_As := fun _ => none, As := fun _ => none, Zs := fun _ => none }

/-- Thirty-two bit values of which the first two are `2`. -/
def bitsInvalid : List Int := 2 :: 2 :: List.replicate 30 0

/-- The messages of the workers `2, …, 31`, in index order. -/
def indicesFrom2 : List Int := (List.range 30).map (fun k => ((k + 2 : Nat) : Int))

/-- The proof of `traceA` with the delta `B_A_Delta = 2^63 + 2`, the delta `B_B_Delta = 0`,
the LP amount `0`, the pool balances `10000` and `0`, and delta ciphertexts for the amount
`2^63 − 2` (to the user) on side A. -/
def proofSignFlip : AddLiquidityProof Pt :=
  { traceA.proof with
    C_uA_Delta := enc pkU 9223372036854775806 4
    C_uB_Delta := enc pkU 0 5
    LC_poolA_Delta := enc pkPool (-9223372036854775806) 4
    LC_poolB_Delta := enc pkPool 0 5
    B_poolA := 10000
    B_poolB := 0
    B_A_Delta := 9223372036854775810
    B_B_Delta := 0
    Delta_LP := 0 }

/-- Values for the constants and helpers of package `txtypes` that are not among the
sources, for evaluation: a hash string is valid when it has 4 characters, integers are
written as one byte each. -/
def pkg : txtypes.Package :=
  { minAccountIndex := 0, maxAccountIndex := 4294967295, minCollectionId := 0,
    maxCollectionId := 65535, minTreasuryRate := 0, maxTreasuryRate := 65535,
    minAssetId := 0, maxAssetId := 65535, minPackedFeeAmount := 0,
    maxPackedFeeAmount := 2047000000000, minNonce := 0,
    IsValidHash := fun s => decide (s.length = 4), ChainId := 1,
    ToPackedFee := fun a =>
      match a with
      | none => Except.error "nil amount"
      | some v => Except.ok v,
    WriteInt64IntoBuf := fun buf xs => buf ++ xs.map (fun x => (x % 256).toNat),
    WriteBigIntIntoBuf := fun buf x => buf ++ [(x % 256).toNat],
    FromHex := fun s => s.toList.map (fun ch => ch.toNat % 256),
    Modulus := 251 }

/-- A hash function for evaluation: the state is the data written since the last `Reset`,
the digest is its length and its sum modulo `256`. -/
def hFunc : txtypes.HashFunc Bytes :=
  { Reset := fun _ => [], Write := fun st b => st ++ b,
    Sum := fun st b => b ++ [st.length % 256, st.foldl (fun acc x => (acc + x) % 256) 0] }

/-- A mint-NFT transaction. -/
def mintTx : txtypes.MintNftTxInfo :=
  { CreatorAccountIndex := 2, ToAccountIndex := 3, ToAccountNameHash := "ab12",
    NftIndex := 0, NftContentHash := "cd34", NftCollectionId := 1,
    CreatorTreasuryRate := 30, GasAccountIndex := 1, GasFeeAssetId := 0,
    GasFeeAssetAmount := some 5000, ExpiredAt := 1700000000, Nonce := 7, Sig := [] }

/-- The transaction `mintTx` with a signature and another NFT index. -/
def mintTxSigned : txtypes.MintNftTxInfo :=
  { CreatorAccountIndex := 2, ToAccountIndex := 3, ToAccountNameHash := "ab12",
    NftIndex := 9, NftContentHash := "cd34", NftCollectionId := 1,
    CreatorTreasuryRate := 30, GasAccountIndex := 1, GasFeeAssetId := 0,
    GasFeeAssetAmount := some 5000, ExpiredAt := 1700000000, Nonce := 7,
    Sig := [1, 2, 3] }

end Small

namespace Small

open zero

/-- A relation like `relationAMM` (both pool balances `2^53 + 1`, the deltas `bΔA = 2`,
`bΔB = 1`, the LP amount `1 = ⌊√2⌋`) with a cross-asset fee: the fee `3` is paid in asset `2`,
whose balance `50` is encrypted in `C_fee`; the A-side balance `899` becomes `897`. -/
def relationAMMX : AddLiquidityRelation Pt :=
  { relationAMM with
    C_uA := enc pkU 899 2
    C_fee := enc pkU 50 3
    T_fee := (rangeProofOf 47 3).A
    GasFeeAssetId := 2
    Bar_r_fee := 2
    GasFeePrimeRangeProof := rangeProofOf 47 3 }

/-- The run of `ProveAddLiquidity` on `relationAMMX`: the challenge is `1`. -/
def traceAMMX : AddLiquidityTrace Pt :=
  { buf := (honestProof pp relationAMMX draws 2 5 1).challengeBuf pp, c := 1,
    proof := honestProof pp relationAMMX draws 2 5 1 }

end Small

/-! ## Properties -/

section arithmetic

variable {Point : Type} [AddCommGroup Point]

/-- Reducing a scalar modulo the order does not change the multiple of a point of the
subgroup. -/
theorem smul_emod_order (q : Nat) (p : Point) (hp : (q : Int) • p = 0) (a : Int) :
    (a % (q : Int)) • p = a • p := by
  have h : a = (q : Int) * (a / (q : Int)) + a % (q : Int) := (Int.ediv_add_emod a q).symm
  conv_rhs => rw [h]
  rw [add_smul, mul_comm, mul_smul, hp, smul_zero, zero_add]

/-- Congruent scalars give the same multiple of a point of the subgroup. -/
theorem smul_congr_order (q : Nat) (p : Point) (hp : (q : Int) • p = 0) (a b : Int)
    (hab : a % (q : Int) = b % (q : Int)) : a • p = b • p := by
  rw [← smul_emod_order q p hp a, ← smul_emod_order q p hp b, hab]

end arithmetic

namespace ffmath

/-- A result of `ModInverse` is an inverse modulo `m` and lies in `[0, m)`. -/
theorem ModInverse_spec (a m x : Int) (h : ModInverse a m = some x) :
    (a * x) % m = 1 % m ∧ 0 ≤ x ∧ x < m := by
  unfold ModInverse at h
  rw [Option.map_eq_some'] at h
  obtain ⟨n, hn, rfl⟩ := h
  have h1 := List.find?_some hn
  have h2 := List.mem_of_find?_eq_some hn
  simp only [decide_eq_true_eq] at h1
  rw [List.mem_range] at h2
  refine ⟨h1, Int.ofNat_nonneg n, ?_⟩
  have : (n : Int) < (m.toNat : Int) := by exact_mod_cast h2
  have hm : 0 ≤ m := by
    by_contra hneg
    push_neg at hneg
    have : m.toNat = 0 := Int.toNat_eq_zero.mpr hneg.le
    omega
  rw [Int.toNat_of_nonneg hm] at this
  exact this

/-- An integer that has an inverse modulo `m > 0` gets one from `ModInverse`. -/
theorem ModInverse_isSome (a m y : Int) (hm : 0 < m) (h : (a * y) % m = 1 % m) :
    ∃ x, ModInverse a m = some x := by
  unfold ModInverse
  have hmem : (y % m).toNat ∈ List.range m.toNat := by
    rw [List.mem_range]
    have h1 : 0 ≤ y % m := Int.emod_nonneg y hm.ne'
    have h2 : y % m < m := Int.emod_lt_of_pos y hm
    omega
  have hp : (fun (x : Nat) => decide ((a * (x : Int)) % m = 1 % m)) (y % m).toNat = true := by
    simp only [decide_eq_true_eq]
    rw [Int.toNat_of_nonneg (Int.emod_nonneg y hm.ne'), Int.mul_emod, Int.emod_emod_of_dvd y (dvd_refl m),
      ← Int.mul_emod]
    exact h
  cases hf : (List.range m.toNat).find? (fun (x : Nat) => decide ((a * (x : Int)) % m = 1 % m)) with
  | none =>
    rw [List.find?_eq_none] at hf
    exact absurd hp (hf _ hmem)
  | some n => exact ⟨_, rfl⟩

/-- Modulo a prime, every value of `[1, q)` has an inverse. -/
theorem ModInverse_isSome_of_prime (a : Int) (q : Nat) (hq : q.Prime) (h0 : 0 < a)
    (h1 : a < q) : ∃ x, ModInverse a q = some x := by
  have hcop : Int.gcd a q = 1 := by
    have ha : a = (a.toNat : Int) := (Int.toNat_of_nonneg h0.le).symm
    rw [ha, Int.gcd_natCast_natCast]
    have hlt : a.toNat < q := by omega
    have hpos : 0 < a.toNat := by omega
    exact (Nat.coprime_of_lt_prime hpos hlt hq).symm
  have hb := Int.gcd_eq_gcd_ab a q
  rw [hcop] at hb
  have hqpos : (0 : Int) < q := by exact_mod_cast hq.pos
  apply ModInverse_isSome a q (Int.gcdA a q) hqpos
  have : a * Int.gcdA a q = 1 - (q : Int) * Int.gcdB a q := by
    have : ((1 : Nat) : Int) = 1 := rfl
    linarith
  rw [this, sub_eq_add_neg, ← mul_neg, Int.add_mul_emod_self_left]

end ffmath

namespace zero

variable {Point : Type} [AddCommGroup Point] [DecidableEq Point]

/-- The method `Verify` makes the checks of `verdict`, in that order. -/
theorem AddLiquidityProof.Verify_eq_verdict (pp : Params Point)
    (proof : AddLiquidityProof Point) : proof.Verify pp = proof.verdict pp := by
  unfold AddLiquidityProof.Verify AddLiquidityProof.verdict
  by_cases hA : proof.ARangeProof.A = proof.T_uA <;>
    by_cases hB : proof.BRangeProof.A = proof.T_uB <;>
    simp only [hA, hB, decide_True, decide_False, Bool.not_true, Bool.not_false,
      Bool.or_false, Bool.or_true, Bool.false_or, if_true, if_false, ne_eq,
      not_true_eq_false, not_false_eq_true, or_self, or_false, or_true, false_or, true_or,
      Bool.false_eq_true]
  cases hh : pp.HashToInt (proof.challengeBuf pp) with
  | error e => rfl
  | ok c =>
    simp only
    cases hp : verifyAddLiquidityParams pp proof <;>
      simp only [Bool.not_true, Bool.not_false, if_true, if_false, Bool.false_eq_true]
    unfold AddLiquidityProof.encHolds AddLiquidityProof.ownershipHolds
    by_cases h1 : curve.ScalarMul proof.Pk_u proof.Z_rDelta_LP =
        curve.Add proof.A_CLPL_Delta (curve.ScalarMul proof.C_LP_Delta.CL c)
    swap
    · simp [h1]
    by_cases h2 : curve.ScalarMul pp.G proof.Z_sk_u =
        curve.Add proof.A_pk_u (curve.ScalarMul proof.Pk_u c)
    swap
    · simp [h1, h2]
    simp only [h1, h2, decide_True, Bool.not_true, if_false, Bool.false_eq_true,
      Bool.true_eq_false]
    unfold AddLiquidityProof.feeAliased AddLiquidityProof.openingA AddLiquidityProof.openingB
      AddLiquidityProof.openingFee AddLiquidityProof.C_feePrime AddLiquidityProof.C_uAPrime
      AddLiquidityProof.C_uBPrime
    by_cases hfa : proof.GasFeeAssetId = proof.AssetAId
    · simp only [hfa, if_true]
      cases equalEnc proof.C_uA proof.C_fee <;>
      by_cases h3 : proof.A_T_uAC_uARPrimeInv = proof.A_T_feeC_feeRPrimeInv <;>
      simp only [h3, decide_True, decide_False, Bool.not_true, Bool.not_false, Bool.or_false,
        Bool.or_true, Bool.false_or, Bool.true_or, Bool.and_true, Bool.and_false,
        Bool.true_and, Bool.false_and, if_true, if_false,
        Bool.false_eq_true, Bool.true_eq_false]
      cases openingHolds pp proof.Z_bar_r_A proof.Z_sk_uInv proof.A_T_feeC_feeRPrimeInv
        proof.T_uA (negElgamal (refreshWithFee pp proof.C_uA proof.C_uA_Delta proof.GasFee))
        c <;>
      cases openingHolds pp proof.Z_bar_r_B proof.Z_sk_uInv proof.A_T_uBC_uBRPrimeInv
        proof.T_uB (negElgamal (EncAdd proof.C_uB proof.C_uB_Delta)) c <;>
      cases openingHolds pp proof.Z_bar_r_fee proof.Z_sk_uInv proof.A_T_feeC_feeRPrimeInv
        proof.T_fee (negElgamal (refreshWithFee pp proof.C_uA proof.C_uA_Delta proof.GasFee))
        c <;>
      simp
    · simp only [hfa, if_false]
      by_cases hfb : proof.GasFeeAssetId = proof.AssetBId
      · simp only [hfb, if_true]
        cases equalEnc proof.C_uB proof.C_fee <;>
        by_cases h3 : proof.A_T_uBC_uBRPrimeInv = proof.A_T_feeC_feeRPrimeInv <;>
        simp only [h3, decide_True, decide_False, Bool.not_true, Bool.not_false,
          Bool.or_false, Bool.or_true, Bool.false_or, Bool.true_or, Bool.and_true,
          Bool.and_false, Bool.true_and, Bool.false_and, if_true, if_false,
          Bool.false_eq_true, Bool.true_eq_false]
        cases openingHolds pp proof.Z_bar_r_A proof.Z_sk_uInv proof.A_T_uAC_uARPrimeInv
          proof.T_uA (negElgamal (EncAdd proof.C_uA proof.C_uA_Delta)) c <;>
        cases openingHolds pp proof.Z_bar_r_B proof.Z_sk_uInv proof.A_T_feeC_feeRPrimeInv
          proof.T_uB (negElgamal (refreshWithFee pp proof.C_uB proof.C_uB_Delta proof.GasFee))
          c <;>
        cases openingHolds pp proof.Z_bar_r_fee proof.Z_sk_uInv proof.A_T_feeC_feeRPrimeInv
          proof.T_fee
          (negElgamal (refreshWithFee pp proof.C_uB proof.C_uB_Delta proof.GasFee)) c <;>
        simp
      · simp only [hfb, if_false]
        cases openingHolds pp proof.Z_bar_r_A proof.Z_sk_uInv proof.A_T_uAC_uARPrimeInv
          proof.T_uA (negElgamal (EncAdd proof.C_uA proof.C_uA_Delta)) c <;>
        cases openingHolds pp proof.Z_bar_r_B proof.Z_sk_uInv proof.A_T_uBC_uBRPrimeInv
          proof.T_uB (negElgamal (EncAdd proof.C_uB proof.C_uB_Delta)) c <;>
        cases openingHolds pp proof.Z_bar_r_fee proof.Z_sk_uInv proof.A_T_feeC_feeRPrimeInv
          proof.T_fee (negElgamal (feePrime pp proof.C_fee proof.GasFee)) c <;>
        simp

/-- The transcript of the closed-form proof does not depend on the inverse of `Sk_u` or on
the challenge. -/
theorem honestProof_challengeBuf (pp : Params Point) (relation : AddLiquidityRelation Point)
    (draws : AddLiquidityDraws) (a s c s' c' : Int) :
    (honestProof pp relation draws a s c).challengeBuf pp =
      (honestProof pp relation draws a s' c').challengeBuf pp := rfl

/-- The body of `ProveAddLiquidity` in closed form. -/
theorem ProveAddLiquidity.trace_eq (pp : Params Point) (relation : AddLiquidityRelation Point)
    (draws : AddLiquidityDraws) :
    ProveAddLiquidity.trace pp relation draws =
      match ffmath.ModInverse draws.alpha_sk_u pp.Order with
      | none => GoResult.crashed
      | some a =>
        match pp.HashToInt ((honestProof pp relation draws a 0 0).challengeBuf pp) with
        | Except.error e => GoResult.error e
        | Except.ok c =>
          match ffmath.ModInverse relation.Sk_u pp.Order with
          | none => GoResult.crashed
          | some s =>
            GoResult.ok
              { buf := (honestProof pp relation draws a s c).challengeBuf pp, c := c,
                proof := honestProof pp relation draws a s c } := by
  unfold ProveAddLiquidity.trace
  simp only
  cases ffmath.ModInverse draws.alpha_sk_u pp.Order with
  | none => rfl
  | some a =>
    simp only
    by_cases hfa : relation.GasFeeAssetId = relation.AssetAId
    · simp only [honestProof, AddLiquidityRelation.feeAux, AddLiquidityRelation.feeAlpha,
        AddLiquidityProof.challengeBuf, if_pos hfa]
      rfl
    · by_cases hfb : relation.GasFeeAssetId = relation.AssetBId
      · simp only [honestProof, AddLiquidityRelation.feeAux, AddLiquidityRelation.feeAlpha,
          AddLiquidityProof.challengeBuf, if_neg hfa, if_pos hfb]
        rfl
      · simp only [honestProof, AddLiquidityRelation.feeAux, AddLiquidityRelation.feeAlpha,
          AddLiquidityProof.challengeBuf, if_neg hfa, if_neg hfb]
        rfl

/-- A successful run of `ProveAddLiquidity`: both inverses exist, the hash of the transcript
is the challenge, and the transcript and the proof are the closed-form ones. -/
theorem ProveAddLiquidity.trace_ok (pp : Params Point) (relation : AddLiquidityRelation Point)
    (draws : AddLiquidityDraws) (t : AddLiquidityTrace Point)
    (h : ProveAddLiquidity.trace pp relation draws = GoResult.ok t) :
    ∃ a s, ffmath.ModInverse draws.alpha_sk_u pp.Order = some a ∧
      ffmath.ModInverse relation.Sk_u pp.Order = some s ∧
      t.buf = (honestProof pp relation draws a s t.c).challengeBuf pp ∧
      pp.HashToInt t.buf = Except.ok t.c ∧
      t.proof = honestProof pp relation draws a s t.c := by
  rw [ProveAddLiquidity.trace_eq] at h
  cases ha : ffmath.ModInverse draws.alpha_sk_u pp.Order with
  | none => rw [ha] at h; simp at h
  | some a =>
    rw [ha] at h
    simp only at h
    cases hc : pp.HashToInt ((honestProof pp relation draws a 0 0).challengeBuf pp) with
    | error e => rw [hc] at h; simp at h
    | ok c =>
      rw [hc] at h
      simp only at h
      cases hs : ffmath.ModInverse relation.Sk_u pp.Order with
      | none => rw [hs] at h; simp at h
      | some s =>
        rw [hs] at h
        simp only [GoResult.ok.injEq] at h
        subst h
        exact ⟨a, s, rfl, rfl, rfl, hc, rfl⟩

/-- The function `ProveAddLiquidity` returns the proof of a successful run of its body. -/
theorem ProveAddLiquidity_ok (pp : Params Point) (relation : AddLiquidityRelation Point)
    (draws : AddLiquidityDraws) (proof : AddLiquidityProof Point)
    (h : ProveAddLiquidity pp relation draws = GoResult.ok proof) :
    ∃ t, ProveAddLiquidity.trace pp relation draws = GoResult.ok t ∧ t.proof = proof := by
  unfold ProveAddLiquidity at h
  cases ht : ProveAddLiquidity.trace pp relation draws with
  | ok t =>
    rw [ht] at h
    simp only [GoResult.ok.injEq] at h
    exact ⟨t, rfl, h⟩
  | error e => rw [ht] at h; simp at h
  | crashed => rw [ht] at h; simp at h

/-- The transcript `Verify` builds from a proof whose statement fields are those of the
relation is the documented one. -/
theorem challengeBuf_eq_documented (pp : Params Point) (relation : AddLiquidityRelation Point)
    (draws : AddLiquidityDraws) (a s c : Int) :
    (honestProof pp relation draws a s c).challengeBuf pp =
      documentedTranscript pp relation (honestProof pp relation draws a s c) := by
  simp only [AddLiquidityProof.challengeBuf, documentedTranscript, statementBuf,
    writePointIntoBuf, writeEncIntoBuf, writeUint64IntoBuf, writeXY, honestProof,
    List.flatten, List.append_assoc, List.nil_append, List.append_nil]

/-- C6. Prover and verifier of AddLiquidity hash the same transcript: when `ProveAddLiquidity`
returns a proof, the buffer `Verify` builds from that proof is the prover's buffer, which is
the documented sequence `FixedCurve, Pk_u, Pk_pool, C_uA, C_uB, C_uA_Delta, C_uB_Delta,
C_LP_Delta, T_uA, T_uB, AssetAId, AssetBId, A_CLPL_Delta, A_CLPR_DeltaHExp_DeltaLPNeg,
A_T_feeC_feeRPrimeInv, C_fee, GasFeeAssetId, GasFee, A_pk_u, A_T_uAC_uARPrimeInv,
A_T_uBC_uBRPrimeInv`; so the hash `Verify` computes is the prover's challenge `c`. -/
theorem transcript_agreement (pp : Params Point) (relation : AddLiquidityRelation Point)
    (draws : AddLiquidityDraws) (t : AddLiquidityTrace Point)
    (h : ProveAddLiquidity.trace pp relation draws = GoResult.ok t) :
    ProveAddLiquidity pp relation draws = GoResult.ok t.proof ∧
      t.proof.challengeBuf pp = t.buf ∧
      t.buf = documentedTranscript pp relation t.proof ∧
      pp.HashToInt (t.proof.challengeBuf pp) = Except.ok t.c := by
  have hP : ProveAddLiquidity pp relation draws = GoResult.ok t.proof := by
    unfold ProveAddLiquidity
    rw [h]
  obtain ⟨a, s, _, _, hbuf, hc, hproof⟩ := ProveAddLiquidity.trace_ok pp relation draws t h
  have hb : t.proof.challengeBuf pp = t.buf := by rw [hproof, hbuf]
  refine ⟨hP, hb, ?_, ?_⟩
  · rw [hbuf, hproof]
    exact challengeBuf_eq_documented pp relation draws a s t.c
  · rw [hb]
    exact hc

set_option maxRecDepth 100000 in
/-- Witness of `transcript_agreement`: the run of `ProveAddLiquidity` on the relation
`Small.relationA`. -/
theorem transcript_agreement_witness :
    ProveAddLiquidity.trace Small.pp Small.relationA Small.draws = GoResult.ok Small.traceA ∧
      (ProveAddLiquidity Small.pp Small.relationA Small.draws =
          GoResult.ok Small.traceA.proof ∧
        Small.traceA.proof.challengeBuf Small.pp = Small.traceA.buf ∧
        Small.traceA.buf =
          documentedTranscript Small.pp Small.relationA Small.traceA.proof ∧
        Small.pp.HashToInt (Small.traceA.proof.challengeBuf Small.pp) = Except.ok 4) :=
  ⟨by rfl, transcript_agreement Small.pp Small.relationA Small.draws Small.traceA (by rfl)⟩

/-- The result of `ffmath.AddMod` modulo a positive number lies in `[0, m)`. -/
theorem emod_bounds (a : Int) (q : Nat) (hq : 0 < q) : 0 ≤ a % (q : Int) ∧ a % (q : Int) < q := by
  have h : (0 : Int) < q := by exact_mod_cast hq
  exact ⟨Int.emod_nonneg a h.ne', Int.emod_lt_of_pos a h⟩

/-- C7. Every response scalar of `ProveAddLiquidity` has the Schnorr form
`z_w = α_w + c·w mod q` and lies in `[0, q)`: `Z_rDelta_LP` for `R_DeltaLP`, `Z_sk_u` for
`Sk_u`, `Z_bar_r_A` for `Bar_r_A`, `Z_bar_r_B` for `Bar_r_B`, `Z_bar_r_fee` for `Bar_r_fee`
and `Z_sk_uInv` for the inverse of `Sk_u` modulo `q`; each `α_w` is the randomness of the
corresponding auxiliary point and `c` is the hash of the transcript. -/
theorem responses_schnorr_form (pp : Params Point) (relation : AddLiquidityRelation Point)
    (draws : AddLiquidityDraws) (t : AddLiquidityTrace Point) (hq : 0 < pp.Order)
    (h : ProveAddLiquidity.trace pp relation draws = GoResult.ok t) :
    ∃ alpha_sk_uInv Sk_uInv : Int,
      ProveAddLiquidity pp relation draws = GoResult.ok t.proof ∧
      ffmath.ModInverse draws.alpha_sk_u pp.Order = some alpha_sk_uInv ∧
      ffmath.ModInverse relation.Sk_u pp.Order = some Sk_uInv ∧
      (relation.Sk_u * Sk_uInv) % pp.Order = 1 % pp.Order ∧
      pp.HashToInt t.buf = Except.ok t.c ∧
      -- the auxiliary points and their randomness
      t.proof.A_CLPL_Delta = draws.alpha_r_DeltaLP • relation.Pk_u ∧
      t.proof.A_CLPR_DeltaHExp_DeltaLPNeg = draws.alpha_r_DeltaLP • pp.G ∧
      t.proof.A_pk_u = draws.alpha_sk_u • pp.G ∧
      t.proof.A_T_uAC_uARPrimeInv =
        alpha_sk_uInv • (-(relation.C_uA.CL + relation.C_uA_Delta.CL)) +
          draws.alpha_bar_r_A • pp.G ∧
      t.proof.A_T_uBC_uBRPrimeInv =
        alpha_sk_uInv • (-(relation.C_uB.CL + relation.C_uB_Delta.CL)) +
          draws.alpha_bar_r_B • pp.G ∧
      t.proof.A_T_feeC_feeRPrimeInv = relation.feeAux pp draws alpha_sk_uInv ∧
      -- the responses
      t.proof.Z_rDelta_LP = (draws.alpha_r_DeltaLP + t.c * relation.R_DeltaLP) % pp.Order ∧
      t.proof.Z_sk_u = (draws.alpha_sk_u + t.c * relation.Sk_u) % pp.Order ∧
      t.proof.Z_bar_r_A = (draws.alpha_bar_r_A + t.c * relation.Bar_r_A) % pp.Order ∧
      t.proof.Z_bar_r_B = (draws.alpha_bar_r_B + t.c * relation.Bar_r_B) % pp.Order ∧
      t.proof.Z_bar_r_fee =
        (relation.feeAlpha draws + t.c * relation.Bar_r_fee) % pp.Order ∧
      t.proof.Z_sk_uInv = (alpha_sk_uInv + t.c * Sk_uInv) % pp.Order ∧
      -- their range
      (0 ≤ t.proof.Z_rDelta_LP ∧ t.proof.Z_rDelta_LP < pp.Order) ∧
      (0 ≤ t.proof.Z_sk_u ∧ t.proof.Z_sk_u < pp.Order) ∧
      (0 ≤ t.proof.Z_bar_r_A ∧ t.proof.Z_bar_r_A < pp.Order) ∧
      (0 ≤ t.proof.Z_bar_r_B ∧ t.proof.Z_bar_r_B < pp.Order) ∧
      (0 ≤ t.proof.Z_bar_r_fee ∧ t.proof.Z_bar_r_fee < pp.Order) ∧
      (0 ≤ t.proof.Z_sk_uInv ∧ t.proof.Z_sk_uInv < pp.Order) := by
  have hP : ProveAddLiquidity pp relation draws = GoResult.ok t.proof := by
    unfold ProveAddLiquidity
    rw [h]
  obtain ⟨a, s, ha, hs, _, hc, hproof⟩ := ProveAddLiquidity.trace_ok pp relation draws t h
  refine ⟨a, s, hP, ha, hs, (ffmath.ModInverse_spec _ _ _ hs).1, hc, ?_⟩
  rw [hproof]
  exact ⟨rfl, rfl, rfl, rfl, rfl, rfl, rfl, rfl, rfl, rfl, rfl, rfl,
    emod_bounds _ _ hq, emod_bounds _ _ hq, emod_bounds _ _ hq, emod_bounds _ _ hq,
    emod_bounds _ _ hq, emod_bounds _ _ hq⟩

set_option maxRecDepth 100000 in
/-- Witness of `responses_schnorr_form`: the responses of the run on `Small.relationA`, where
`q = 7`, the challenge is `4` and the secret key is `3`. -/
theorem responses_schnorr_form_witness :
    0 < Small.pp.Order ∧
      ProveAddLiquidity.trace Small.pp Small.relationA Small.draws = GoResult.ok Small.traceA ∧
      Small.traceA.proof.Z_sk_u = (4 + 4 * 3) % 7 ∧
      (0 ≤ Small.traceA.proof.Z_sk_u ∧ Small.traceA.proof.Z_sk_u < 7) := by
  obtain ⟨a, s, -, -, -, -, -, -, -, -, -, -, -, -, hz, -, -, -, -, -, hb, -⟩ :=
    responses_schnorr_form Small.pp Small.relationA Small.draws Small.traceA (by decide)
      (by rfl)
  exact ⟨by decide, by rfl, hz, hb⟩

/-- Two inverses of the same integer are congruent. -/
theorem inverse_congr (q Sk s s' : Int) (h1 : (Sk * s) % q = 1 % q)
    (h2 : (Sk * s') % q = 1 % q) : s % q = s' % q := by
  have e1 : s ≡ s * (Sk * s') [ZMOD q] := by
    have : (1 : Int) ≡ Sk * s' [ZMOD q] := (show Sk * s' ≡ 1 [ZMOD q] from h2).symm
    simpa using Int.ModEq.mul_left s this
  have e2 : s * (Sk * s') ≡ s' [ZMOD q] := by
    have : Sk * s ≡ 1 [ZMOD q] := h1
    have := Int.ModEq.mul_right s' this
    simpa [mul_comm, mul_left_comm, mul_assoc] using this
  exact e1.trans e2

/-- Completeness of one opening check: for a refreshed ciphertext whose `CL` is in the
subgroup and a commitment `T` that opens it, the responses `α + c·r̄` and `a + c·s` (reduced
modulo `q`) pass `l = r` for the auxiliary point `a·(−CL) + α·G`. -/
theorem openingHolds_honest (pp : Params Point) (hG : (pp.Order : Int) • pp.G = 0)
    (CPrime : ElGamalEnc Point) (hCL : (pp.Order : Int) • CPrime.CL = 0)
    (α a c bar_r s Sk_uInv : Int) (hs : s % (pp.Order : Int) = Sk_uInv % (pp.Order : Int))
    (A_T T : Point) (hA : A_T = a • (-CPrime.CL) + α • pp.G)
    (hT : T = openingOf pp CPrime Sk_uInv bar_r) :
    openingHolds pp ((α + c * bar_r) % pp.Order) ((a + c * s) % pp.Order) A_T T
      (negElgamal CPrime) c = true := by
  unfold openingHolds negElgamal
  simp only [decide_eq_true_eq, curve.Add, curve.ScalarMul, curve.Neg]
  have hnCL : (pp.Order : Int) • (-CPrime.CL) = 0 := by rw [smul_neg, hCL, neg_zero]
  rw [smul_emod_order pp.Order pp.G hG, smul_emod_order pp.Order _ hnCL, hA, hT]
  unfold openingOf
  have hsc : s • CPrime.CL = Sk_uInv • CPrime.CL :=
    smul_congr_order pp.Order CPrime.CL hCL s Sk_uInv hs
  have e : (a + c * s) • -CPrime.CL = a • (-CPrime.CL) - c • (s • CPrime.CL) := by module
  rw [e, hsc]
  module

/-- A value below `2^k` has at most `k` binary digits. -/
theorem bitLenAux_le (fuel : Nat) : ∀ (n k : Nat), n < 2 ^ k → bitLenAux fuel n ≤ k := by
  induction fuel with
  | zero => intro n k _; simp [bitLenAux]
  | succ f ih =>
    intro n k hn
    unfold bitLenAux
    split_ifs with h0
    · exact Nat.zero_le _
    · cases k with
      | zero =>
        simp only [pow_zero, Nat.lt_one_iff] at hn
        exact absurd hn h0
      | succ k =>
        have h2 : n / 2 < 2 ^ k := by
          rw [Nat.div_lt_iff_lt_mul (by norm_num)]
          rw [pow_succ] at hn
          exact hn
        exact Nat.succ_le_succ (ih _ _ h2)

/-- The conversion `float64(x)` is exact on the integers below `2^53`. -/
theorem float64OfUint64_exact (n : Nat) (h : n < 2 ^ 53) : float64OfUint64 n = n := by
  unfold float64OfUint64
  have hb : bitLen n - 53 = 0 := Nat.sub_eq_zero_of_le (bitLenAux_le 64 n 53 h)
  simp only [hb, if_true]

/-- The bit-by-bit square root keeps `res² ≤ n < (res + 2^k)²`. -/
theorem isqrtBits_spec (n : Nat) : ∀ (k res : Nat), res * res ≤ n →
    n < (res + 2 ^ k) * (res + 2 ^ k) →
    isqrtBits n k res * isqrtBits n k res ≤ n ∧
      n < (isqrtBits n k res + 1) * (isqrtBits n k res + 1) := by
  intro k
  induction k with
  | zero =>
    intro res h1 h2
    simpa [isqrtBits] using ⟨h1, h2⟩
  | succ k ih =>
    intro res h1 h2
    unfold isqrtBits
    simp only []
    split_ifs with hc
    · apply ih _ hc
      have : res + 2 ^ k + 2 ^ k = res + 2 ^ (k + 1) := by rw [pow_succ]; ring
      rw [this]
      exact h2
    · exact ih _ h1 (not_le.mp hc)

/-- The function `isqrt` is the integer square root on the values below `2^192`. -/
theorem isqrt_eq_sqrt (n : Nat) (h : n < 2 ^ 192) : isqrt n = Nat.sqrt n := by
  unfold isqrt
  have := isqrtBits_spec n 96 0 (Nat.zero_le _) (by
    have : (0 + 2 ^ 96) * (0 + 2 ^ 96) = 2 ^ 192 := by norm_num
    rw [this]
    exact h)
  exact Nat.eq_sqrt.mpr this

/-- Rounding the scaled square root to the nearest integer does not change its floor after
the scaling is undone, when the scale `P` exceeds the root. -/
theorem sqrt_round_floor (x s P : Nat) (hs1 : s * s ≤ x) (hs2 : x < (s + 1) * (s + 1))
    (hP : s + 1 ≤ P) :
    (if Nat.sqrt (x * (P * P)) * Nat.sqrt (x * (P * P)) + Nat.sqrt (x * (P * P)) < x * (P * P)
      then Nat.sqrt (x * (P * P)) + 1 else Nat.sqrt (x * (P * P))) / P = s := by
  obtain ⟨t, htdef⟩ : ∃ t, Nat.sqrt (x * (P * P)) = t := ⟨_, rfl⟩
  rw [htdef]
  have hPpos : 0 < P := by omega
  have ht1 : s * P ≤ t := by
    rw [← htdef, Nat.le_sqrt]
    calc s * P * (s * P) = s * s * (P * P) := by ring
      _ ≤ x * (P * P) := Nat.mul_le_mul_right _ hs1
  have ht2 : t < (s + 1) * P := by
    rw [← htdef, Nat.sqrt_lt]
    calc x * (P * P) < (s + 1) * (s + 1) * (P * P) :=
          Nat.mul_lt_mul_of_pos_right hs2 (by positivity)
      _ = (s + 1) * P * ((s + 1) * P) := by ring
  split_ifs with hup
  · apply Nat.div_eq_of_lt_le
    · exact le_trans ht1 (Nat.le_succ t)
    · by_contra hn
      have hN : t + 1 = (s + 1) * P := le_antisymm ht2 (not_lt.mp hn)
      have hX : x * (P * P) + P * P ≤ (t + 1) * (t + 1) := by
        rw [hN]
        calc x * (P * P) + P * P = (x + 1) * (P * P) := by ring
          _ ≤ (s + 1) * (s + 1) * (P * P) := Nat.mul_le_mul_right _ hs2
          _ = (s + 1) * P * ((s + 1) * P) := by ring
      have h5 : P * P < (s + 1) * P := by
        rw [← hN]
        nlinarith
      have h6 : P < s + 1 := Nat.lt_of_mul_lt_mul_right h5
      omega
  · exact Nat.div_eq_of_lt_le ht1 ht2

/-- On an integer below `2^52` the value `math.Floor(math.Sqrt(x))` is the exact integer
square root. -/
theorem floorSqrtFloat64_exact (x : Nat) (h : x < 2 ^ 52) :
    floorSqrtFloat64 x = Nat.sqrt x := by
  unfold floorSqrtFloat64
  simp only []
  rw [isqrt_eq_sqrt x (lt_trans h (by norm_num))]
  have hs : Nat.sqrt x < 2 ^ 26 := by
    rw [Nat.sqrt_lt]
    calc x < 2 ^ 52 := h
      _ = 2 ^ 26 * 2 ^ 26 := by norm_num
  have hk : bitLen (Nat.sqrt x) ≤ 26 := bitLenAux_le 64 _ 26 hs
  obtain ⟨sh, hsh⟩ : ∃ sh, 53 - bitLen (Nat.sqrt x) = sh := ⟨_, rfl⟩
  rw [hsh]
  have hsh27 : 27 ≤ sh := by omega
  have hsh53 : sh ≤ 53 := by omega
  have h4 : (4 : Nat) ^ sh = 2 ^ sh * 2 ^ sh := by
    rw [← pow_add, show (4 : Nat) = 2 ^ 2 by norm_num, ← pow_mul]
    congr 1
    omega
  have hP : 2 ^ 27 ≤ 2 ^ sh := Nat.pow_le_pow_right (by norm_num) hsh27
  have hP53 : 2 ^ sh ≤ 2 ^ 53 := Nat.pow_le_pow_right (by norm_num) hsh53
  have hXlt : x * (2 ^ sh * 2 ^ sh) < 2 ^ 192 := by
    calc x * (2 ^ sh * 2 ^ sh) < 2 ^ 52 * (2 ^ 53 * 2 ^ 53) := by
          apply Nat.mul_lt_mul_of_lt_of_le h (Nat.mul_le_mul hP53 hP53) (by positivity)
      _ < 2 ^ 192 := by norm_num
  rw [h4, isqrt_eq_sqrt _ hXlt]
  exact sqrt_round_floor x (Nat.sqrt x) (2 ^ sh) (Nat.sqrt_le x) (Nat.lt_succ_sqrt x)
    (by
      have : (2 : Nat) ^ 26 < 2 ^ 27 := by norm_num
      omega)


/-- The conversion `int64(x)` keeps a `uint64` amount below `2^63`. -/
theorem int64_of_lt (n : Nat) (h : n < 2 ^ 63) : int64 (n : Int) = n := by
  unfold int64
  norm_num at h ⊢
  omega

/-- The value `-int64(x)` of a `uint64` amount `x ≤ 2^63` is `−x`. -/
theorem int64_neg_int64 (n : Nat) (h : n ≤ 2 ^ 63) : int64 (-(int64 n)) = -(n : Int) := by
  unfold int64
  norm_num at h ⊢
  omega

/-- The closed-form proof of a well-formed relation whose amounts are in the range of exact
arithmetic passes `verifyAddLiquidityParams`. -/
theorem honestProof_params (pp : Params Point) (relation : AddLiquidityRelation Point)
    (draws : AddLiquidityDraws) (a s c Sk_uInv : Int)
    (hwf : relation.WellFormed pp Sk_uInv) (hex : relation.AmountsExact) :
    verifyAddLiquidityParams pp (honestProof pp relation draws a s c) = true := by
  unfold verifyAddLiquidityParams
  simp only [honestProof, equalEnc, curve.Add, curve.ScalarMul, curve.Neg, curve.ScalarBaseMul,
    ffmath.Multiply, ffmath.Sub]
  have hA := int64_neg_int64 relation.B_A_Delta (le_of_lt hex.deltaA)
  have hB := int64_neg_int64 relation.B_B_Delta (le_of_lt hex.deltaB)
  have hlp : uint64 (floorSqrtFloat64 (float64OfUint64
      (uint64 (relation.B_A_Delta * relation.B_B_Delta)))) = relation.Delta_LP := by
    have h1 : uint64 (relation.B_A_Delta * relation.B_B_Delta) =
        relation.B_A_Delta * relation.B_B_Delta :=
      Nat.mod_eq_of_lt (lt_trans hex.product (by norm_num))
    rw [h1, float64OfUint64_exact _ (lt_trans hex.product (by norm_num)),
      floorSqrtFloat64_exact _ hex.product, ← hwf.lpRule]
    exact Nat.mod_eq_of_lt hwf.amounts.2.2.2.2
  have hamm : ((int64 relation.B_poolB * int64 relation.B_A_Delta -
      int64 relation.B_poolA * int64 relation.B_B_Delta).natAbs : Int) ≤
      float64ToInt64 (max (float64OfUint64 relation.B_poolA)
        (float64OfUint64 relation.B_poolB)) := by
    rw [int64_of_lt _ (lt_trans hex.poolA (by norm_num)),
      int64_of_lt _ (lt_trans hex.poolB (by norm_num)), int64_of_lt _ hex.deltaA,
      int64_of_lt _ hex.deltaB, float64OfUint64_exact _ hex.poolA,
      float64OfUint64_exact _ hex.poolB]
    unfold float64ToInt64
    rw [if_pos (lt_of_lt_of_le (max_lt hex.poolA hex.poolB) (by norm_num))]
    exact_mod_cast hwf.ammRule
  simp only [hA, hB, hwf.deltaACL, hwf.deltaACR, hwf.deltaBCL, hwf.deltaBCR, hwf.poolACL,
    hwf.poolACR, hwf.poolBCL, hwf.poolBCR, hlp, neg_smul, neg_neg, decide_True, Bool.and_self,
    Bool.not_true, Bool.or_self, Bool.false_eq_true, if_false, ne_eq, not_true_eq_false,
    gt_iff_lt, not_lt.mpr hamm]

/-- The closed-form proof passes the check `l1 = r1`. -/
theorem honestProof_encHolds (pp : Params Point) (hG : (pp.Order : Int) • pp.G = 0)
    (relation : AddLiquidityRelation Point)
    (draws : AddLiquidityDraws) (a s c Sk_uInv : Int)
    (hwf : relation.WellFormed pp Sk_uInv) :
    (honestProof pp relation draws a s c).encHolds c = true := by
  unfold AddLiquidityProof.encHolds
  simp only [honestProof, decide_eq_true_eq, curve.Add, curve.ScalarMul]
  have hPk : (pp.Order : Int) • relation.Pk_u = 0 := by
    rw [hwf.pk, smul_comm, hG, smul_zero]
  rw [smul_emod_order pp.Order _ hPk, hwf.lpEnc]
  module

/-- The closed-form proof passes the check `l2 = r2`. -/
theorem honestProof_ownershipHolds (pp : Params Point) (hG : (pp.Order : Int) • pp.G = 0)
    (relation : AddLiquidityRelation Point)
    (draws : AddLiquidityDraws) (a s c Sk_uInv : Int)
    (hwf : relation.WellFormed pp Sk_uInv) :
    (honestProof pp relation draws a s c).ownershipHolds pp c = true := by
  unfold AddLiquidityProof.ownershipHolds
  simp only [honestProof, decide_eq_true_eq, curve.Add, curve.ScalarMul]
  rw [smul_emod_order pp.Order _ hG, hwf.pk]
  module

/-- The range proofs of a well-formed relation pass the last part of `Verify`. -/
theorem honestProof_rangeProofs (pp : Params Point) (relation : AddLiquidityRelation Point)
    (draws : AddLiquidityDraws) (a s c Sk_uInv : Int)
    (hwf : relation.WellFormed pp Sk_uInv) :
    verifyRangeProofs pp (honestProof pp relation draws a s c) = (true, none) := by
  unfold verifyRangeProofs verifyCtRangeRoutine
  simp only [honestProof, hwf.rangeA, hwf.rangeB, hwf.rangeFee]
  rfl

/-- The `CL` component of a refreshed ciphertext of a well-formed relation is in the
subgroup. -/
theorem refreshed_CL_sub (pp : Params Point) (hG : (pp.Order : Int) • pp.G = 0)
    (Sk R : Int) (CL : Point) (hCL : (pp.Order : Int) • CL = 0) :
    (pp.Order : Int) • (CL + R • (Sk • pp.G)) = 0 := by
  rw [smul_add, hCL, smul_comm, smul_comm _ Sk, hG, smul_zero, smul_zero, add_zero]

/-- Completeness of the checks of `Verify` on the closed-form proof of a well-formed
relation whose amounts are in the range of exact arithmetic, in each of the three fee
cases. -/
theorem honestProof_verify (pp : Params Point) (hG : (pp.Order : Int) • pp.G = 0)
    (relation : AddLiquidityRelation Point) (draws : AddLiquidityDraws)
    (a s c Sk_uInv : Int) (hwf : relation.WellFormed pp Sk_uInv)
    (hex : relation.AmountsExact)
    (hfee : relation.FeeInA pp Sk_uInv ∨ relation.FeeInB pp Sk_uInv ∨
      relation.CrossFee pp Sk_uInv)
    (hs : ffmath.ModInverse relation.Sk_u pp.Order = some s)
    (hc : pp.HashToInt ((honestProof pp relation draws a s c).challengeBuf pp) =
      Except.ok c) :
    (honestProof pp relation draws a s c).Verify pp = (true, none) := by
  have hsI : s % (pp.Order : Int) = Sk_uInv % (pp.Order : Int) :=
    inverse_congr _ _ _ _ (ffmath.ModInverse_spec _ _ _ hs).1 hwf.skInv
  have hCLA : (pp.Order : Int) • (relation.C_uA.CL + relation.C_uA_Delta.CL) = 0 := by
    rw [hwf.deltaACL, hwf.pk]
    exact refreshed_CL_sub pp hG _ _ _ hwf.subA
  have hCLB : (pp.Order : Int) • (relation.C_uB.CL + relation.C_uB_Delta.CL) = 0 := by
    rw [hwf.deltaBCL, hwf.pk]
    exact refreshed_CL_sub pp hG _ _ _ hwf.subB
  rw [AddLiquidityProof.Verify_eq_verdict]
  unfold AddLiquidityProof.verdict
  rw [hc]
  have hbind : ¬ ((honestProof pp relation draws a s c).ARangeProof.A ≠
      (honestProof pp relation draws a s c).T_uA ∨
      (honestProof pp relation draws a s c).BRangeProof.A ≠
      (honestProof pp relation draws a s c).T_uB) := by
    simp only [honestProof, hwf.bindA, hwf.bindB, ne_eq, not_true_eq_false, or_self,
      not_false_eq_true]
  simp only [if_neg hbind, honestProof_params pp relation draws a s c Sk_uInv hwf hex,
    honestProof_encHolds pp hG relation draws a s c Sk_uInv hwf,
    honestProof_ownershipHolds pp hG relation draws a s c Sk_uInv hwf,
    honestProof_rangeProofs pp relation draws a s c Sk_uInv hwf,
    Bool.true_eq_false, if_false]
  have hal : (honestProof pp relation draws a s c).feeAliased = true := by
    unfold AddLiquidityProof.feeAliased
    rcases hfee with hA | hB | hX
    · simp only [honestProof, AddLiquidityRelation.feeAux, if_pos hA.asset, equalEnc,
        hA.feeCL, hA.feeCR, decide_True, Bool.and_self]
    · simp only [honestProof, AddLiquidityRelation.feeAux, if_neg hB.notA, if_pos hB.asset,
        equalEnc, hB.feeCL, hB.feeCR, decide_True, Bool.and_self]
    · simp only [honestProof, if_neg hX.notA, if_neg hX.notB]
  have hoA : (honestProof pp relation draws a s c).openingA pp c = true := by
    unfold AddLiquidityProof.openingA AddLiquidityProof.C_uAPrime
    rcases hfee with hA | hB | hX
    · simp only [honestProof, if_pos hA.asset]
      exact openingHolds_honest pp hG _ hCLA _ _ _ _ _ _ hsI _ _ rfl hA.openA
    · simp only [honestProof, if_neg hB.notA]
      exact openingHolds_honest pp hG _ hCLA _ _ _ _ _ _ hsI _ _ rfl hB.openA
    · simp only [honestProof, if_neg hX.notA]
      exact openingHolds_honest pp hG _ hCLA _ _ _ _ _ _ hsI _ _ rfl hX.openA
  have hoB : (honestProof pp relation draws a s c).openingB pp c = true := by
    unfold AddLiquidityProof.openingB AddLiquidityProof.C_uBPrime
    rcases hfee with hA | hB | hX
    · simp only [honestProof, if_pos hA.asset]
      exact openingHolds_honest pp hG _ hCLB _ _ _ _ _ _ hsI _ _ rfl hA.openB
    · simp only [honestProof, if_neg hB.notA, if_pos hB.asset]
      exact openingHolds_honest pp hG _ hCLB _ _ _ _ _ _ hsI _ _ rfl hB.openB
    · simp only [honestProof, if_neg hX.notA, if_neg hX.notB]
      exact openingHolds_honest pp hG _ hCLB _ _ _ _ _ _ hsI _ _ rfl hX.openB
  have hoF : (honestProof pp relation draws a s c).openingFee pp c = true := by
    unfold AddLiquidityProof.openingFee AddLiquidityProof.C_feePrime
      AddLiquidityProof.C_uAPrime AddLiquidityProof.C_uBPrime
    rcases hfee with hA | hB | hX
    · simp only [honestProof, AddLiquidityRelation.feeAux, AddLiquidityRelation.feeAlpha,
        if_pos hA.asset]
      exact openingHolds_honest pp hG _ hCLA _ _ _ _ _ _ hsI _ _ rfl hA.openFee
    · simp only [honestProof, AddLiquidityRelation.feeAux, AddLiquidityRelation.feeAlpha,
        if_neg hB.notA, if_pos hB.asset]
      exact openingHolds_honest pp hG _ hCLB _ _ _ _ _ _ hsI _ _ rfl hB.openFee
    · simp only [honestProof, AddLiquidityRelation.feeAux, AddLiquidityRelation.feeAlpha,
        if_neg hX.notA, if_neg hX.notB]
      exact openingHolds_honest pp hG (feePrime pp relation.C_fee relation.GasFee) hX.subFee
        _ _ _ _ _ _ hsI _ _ (add_comm _ _) hX.openFee
  simp only [hal, hoA, hoB, hoF, Bool.true_eq_false, if_false]

/-- Completeness of AddLiquidity in any of the three fee cases, for a well-formed relation
whose amounts are in the range of exact arithmetic: `ProveAddLiquidity` does not fail at run
time, returns a proof when the hash succeeds, and every proof it returns is accepted by
`Verify`. -/
theorem prove_then_verify (pp : Params Point) (relation : AddLiquidityRelation Point)
    (draws : AddLiquidityDraws) (Sk_uInv : Int) (hq : pp.Order.Prime)
    (hG : (pp.Order : Int) • pp.G = 0)
    (hα : 0 < draws.alpha_sk_u ∧ draws.alpha_sk_u < pp.Order)
    (hwf : relation.WellFormed pp Sk_uInv) (hex : relation.AmountsExact)
    (hfee : relation.FeeInA pp Sk_uInv ∨ relation.FeeInB pp Sk_uInv ∨
      relation.CrossFee pp Sk_uInv) :
    ProveAddLiquidity pp relation draws ≠ GoResult.crashed ∧
      ((∀ buf, ∃ c, pp.HashToInt buf = Except.ok c) →
        ∃ proof, ProveAddLiquidity pp relation draws = GoResult.ok proof) ∧
      (∀ proof, ProveAddLiquidity pp relation draws = GoResult.ok proof →
        proof.Verify pp = (true, none)) := by
  obtain ⟨a, ha⟩ := ffmath.ModInverse_isSome_of_prime draws.alpha_sk_u pp.Order hq hα.1 hα.2
  have hqpos : (0 : Int) < pp.Order := by exact_mod_cast hq.pos
  obtain ⟨s, hs⟩ := ffmath.ModInverse_isSome relation.Sk_u pp.Order Sk_uInv hqpos hwf.skInv
  have hP : ProveAddLiquidity pp relation draws =
      match pp.HashToInt ((honestProof pp relation draws a 0 0).challengeBuf pp) with
      | Except.error e => GoResult.error e
      | Except.ok c => GoResult.ok (honestProof pp relation draws a s c) := by
    unfold ProveAddLiquidity
    rw [ProveAddLiquidity.trace_eq, ha, hs]
    simp only
    cases pp.HashToInt ((honestProof pp relation draws a 0 0).challengeBuf pp) <;> rfl
  refine ⟨?_, ?_, ?_⟩
  · rw [hP]
    cases pp.HashToInt ((honestProof pp relation draws a 0 0).challengeBuf pp) <;> simp
  · intro hh
    obtain ⟨c, hc⟩ := hh ((honestProof pp relation draws a 0 0).challengeBuf pp)
    rw [hP, hc]
    exact ⟨_, rfl⟩
  · intro proof hproof
    rw [hP] at hproof
    cases hc : pp.HashToInt ((honestProof pp relation draws a 0 0).challengeBuf pp) with
    | error e => rw [hc] at hproof; simp at hproof
    | ok c =>
      rw [hc] at hproof
      simp only [GoResult.ok.injEq] at hproof
      subst hproof
      exact honestProof_verify pp hG relation draws a s c Sk_uInv hwf hex hfee hs hc

/-- Completeness of AddLiquidity when the fee is paid in asset A or asset B, on the amounts
for which the machine arithmetic of the verifier is exact: for every well-formed relation
(`Pk_u = Sk_u·G`, `Sk_u` invertible modulo `q`, `C_LP_Delta.CL = R_DeltaLP·Pk_u`, `C_fee` the
ciphertext of the fee asset, `T_uA`, `T_uB`, `T_fee` opening the refreshed ciphertexts with
the fee deducted on the fee asset's side, delta and pool ciphertexts built from `R_DeltaA`,
`R_DeltaB` and the plaintext deltas, the LP and AMM rules, range proofs that verify with
`ARangeProof.A = T_uA` and `BRangeProof.A = T_uB`) with deltas below `2^63`, a product of
deltas below `2^52` and pool balances below `2^53`, and every choice of prover randomness
(`alpha_sk_u` in `[1, q)`), `ProveAddLiquidity` does not fail, returns a proof when the hash
succeeds, and `Verify` on its output returns `(true, nil)`. -/
theorem complete_same_asset_exact_amounts (pp : Params Point)
    (relation : AddLiquidityRelation Point) (draws : AddLiquidityDraws) (Sk_uInv : Int)
    (hq : pp.Order.Prime) (hG : (pp.Order : Int) • pp.G = 0)
    (hα : 0 < draws.alpha_sk_u ∧ draws.alpha_sk_u < pp.Order)
    (hwf : relation.WellFormed pp Sk_uInv) (hex : relation.AmountsExact)
    (hfee : relation.FeeInA pp Sk_uInv ∨ relation.FeeInB pp Sk_uInv) :
    ProveAddLiquidity pp relation draws ≠ GoResult.crashed ∧
      ((∀ buf, ∃ c, pp.HashToInt buf = Except.ok c) →
        ∃ proof, ProveAddLiquidity pp relation draws = GoResult.ok proof) ∧
      (∀ proof, ProveAddLiquidity pp relation draws = GoResult.ok proof →
        proof.Verify pp = (true, none)) :=
  prove_then_verify pp relation draws Sk_uInv hq hG hα hwf hex
    (hfee.elim Or.inl (fun h => Or.inr (Or.inl h)))

/-- Completeness of AddLiquidity with a cross-asset fee, on the amounts for which the machine
arithmetic of the verifier is exact: for every well-formed relation whose `GasFeeAssetId`
differs from both `AssetAId` and `AssetBId`
(`T_fee = (C_fee.CR − GasFee·H) − Sk_u⁻¹·C_fee.CL + Bar_r_fee·G`, the A and B openings formed
from `C_u + C_u_Delta` without fee deduction, three range proofs that verify) with deltas
below `2^63`, a product of deltas below `2^52` and pool balances below `2^53`, and every
choice of prover randomness (`alpha_sk_u` in `[1, q)`), `ProveAddLiquidity` does not fail,
returns a proof when the hash succeeds, and `Verify` on its output returns `(true, nil)`. -/
theorem complete_cross_asset_exact_amounts (pp : Params Point)
    (relation : AddLiquidityRelation Point) (draws : AddLiquidityDraws) (Sk_uInv : Int)
    (hq : pp.Order.Prime) (hG : (pp.Order : Int) • pp.G = 0)
    (hα : 0 < draws.alpha_sk_u ∧ draws.alpha_sk_u < pp.Order)
    (hwf : relation.WellFormed pp Sk_uInv) (hex : relation.AmountsExact)
    (hfee : relation.CrossFee pp Sk_uInv) :
    ProveAddLiquidity pp relation draws ≠ GoResult.crashed ∧
      ((∀ buf, ∃ c, pp.HashToInt buf = Except.ok c) →
        ∃ proof, ProveAddLiquidity pp relation draws = GoResult.ok proof) ∧
      (∀ proof, ProveAddLiquidity pp relation draws = GoResult.ok proof →
        proof.Verify pp = (true, none)) :=
  prove_then_verify pp relation draws Sk_uInv hq hG hα hwf hex (Or.inr (Or.inr hfee))

end zero

namespace Small

open zero

set_option maxRecDepth 1000000 in
/-- The relation `relationA` is well formed, with `5` the inverse of the secret key `3`. -/
theorem relationA_wellFormed : relationA.WellFormed pp 5 :=
  { pk := by decide, skInv := by decide, lpEnc := by decide, subA := by decide,
    subB := by decide, amounts := by decide, deltaACL := by decide, deltaACR := by decide,
    deltaBCL := by decide, deltaBCR := by decide, poolACL := by decide, poolACR := by decide,
    poolBCL := by decide, poolBCR := by decide,
    lpRule := Nat.eq_sqrt.mpr ⟨by decide, by decide⟩, ammRule := by decide,
    rangeA := by decide, rangeB := by decide, rangeFee := by decide, bindA := by decide,
    bindB := by decide }

/-- The amounts of `relationA` are in the range of exact arithmetic. -/
theorem relationA_amountsExact : relationA.AmountsExact :=
  { deltaA := by decide, deltaB := by decide, product := by decide, poolA := by decide,
    poolB := by decide }

set_option maxRecDepth 1000000 in
/-- In `relationA` the fee is paid in asset A. -/
theorem relationA_feeInA : relationA.FeeInA pp 5 :=
  { asset := by decide, feeCL := by decide, feeCR := by decide, openA := by decide,
    openB := by decide, openFee := by decide }

set_option maxRecDepth 1000000 in
/-- The relation `relationX` is well formed, with `5` the inverse of the secret key `3`. -/
theorem relationX_wellFormed : relationX.WellFormed pp 5 :=
  { pk := by decide, skInv := by decide, lpEnc := by decide, subA := by decide,
    subB := by decide, amounts := by decide, deltaACL := by decide, deltaACR := by decide,
    deltaBCL := by decide, deltaBCR := by decide, poolACL := by decide, poolACR := by decide,
    poolBCL := by decide, poolBCR := by decide,
    lpRule := Nat.eq_sqrt.mpr ⟨by decide, by decide⟩, ammRule := by decide,
    rangeA := by decide, rangeB := by decide, rangeFee := by decide, bindA := by decide,
    bindB := by decide }

/-- The amounts of `relationX` are in the range of exact arithmetic. -/
theorem relationX_amountsExact : relationX.AmountsExact :=
  { deltaA := by decide, deltaB := by decide, product := by decide, poolA := by decide,
    poolB := by decide }

set_option maxRecDepth 1000000 in
/-- In `relationX` the fee is paid in a third asset. -/
theorem relationX_crossFee : relationX.CrossFee pp 5 :=
  { notA := by decide, notB := by decide, subFee := by decide, openA := by decide,
    openB := by decide, openFee := by decide }

end Small

namespace zero

variable {Point : Type} [AddCommGroup Point] [DecidableEq Point]

set_option maxRecDepth 1000000 in
/-- Witness of `complete_same_asset_exact_amounts`: scenario S2 on the small instance. -/
theorem complete_same_asset_exact_amounts_witness :
    ProveAddLiquidity Small.pp Small.relationA Small.draws = GoResult.ok Small.traceA.proof ∧
      Small.traceA.proof.Verify Small.pp = (true, none) :=
  ⟨by rfl,
    (complete_same_asset_exact_amounts Small.pp Small.relationA Small.draws 5 (by decide)
      (by decide) (by decide) Small.relationA_wellFormed Small.relationA_amountsExact
      (Or.inl Small.relationA_feeInA)).2.2 Small.traceA.proof (by rfl)⟩

set_option maxRecDepth 1000000 in
/-- Witness of `complete_cross_asset_exact_amounts`: scenario S6 on the small instance. -/
theorem complete_cross_asset_exact_amounts_witness :
    ProveAddLiquidity Small.pp Small.relationX Small.draws = GoResult.ok Small.traceX.proof ∧
      Small.traceX.proof.Verify Small.pp = (true, none) :=
  ⟨by rfl,
    (complete_cross_asset_exact_amounts Small.pp Small.relationX Small.draws 5 (by decide)
      (by decide) (by decide) Small.relationX_wellFormed Small.relationX_amountsExact
      Small.relationX_crossFee).2.2 Small.traceX.proof (by rfl)⟩

/-- The last part of `Verify` accepts exactly when the three range proofs verify, and
rejects without an error otherwise. -/
theorem verifyRangeProofs_eq (pp : Params Point) (proof : AddLiquidityProof Point) :
    verifyRangeProofs pp proof =
      if ctrange.RangeProof.Verify pp proof.ARangeProof = (true, none) ∧
          ctrange.RangeProof.Verify pp proof.BRangeProof = (true, none) ∧
          ctrange.RangeProof.Verify pp proof.GasFeePrimeRangeProof = (true, none)
      then (true, none) else (false, none) := by
  have key : ∀ r : Bool × GoError,
      (match r with | (true, none) => (1 : Int) | _ => ErrCode) = ErrCode ↔ r ≠ (true, none) := by
    rintro ⟨b, e⟩
    cases b <;> cases e <;> simp [ErrCode, ctrange.ErrCode]
  unfold verifyRangeProofs verifyCtRangeRoutine
  simp only [List.any_cons, List.any_nil, Bool.or_false, Bool.or_eq_true, decide_eq_true_eq,
    key]
  by_cases hA : ctrange.RangeProof.Verify pp proof.ARangeProof = (true, none) <;>
    by_cases hB : ctrange.RangeProof.Verify pp proof.BRangeProof = (true, none) <;>
    by_cases hF : ctrange.RangeProof.Verify pp proof.GasFeePrimeRangeProof = (true, none) <;>
    simp [hA, hB, hF]

/-- The result of `Verify` check by check, when the hash of the transcript is `c`. -/
theorem AddLiquidityProof.Verify_cases (pp : Params Point) (proof : AddLiquidityProof Point)
    (c : Int) (hc : pp.HashToInt (proof.challengeBuf pp) = Except.ok c) :
    proof.Verify pp =
      if proof.ARangeProof.A ≠ proof.T_uA ∨ proof.BRangeProof.A ≠ proof.T_uB ∨
          verifyAddLiquidityParams pp proof = false then
        (false, some errVerifyInvalidParams)
      else if proof.encHolds c = false ∨ proof.ownershipHolds pp c = false then (false, none)
      else if proof.feeAliased = false then (false, some errVerifyInvalidParams)
      else if proof.openingA pp c = false ∨ proof.openingB pp c = false ∨
          proof.openingFee pp c = false ∨
          ctrange.RangeProof.Verify pp proof.ARangeProof ≠ (true, none) ∨
          ctrange.RangeProof.Verify pp proof.BRangeProof ≠ (true, none) ∨
          ctrange.RangeProof.Verify pp proof.GasFeePrimeRangeProof ≠ (true, none) then
        (false, none)
      else (true, none) := by
  rw [AddLiquidityProof.Verify_eq_verdict]
  unfold AddLiquidityProof.verdict
  rw [hc, verifyRangeProofs_eq]
  simp only
  by_cases h1 : proof.ARangeProof.A = proof.T_uA
  swap
  · simp [h1]
  by_cases h2 : proof.BRangeProof.A = proof.T_uB
  swap
  · simp [h2]
  cases verifyAddLiquidityParams pp proof
  · simp
  cases proof.encHolds c
  · simp [h1, h2]
  cases proof.ownershipHolds pp c
  · simp [h1, h2]
  cases proof.feeAliased
  · simp [h1, h2]
  cases proof.openingA pp c
  · simp [h1, h2]
  cases proof.openingB pp c
  · simp [h1, h2]
  cases proof.openingFee pp c
  · simp [h1, h2]
  by_cases hA : ctrange.RangeProof.Verify pp proof.ARangeProof = (true, none) <;>
    by_cases hB : ctrange.RangeProof.Verify pp proof.BRangeProof = (true, none) <;>
    by_cases hF : ctrange.RangeProof.Verify pp proof.GasFeePrimeRangeProof = (true, none) <;>
    simp [h1, h2, hA, hB, hF]

/-- C8 (as amended). For every proof on which the transcript hash succeeds, `Verify` returns
`(false, nil)` when it rejects because a verification equation fails (`l1 = r1`, …,
`l5 = r5`) or because a range proof does not verify; it returns `false` together with the
invalid-params error when a range proof's aggregate `A` differs from `T_uA` or `T_uB`, when
the delta ciphertexts, the LP amount or the AMM rate are inconsistent
(`verifyAddLiquidityParams`), or — once `l1 = r1` and `l2 = r2` hold — when `C_fee` or the fee
auxiliary point is not aliased to the fee asset's side; otherwise it returns `(true, nil)`. -/
theorem verify_rejection_results (pp : Params Point) (proof : AddLiquidityProof Point)
    (c : Int) (hc : pp.HashToInt (proof.challengeBuf pp) = Except.ok c) :
    proof.Verify pp =
      if proof.ARangeProof.A ≠ proof.T_uA ∨ proof.BRangeProof.A ≠ proof.T_uB ∨
          verifyAddLiquidityParams pp proof = false then
        (false, some errVerifyInvalidParams)
      else if proof.encHolds c = false ∨ proof.ownershipHolds pp c = false then (false, none)
      else if proof.feeAliased = false then (false, some errVerifyInvalidParams)
      else if proof.openingA pp c = false ∨ proof.openingB pp c = false ∨
          proof.openingFee pp c = false ∨
          ctrange.RangeProof.Verify pp proof.ARangeProof ≠ (true, none) ∨
          ctrange.RangeProof.Verify pp proof.BRangeProof ≠ (true, none) ∨
          ctrange.RangeProof.Verify pp proof.GasFeePrimeRangeProof ≠ (true, none) then
        (false, none)
      else (true, none) :=
  AddLiquidityProof.Verify_cases pp proof c hc

set_option maxRecDepth 1000000 in
/-- Witness of `verify_rejection_results`: the proof `Small.proofBadBinding`, whose transcript
hashes to `5` and whose A range proof is not bound to `T_uA`. -/
theorem verify_rejection_results_witness :
    Small.pp.HashToInt (Small.proofBadBinding.challengeBuf Small.pp) = Except.ok 5 ∧
      Small.proofBadBinding.Verify Small.pp = (false, some errVerifyInvalidParams) :=
  ⟨by rfl,
    (verify_rejection_results Small.pp Small.proofBadBinding 5 (by rfl)).trans (by decide)⟩

set_option maxRecDepth 1000000 in
/-- C8, counterexample. A rejection can come with an error: the transcript of
`Small.proofBadBinding` hashes (to `5`), `Verify` rejects it because the aggregate of the A
range proof differs from `T_uA`, and the result is `false` with the invalid-params error, not
`(false, nil)`. -/
theorem verify_rejection_with_error :
    Small.pp.HashToInt (Small.proofBadBinding.challengeBuf Small.pp) = Except.ok 5 ∧
      Small.proofBadBinding.ARangeProof.A ≠ Small.proofBadBinding.T_uA ∧
      Small.proofBadBinding.Verify Small.pp = (false, some errVerifyInvalidParams) ∧
      Small.proofBadBinding.Verify Small.pp ≠ (false, none) :=
  ⟨by rfl, by decide, by decide, by decide⟩

set_option maxRecDepth 1000000 in
/-- C9, the code at the failing input. In the accepted cross-asset proof of `Small.traceX`
the fee range proof is replaced by the (valid) A range proof, whose aggregate `T_uA` differs
from `T_fee`; `Verify` still returns `(true, nil)`. -/
theorem fee_range_proof_not_bound :
    Small.traceX.proof.Verify Small.pp = (true, none) ∧
      Small.proofSwappedFeeRange.GasFeeAssetId ≠ Small.proofSwappedFeeRange.AssetAId ∧
      Small.proofSwappedFeeRange.GasFeeAssetId ≠ Small.proofSwappedFeeRange.AssetBId ∧
      Small.proofSwappedFeeRange.GasFeePrimeRangeProof.A = Small.proofSwappedFeeRange.T_uA ∧
      Small.proofSwappedFeeRange.T_uA ≠ Small.proofSwappedFeeRange.T_fee ∧
      Small.proofSwappedFeeRange.GasFeePrimeRangeProof.A ≠ Small.proofSwappedFeeRange.T_fee ∧
      Small.proofSwappedFeeRange.Verify Small.pp = (true, none) :=
  ⟨by decide, by decide, by decide, by decide, by decide, by decide, by decide⟩

/-- `Verify` returns `(true, nil)` exactly on the proofs that pass every check. -/
theorem AddLiquidityProof.Verify_true_iff (pp : Params Point)
    (proof : AddLiquidityProof Point) :
    proof.Verify pp = (true, none) ↔ ∃ c, proof.Accepted pp c := by
  constructor
  · intro h
    cases hc : pp.HashToInt (proof.challengeBuf pp) with
    | error e =>
      rw [AddLiquidityProof.Verify_eq_verdict] at h
      unfold AddLiquidityProof.verdict at h
      rw [hc] at h
      split_ifs at h <;> simp at h
    | ok c =>
      have hv := AddLiquidityProof.Verify_cases pp proof c hc
      rw [h] at hv
      split_ifs at hv with h1 h2 h3 h4
      · simp at hv
      · simp at hv
      · simp at hv
      · simp at hv
      · simp only [not_or, ne_eq, not_not, Bool.not_eq_false] at h1 h2 h3 h4
        exact ⟨c, ⟨hc, h1.1, h1.2.1, h1.2.2, h2.1, h2.2, h3, h4.1, h4.2.1, h4.2.2.1,
          h4.2.2.2.1, h4.2.2.2.2.1, h4.2.2.2.2.2⟩⟩
  · rintro ⟨c, h⟩
    rw [AddLiquidityProof.Verify_cases pp proof c h.hash]
    simp [h.bindA, h.bindB, h.params, h.enc, h.own, h.aliased, h.openA, h.openB, h.openFee,
      h.rangeA, h.rangeB, h.rangeFee]

/-- Adding `1` to a scalar moves the multiple of a non-zero point. -/
theorem succ_smul_ne (z : Int) (P X : Point) (hP : P ≠ 0) (h : z • P = X) :
    (z + 1) • P ≠ X := by
  intro h'
  rw [add_smul, one_smul, h] at h'
  exact hP (by simpa using h')

/-- An opening check that holds fails after `1` is added to the response `Z`, when
`G ≠ 0`. -/
theorem openingHolds_succ_Z (pp : Params Point) (hG : pp.G ≠ 0) (Z Zinv : Int)
    (A_T T : Point) (CNeg : ElGamalEnc Point) (c : Int)
    (h : openingHolds pp Z Zinv A_T T CNeg c = true) :
    openingHolds pp (Z + 1) Zinv A_T T CNeg c = false := by
  unfold openingHolds at h ⊢
  simp only [decide_eq_true_eq, decide_eq_false_iff_not, curve.Add, curve.ScalarMul] at h ⊢
  intro h'
  rw [add_smul, one_smul, add_right_comm, h] at h'
  exact hG (by simpa using h')

/-- An opening check that holds fails after `1` is added to the response `Z_sk_uInv`, when
the `CL` component of the ciphertext is not zero. -/
theorem openingHolds_succ_Zinv (pp : Params Point) (Z Zinv : Int)
    (A_T T : Point) (CNeg : ElGamalEnc Point) (hCL : CNeg.CL ≠ 0) (c : Int)
    (h : openingHolds pp Z Zinv A_T T CNeg c = true) :
    openingHolds pp Z (Zinv + 1) A_T T CNeg c = false := by
  unfold openingHolds at h ⊢
  simp only [decide_eq_true_eq, decide_eq_false_iff_not, curve.Add, curve.ScalarMul] at h ⊢
  intro h'
  rw [add_smul, one_smul, ← add_assoc, h] at h'
  exact hCL (by simpa using h')

/-- A proof that passes the structural checks, `l1 = r1` and `l2 = r2` but fails one of the
opening checks is rejected with `(false, nil)`. -/
theorem reject_of_opening (pp : Params Point) (proof : AddLiquidityProof Point) (c : Int)
    (hash : pp.HashToInt (proof.challengeBuf pp) = Except.ok c)
    (bindA : proof.ARangeProof.A = proof.T_uA) (bindB : proof.BRangeProof.A = proof.T_uB)
    (params : verifyAddLiquidityParams pp proof = true)
    (enc : proof.encHolds c = true) (own : proof.ownershipHolds pp c = true)
    (aliased : proof.feeAliased = true)
    (h : proof.openingA pp c = false ∨ proof.openingB pp c = false ∨
      proof.openingFee pp c = false) :
    proof.Verify pp = (false, none) := by
  rw [AddLiquidityProof.Verify_cases pp proof c hash]
  have h' : proof.openingA pp c = false ∨ proof.openingB pp c = false ∨
      proof.openingFee pp c = false ∨
      ctrange.RangeProof.Verify pp proof.ARangeProof ≠ (true, none) ∨
      ctrange.RangeProof.Verify pp proof.BRangeProof ≠ (true, none) ∨
      ctrange.RangeProof.Verify pp proof.GasFeePrimeRangeProof ≠ (true, none) := by
    rcases h with h | h | h
    · exact Or.inl h
    · exact Or.inr (Or.inl h)
    · exact Or.inr (Or.inr (Or.inl h))
  simp only [bindA, bindB, params, enc, own, aliased, ne_eq, not_true_eq_false,
    Bool.true_eq_false, or_self, if_false, if_pos h']

/-- A proof that passes the structural checks but fails `l1 = r1` or `l2 = r2` is rejected
with `(false, nil)`. -/
theorem reject_of_equation (pp : Params Point) (proof : AddLiquidityProof Point) (c : Int)
    (hash : pp.HashToInt (proof.challengeBuf pp) = Except.ok c)
    (bindA : proof.ARangeProof.A = proof.T_uA) (bindB : proof.BRangeProof.A = proof.T_uB)
    (params : verifyAddLiquidityParams pp proof = true)
    (h : proof.encHolds c = false ∨ proof.ownershipHolds pp c = false) :
    proof.Verify pp = (false, none) := by
  rw [AddLiquidityProof.Verify_cases pp proof c hash]
  simp only [bindA, bindB, params, ne_eq, not_true_eq_false, Bool.true_eq_false, or_self,
    if_false, if_pos h]

/-- C10 (as amended). For every AddLiquidity proof on which `Verify` returns `(true, nil)`,
with `G` not the identity: replacing `Z_sk_u`, `Z_bar_r_A`, `Z_bar_r_B` or `Z_bar_r_fee` by
its successor makes `Verify` return `(false, nil)`; so does replacing `Z_rDelta_LP` when
`Pk_u` is not the identity, and replacing `Z_sk_uInv` when the `CL` component of one of the
three refreshed ciphertexts (A side, B side, fee) is not the identity. -/
theorem response_plus_one_rejected (pp : Params Point) (proof : AddLiquidityProof Point)
    (hG : pp.G ≠ 0) (h : proof.Verify pp = (true, none)) :
    AddLiquidityProof.Verify pp { proof with Z_sk_u := proof.Z_sk_u + 1 } = (false, none) ∧
      AddLiquidityProof.Verify pp { proof with Z_bar_r_A := proof.Z_bar_r_A + 1 } =
        (false, none) ∧
      AddLiquidityProof.Verify pp { proof with Z_bar_r_B := proof.Z_bar_r_B + 1 } =
        (false, none) ∧
      AddLiquidityProof.Verify pp { proof with Z_bar_r_fee := proof.Z_bar_r_fee + 1 } =
        (false, none) ∧
      (proof.Pk_u ≠ 0 →
        AddLiquidityProof.Verify pp { proof with Z_rDelta_LP := proof.Z_rDelta_LP + 1 } =
          (false, none)) ∧
      ((proof.C_uAPrime pp).CL ≠ 0 ∨ (proof.C_uBPrime pp).CL ≠ 0 ∨
          (proof.C_feePrime pp).CL ≠ 0 →
        AddLiquidityProof.Verify pp { proof with Z_sk_uInv := proof.Z_sk_uInv + 1 } =
          (false, none)) := by
  obtain ⟨c, acc⟩ := (AddLiquidityProof.Verify_true_iff pp proof).mp h
  have hneg : ∀ P : Point, P ≠ 0 → -P ≠ 0 := fun P hP => neg_ne_zero.mpr hP
  refine ⟨?_, ?_, ?_, ?_, ?_, ?_⟩
  · refine reject_of_equation pp _ c acc.hash acc.bindA acc.bindB acc.params (Or.inr ?_)
    have := acc.own
    unfold AddLiquidityProof.ownershipHolds at this ⊢
    simp only [decide_eq_true_eq, decide_eq_false_iff_not, curve.ScalarMul] at this ⊢
    exact succ_smul_ne _ _ _ hG this
  · exact reject_of_opening pp _ c acc.hash acc.bindA acc.bindB acc.params acc.enc acc.own
      acc.aliased (Or.inl (openingHolds_succ_Z pp hG _ _ _ _ _ c acc.openA))
  · exact reject_of_opening pp _ c acc.hash acc.bindA acc.bindB acc.params acc.enc acc.own
      acc.aliased (Or.inr (Or.inl (openingHolds_succ_Z pp hG _ _ _ _ _ c acc.openB)))
  · exact reject_of_opening pp _ c acc.hash acc.bindA acc.bindB acc.params acc.enc acc.own
      acc.aliased (Or.inr (Or.inr (openingHolds_succ_Z pp hG _ _ _ _ _ c acc.openFee)))
  · intro hPk
    refine reject_of_equation pp _ c acc.hash acc.bindA acc.bindB acc.params (Or.inl ?_)
    have := acc.enc
    unfold AddLiquidityProof.encHolds at this ⊢
    simp only [decide_eq_true_eq, decide_eq_false_iff_not, curve.ScalarMul] at this ⊢
    exact succ_smul_ne _ _ _ hPk this
  · intro hCL
    refine reject_of_opening pp _ c acc.hash acc.bindA acc.bindB acc.params acc.enc acc.own
      acc.aliased ?_
    rcases hCL with hA | hB | hF
    · exact Or.inl (openingHolds_succ_Zinv pp _ _ _ _ _ (hneg _ hA) c acc.openA)
    · exact Or.inr (Or.inl (openingHolds_succ_Zinv pp _ _ _ _ _ (hneg _ hB) c acc.openB))
    · exact Or.inr (Or.inr (openingHolds_succ_Zinv pp _ _ _ _ _ (hneg _ hF) c acc.openFee))

set_option maxRecDepth 1000000 in
/-- Witness of `response_plus_one_rejected`: the accepted proof of `Small.traceA`. -/
theorem response_plus_one_rejected_witness :
    Small.pp.G ≠ 0 ∧ Small.traceA.proof.Verify Small.pp = (true, none) ∧
      AddLiquidityProof.Verify Small.pp
        { Small.traceA.proof with Z_sk_u := Small.traceA.proof.Z_sk_u + 1 } = (false, none) :=
  ⟨by decide, by decide,
    (response_plus_one_rejected Small.pp Small.traceA.proof (by decide) (by decide)).1⟩

set_option maxRecDepth 1000000 in
/-- C10, counterexample. The proof `ProveAddLiquidity` returns for `Small.relationZ` is
accepted, and it is still accepted after `Z_sk_uInv` is replaced by `Z_sk_uInv + 1`: the
refreshed ciphertexts of that relation have `CL = 0`, so no equation of `Verify` depends on
`Z_sk_uInv`. -/
theorem response_plus_one_accepted :
    ProveAddLiquidity Small.pp Small.relationZ Small.draws = GoResult.ok Small.traceZ.proof ∧
      Small.traceZ.proof.Verify Small.pp = (true, none) ∧
      AddLiquidityProof.Verify Small.pp
        { Small.traceZ.proof with Z_sk_uInv := Small.traceZ.proof.Z_sk_uInv + 1 } =
          (true, none) :=
  ⟨by rfl, by decide, by decide⟩

end zero

namespace ctrange

variable {Point : Type} [AddCommGroup Point] [DecidableEq Point]

/-- When the hash succeeds on every buffer, the first loop of `Verify` returns the points
`A_A_i = c_i·As[i]`. -/
theorem RangeProof.verifyBits_eq (pp : Params Point) (proof : RangeProof Point)
    (hh : ∀ buf, ∃ v, pp.HashToInt buf = Except.ok v) (n i : Nat) :
    RangeProof.verifyBits pp proof n i (-(((2 : Int) ^ i) • proof.H)) =
      Except.ok ((List.range n).map (fun k => proof.auxPoint pp (i + k))) := by
  induction n generalizing i with
  | zero => rfl
  | succ n ih =>
    unfold RangeProof.verifyBits
    simp only [curve.Add, curve.ScalarMul, curve.Neg]
    have hcom : proof.Zs i • proof.G + proof.C • -(proof.As i + -(((2 : Int) ^ i) • proof.H)) =
        proof.Zs i • proof.G - proof.C • (proof.As i - ((2 : Int) ^ i) • proof.H) := by
      module
    rw [hcom]
    obtain ⟨v, hv⟩ := hh (writeXY pp []
      (proof.Zs i • proof.G - proof.C • (proof.As i - ((2 : Int) ^ i) • proof.H)))
    have hcur : -(((2 : Int) ^ i) • proof.H) + -(((2 : Int) ^ i) • proof.H) =
        -(((2 : Int) ^ (i + 1)) • proof.H) := by
      rw [pow_succ]
      module
    rw [hv, hcur, ih (i + 1)]
    simp only
    have hv' : proof.bitChallenge pp i = v := by
      unfold RangeProof.bitChallenge hashValue
      rw [hv]
    rw [List.range_succ_eq_map, List.map_cons, List.map_map]
    have e0 : proof.auxPoint pp (i + 0) = v • proof.As i := by
      unfold RangeProof.auxPoint
      rw [Nat.add_zero, hv']
    rw [e0]
    have e1 : List.map (fun k => proof.auxPoint pp (i + 1 + k)) (List.range n) =
        List.map ((fun k => proof.auxPoint pp (i + k)) ∘ Nat.succ) (List.range n) := by
      apply List.map_congr_left
      intro k _
      simp only [Function.comp, Nat.succ_eq_add_one]
      rw [show i + 1 + k = i + (k + 1) by omega]
    rw [e1]

/-- The loop that sums `As` computes the sum of the 32 commitments. -/
theorem sumAs_eq (As : Nat → Point) :
    sumAs As = ∑ i in Finset.range RangeMaxBits, As i := by
  unfold sumAs
  have key : ∀ n, (List.range n).foldl (fun A i => curve.Add A (As i)) curve.ZeroPoint =
      ∑ i in Finset.range n, As i := by
    intro n
    induction n with
    | zero => rfl
    | succ n ih =>
      rw [List.range_succ, List.foldl_append, ih, Finset.sum_range_succ]
      rfl
  exact key _

/-- Writing a list of points one after the other gives the concatenation of their
encodings. -/
theorem foldl_writeXY (pp : Params Point) (l : List Point) (buf : Bytes) :
    l.foldl (writeXY pp) buf =
      buf ++ (l.map (fun p => pp.marshalX p ++ pp.marshalY p)).flatten := by
  induction l generalizing buf with
  | nil => simp
  | cons p l ih =>
    rw [List.foldl_cons, ih]
    simp [writeXY, List.append_assoc]

/-- C5. `RangeProof.Verify` is exactly the conjunction of its two checks: whenever hashing
succeeds, it returns `(true, nil)` if and only if (i) `Hash(A_A_0 ‖ … ‖ A_A_31) mod Q` equals
`proof.C`, where `A_A_i = c_i·As[i]` and `c_i = Hash(Zs[i]·G − C·(As[i] − 2^i·H))` with `G`,
`H` the proof's generators, and (ii) `Σ_i As[i]` equals `proof.A`; in every other case it
returns `(false, nil)`. -/
theorem verify_iff_checks (pp : Params Point) (proof : RangeProof Point)
    (hh : ∀ buf, ∃ v, pp.HashToInt buf = Except.ok v) :
    (proof.Verify pp = (true, none) ↔
        proof.recomputedChallenge pp = proof.C ∧
          ∑ i in Finset.range RangeMaxBits, proof.As i = proof.A) ∧
      (¬ (proof.recomputedChallenge pp = proof.C ∧
          ∑ i in Finset.range RangeMaxBits, proof.As i = proof.A) →
        proof.Verify pp = (false, none)) := by
  have hV : proof.Verify pp =
      if proof.recomputedChallenge pp = proof.C ∧
          ∑ i in Finset.range RangeMaxBits, proof.As i = proof.A
      then (true, none) else (false, none) := by
    unfold RangeProof.Verify
    have h0 := RangeProof.verifyBits_eq pp proof hh RangeMaxBits 0
    simp only [pow_zero, one_smul, Nat.zero_add] at h0
    simp only [curve.Neg]
    rw [h0]
    simp only
    rw [foldl_writeXY, List.nil_append, List.map_map]
    obtain ⟨v, hv⟩ := hh ((List.map ((fun p => pp.marshalX p ++ pp.marshalY p) ∘
      fun k => proof.auxPoint pp k) (List.range RangeMaxBits)).flatten)
    have hrc : proof.recomputedChallenge pp = v % pp.Q := by
      unfold RangeProof.recomputedChallenge hashValue
      have : (List.map (fun i => pp.marshalX (proof.auxPoint pp i) ++
          pp.marshalY (proof.auxPoint pp i)) (List.range RangeMaxBits)) =
          (List.map ((fun p => pp.marshalX p ++ pp.marshalY p) ∘
            fun k => proof.auxPoint pp k) (List.range RangeMaxBits)) := rfl
      rw [this, hv]
    rw [hv, hrc, sumAs_eq]
    simp only [ffmath.Mod, ffmath.Equal]
    by_cases h1 : v % (pp.Q : Int) = proof.C <;>
      by_cases h2 : ∑ i in Finset.range RangeMaxBits, proof.As i = proof.A <;>
      simp [h1, h2]
  rw [hV]
  constructor
  · constructor
    · intro h
      by_contra hn
      rw [if_neg hn] at h
      simp at h
    · intro h
      rw [if_pos h]
  · intro hn
    rw [if_neg hn]

set_option maxRecDepth 1000000 in
/-- Witness of `verify_iff_checks`: the range proof of `897` on the small instance, whose
hash never fails. -/
theorem verify_iff_checks_witness :
    (∀ buf, ∃ v, Small.pp.HashToInt buf = Except.ok v) ∧
      (Small.rangeProofOf 897 1).recomputedChallenge Small.pp = (Small.rangeProofOf 897 1).C ∧
      ∑ i in Finset.range RangeMaxBits, (Small.rangeProofOf 897 1).As i =
        (Small.rangeProofOf 897 1).A :=
  ⟨fun _ => ⟨_, rfl⟩,
    (verify_iff_checks Small.pp (Small.rangeProofOf 897 1) (fun _ => ⟨_, rfl⟩)).1.mp
      (by decide)⟩

/-- A successful `toBinary` lists the bits of a value of `[0, 2^n)`. -/
theorem toBinary_ok (b : Int) (n : Nat) (bs : List Int) (h : toBinary b n = Except.ok bs) :
    0 ≤ b ∧ b < 2 ^ n ∧ bs = (List.range' 0 n).map (bitOf b) := by
  unfold toBinary at h
  split_ifs at h with hb
  simp only [Except.ok.injEq] at h
  push_neg at hb
  refine ⟨hb.1, hb.2, ?_⟩
  rw [← h, ← List.range_eq_range']
  rfl

/-- A bit is `0` or `1`. -/
theorem bitOf_cases (b : Int) (i : Nat) : bitOf b i = 0 ∨ bitOf b i = 1 := by
  unfold bitOf
  omega

/-- The worker `phase1` leaves the other slots alone. -/
theorem phase1_frame (pp : Params Point) (i : Nat) (bi : Int) (cur : Point)
    (st : ProverSlots Point) (g h : Point) (a r : Int) (j : Nat) (hj : j ≠ i) :
    (phase1 pp i bi cur st g h a r).slots.alphas j = st.alphas j ∧
      (phase1 pp i bi cur st g h a r).slots.rs j = st.rs j ∧
      (phase1 pp i bi cur st g h a r).slots.As j = st.As j := by
  unfold phase1
  simp only []
  split_ifs
  · simp [Function.update_noteq hj]
  · cases pp.HashToInt (writeXY pp [] (curve.ScalarMul g a)) <;>
      simp [Function.update_noteq hj]
  · simp

/-- The worker `phase1` on a bit `0`. -/
theorem phase1_zero (pp : Params Point) (i : Nat) (cur : Point)
    (st : ProverSlots Point) (g h : Point) (a r : Int) :
    (phase1 pp i 0 cur st g h a r).slots.alphas i = some a ∧
      (phase1 pp i 0 cur st g h a r).slots.rs i = st.rs i ∧
      (phase1 pp i 0 cur st g h a r).slots.As i = st.As i := by
  unfold phase1
  simp

/-- The worker `phase1` on a bit `1`. -/
theorem phase1_one (pp : Params Point) (i : Nat) (cur : Point)
    (st : ProverSlots Point) (g h : Point) (a r : Int) :
    (phase1 pp i 1 cur st g h a r).slots.alphas i = some a ∧
      (phase1 pp i 1 cur st g h a r).slots.rs i = some r ∧
      (phase1 pp i 1 cur st g h a r).slots.As i = some (r • g + cur) := by
  unfold phase1
  simp only [one_ne_zero, if_false, if_true]
  cases pp.HashToInt (writeXY pp [] (curve.ScalarMul g a)) <;> simp

/-- The slots after the first loop of `Prove`: outside the range of the loop nothing has
changed; inside, `alphas[j]` holds its draw and, for a bit `1`, `rs[j]` holds its draw and
`As[j] = rs[j]·g + 2^(j - i0)·current`. -/
theorem phase1Loop_spec (pp : Params Point) (g h : Point) (draws : RangeDraws)
    (f : Nat → Int) (hf : ∀ j, f j = 0 ∨ f j = 1) (n : Nat) :
    ∀ (i0 : Nat) (cur : Point) (st : ProverSlots Point),
      (∀ j, (j < i0 ∨ i0 + n ≤ j) →
        (phase1Loop pp g h draws ((List.range' i0 n).map f) i0 cur st).slots.alphas j =
            st.alphas j ∧
          (phase1Loop pp g h draws ((List.range' i0 n).map f) i0 cur st).slots.rs j =
            st.rs j ∧
          (phase1Loop pp g h draws ((List.range' i0 n).map f) i0 cur st).slots.As j =
            st.As j) ∧
      (∀ j, i0 ≤ j → j < i0 + n →
        (phase1Loop pp g h draws ((List.range' i0 n).map f) i0 cur st).slots.alphas j =
            some (draws.alphas j) ∧
          (f j = 0 →
            (phase1Loop pp g h draws ((List.range' i0 n).map f) i0 cur st).slots.As j =
              st.As j) ∧
          (f j = 1 →
            (phase1Loop pp g h draws ((List.range' i0 n).map f) i0 cur st).slots.rs j =
                some (draws.rs j) ∧
              (phase1Loop pp g h draws ((List.range' i0 n).map f) i0 cur st).slots.As j =
                some (draws.rs j • g + ((2 : Int) ^ (j - i0)) • cur))) := by
  induction n with
  | zero =>
    intro i0 cur st
    constructor
    · intro j _
      exact ⟨rfl, rfl, rfl⟩
    · intro j h1 h2
      omega
  | succ n ih =>
    intro i0 cur st
    have hl : (List.range' i0 (n + 1)).map f = f i0 :: (List.range' (i0 + 1) n).map f := by
      rw [List.range'_succ, List.map_cons]
    rw [hl]
    unfold phase1Loop
    simp only
    obtain ⟨ihF, ihE⟩ := ih (i0 + 1) (curve.Add cur cur)
      (phase1 pp i0 (f i0) cur st g h (draws.alphas i0) (draws.rs i0)).slots
    constructor
    · intro j hj
      have hne : j ≠ i0 := by omega
      have h1 := ihF j (by omega)
      have h2 := phase1_frame pp i0 (f i0) cur st g h (draws.alphas i0) (draws.rs i0) j hne
      exact ⟨h1.1.trans h2.1, h1.2.1.trans h2.2.1, h1.2.2.trans h2.2.2⟩
    · intro j hj1 hj2
      by_cases hj : j = i0
      · subst hj
        have h1 := ihF j (Or.inl (by omega))
        rcases hf j with h0 | h1'
        · have h2 := phase1_zero pp j cur st g h (draws.alphas j) (draws.rs j)
          rw [h0] at h1 ⊢
          refine ⟨h1.1.trans h2.1, fun _ => h1.2.2.trans h2.2.2, fun hc => ?_⟩
          omega
        · have h2 := phase1_one pp j cur st g h (draws.alphas j) (draws.rs j)
          rw [h1'] at h1 ⊢
          refine ⟨h1.1.trans h2.1, fun hc => ?_, fun _ => ⟨h1.2.1.trans h2.2.1, ?_⟩⟩
          · omega
          · rw [h1.2.2, h2.2.2, Nat.sub_self, pow_zero, one_smul]
      · have hlt : i0 + 1 ≤ j := by omega
        have h1 := ihE j hlt (by omega)
        have h2 := phase1_frame pp i0 (f i0) cur st g h (draws.alphas i0) (draws.rs i0) j hj
        refine ⟨h1.1, fun hc => (h1.2.1 hc).trans h2.2.2, fun hc => ⟨(h1.2.2 hc).1, ?_⟩⟩
        rw [(h1.2.2 hc).2]
        have hp : j - i0 = (j - (i0 + 1)) + 1 := by omega
        rw [hp, pow_succ]
        simp only [curve.Add]
        congr 1
        module

/-- The worker `phase2` never writes `alphas`. -/
theorem phase2_alphas (pp : Params Point) (i : Nat) (bi : Int) (twoExp C : Int)
    (st : ProverSlots Point) (g h : Point) (r : Int) :
    (phase2 pp i bi twoExp C st g h r).slots.alphas = st.alphas := by
  unfold phase2
  simp only []
  split_ifs
  · cases pp.HashToInt (writeXY pp [] (pedersen.Commit (ffmath.Multiply C twoExp) r h g)) with
    | error e => rfl
    | ok ci =>
      simp only []
      cases st.alphas i <;> cases ffmath.ModInverse ci pp.Order <;> rfl
  · cases st.alphas i <;> cases st.rs i <;> rfl
  · rfl

/-- The worker `phase2` leaves the other slots of `As` alone. -/
theorem phase2_frame (pp : Params Point) (i : Nat) (bi : Int) (twoExp C : Int)
    (st : ProverSlots Point) (g h : Point) (r : Int) (j : Nat) (hj : j ≠ i) :
    (phase2 pp i bi twoExp C st g h r).slots.As j = st.As j := by
  unfold phase2
  simp only []
  split_ifs
  · cases pp.HashToInt (writeXY pp [] (pedersen.Commit (ffmath.Multiply C twoExp) r h g)) with
    | error e => rfl
    | ok ci =>
      simp only []
      cases st.alphas i <;> cases ffmath.ModInverse ci pp.Order <;>
        simp [Function.update_noteq hj]
  · cases st.alphas i <;> cases st.rs i <;> rfl
  · rfl

/-- The worker `phase2` on a bit `1` does not write `As`. -/
theorem phase2_one (pp : Params Point) (i : Nat) (twoExp C : Int)
    (st : ProverSlots Point) (g h : Point) (r : Int) :
    (phase2 pp i 1 twoExp C st g h r).slots.As = st.As := by
  unfold phase2
  simp only [one_ne_zero, if_false, if_true]
  cases st.alphas i <;> cases st.rs i <;> rfl

/-- The worker `phase2` on a bit `0`, when it does not fail: `alphas[i]` was set, the hash
of the commitment `(C·twoExp)·h + r·g` is some `c_i`, `c_i` has an inverse modulo `Order`,
and `As[i] = (α_i·c_i⁻¹)·g`. -/
theorem phase2_zero (pp : Params Point) (i : Nat) (twoExp C : Int)
    (st : ProverSlots Point) (g h : Point) (r : Int)
    (hc : (phase2 pp i 0 twoExp C st g h r).crashed = false) :
    ∃ alpha ci ciInv, st.alphas i = some alpha ∧
      pp.HashToInt (writeXY pp [] (pedersen.Commit (ffmath.Multiply C twoExp) r h g)) =
        Except.ok ci ∧
      ffmath.ModInverse ci pp.Order = some ciInv ∧
      (phase2 pp i 0 twoExp C st g h r).slots.As i = some ((alpha * ciInv) • g) := by
  unfold phase2 at hc ⊢
  simp only [if_true] at hc ⊢
  cases hh : pp.HashToInt (writeXY pp [] (pedersen.Commit (ffmath.Multiply C twoExp) r h g)) with
  | error e => rw [hh] at hc; simp at hc
  | ok ci =>
    rw [hh] at hc
    simp only [] at hc ⊢
    cases ha : st.alphas i with
    | none => rw [ha] at hc; simp at hc
    | some alpha =>
      cases hi : ffmath.ModInverse ci pp.Order with
      | none => rw [ha, hi] at hc; simp at hc
      | some ciInv =>
        refine ⟨alpha, ci, ciInv, rfl, rfl, hi, ?_⟩
        simp [ffmath.Multiply, hi]

/-- The slots after the second loop of `Prove`, when no worker failed: `alphas` is
unchanged; `As` is unchanged outside the range of the loop and on the bits `1`; on a bit `0`
the hash of the commitment `(C·twoExp·2^(j - i0))·h + rs[j]·g` is some `c_j` that has an
inverse modulo `Order`, and `As[j] = (α_j·c_j⁻¹)·g`. -/
theorem phase2Loop_spec (pp : Params Point) (C : Int) (g h : Point) (draws : RangeDraws)
    (f : Nat → Int) (n : Nat) :
    ∀ (i0 : Nat) (twoExp : Int) (st : ProverSlots Point),
      (phase2Loop pp C g h draws ((List.range' i0 n).map f) i0 twoExp st).crashed = false →
      (phase2Loop pp C g h draws ((List.range' i0 n).map f) i0 twoExp st).slots.alphas =
          st.alphas ∧
      (∀ j, (j < i0 ∨ i0 + n ≤ j) →
        (phase2Loop pp C g h draws ((List.range' i0 n).map f) i0 twoExp st).slots.As j =
          st.As j) ∧
      (∀ j, i0 ≤ j → j < i0 + n →
        (f j = 1 →
          (phase2Loop pp C g h draws ((List.range' i0 n).map f) i0 twoExp st).slots.As j =
            st.As j) ∧
        (f j = 0 → ∃ alpha ci ciInv, st.alphas j = some alpha ∧
          pp.HashToInt (writeXY pp [] (pedersen.Commit
            (ffmath.Multiply C (twoExp * (2 : Int) ^ (j - i0))) (draws.rs j) h g)) =
              Except.ok ci ∧
          ffmath.ModInverse ci pp.Order = some ciInv ∧
          (phase2Loop pp C g h draws ((List.range' i0 n).map f) i0 twoExp st).slots.As j =
            some ((alpha * ciInv) • g))) := by
  induction n with
  | zero =>
    intro i0 twoExp st _
    refine ⟨rfl, fun j _ => rfl, fun j h1 h2 => ?_⟩
    omega
  | succ n ih =>
    intro i0 twoExp st
    have hl : (List.range' i0 (n + 1)).map f = f i0 :: (List.range' (i0 + 1) n).map f := by
      rw [List.range'_succ, List.map_cons]
    rw [hl]
    unfold phase2Loop
    simp only [Bool.or_eq_false_iff]
    intro hcr
    obtain ⟨ihA, ihF, ihE⟩ := ih (i0 + 1) (twoExp + twoExp)
      (phase2 pp i0 (f i0) twoExp C st g h (draws.rs i0)).slots hcr.2
    have hal := phase2_alphas pp i0 (f i0) twoExp C st g h (draws.rs i0)
    refine ⟨ihA.trans hal, ?_, ?_⟩
    · intro j hj
      have hne : j ≠ i0 := by omega
      exact (ihF j (by omega)).trans
        (phase2_frame pp i0 (f i0) twoExp C st g h (draws.rs i0) j hne)
    · intro j hj1 hj2
      by_cases hj : j = i0
      · subst hj
        have h1 := ihF j (Or.inl (by omega))
        constructor
        · intro hb
          rw [hb] at h1 ⊢
          rw [h1, phase2_one]
        · intro hb
          rw [hb] at h1 hcr ⊢
          obtain ⟨alpha, ci, ciInv, ha, hh, hi, hAs⟩ :=
            phase2_zero pp j twoExp C st g h (draws.rs j) hcr.1
          refine ⟨alpha, ci, ciInv, ha, ?_, hi, h1.trans hAs⟩
          rw [Nat.sub_self, pow_zero, mul_one]
          exact hh
      · have hlt : i0 + 1 ≤ j := by omega
        obtain ⟨e1, e0⟩ := ihE j hlt (by omega)
        have hfr := phase2_frame pp i0 (f i0) twoExp C st g h (draws.rs i0) j hj
        constructor
        · intro hb
          exact (e1 hb).trans hfr
        · intro hb
          obtain ⟨alpha, ci, ciInv, ha, hh, hi, hAs⟩ := e0 hb
          refine ⟨alpha, ci, ciInv, ?_, ?_, hi, hAs⟩
          · rw [← hal]
            exact ha
          · have hp : j - i0 = (j - (i0 + 1)) + 1 := by omega
            have he : twoExp * (2 : Int) ^ (j - i0) =
                (twoExp + twoExp) * (2 : Int) ^ (j - (i0 + 1)) := by
              rw [hp, pow_succ]
              ring
            rw [he]
            exact hh

/-- The loop that adds the slots of `As`: when it succeeds, the result is the start value
plus the sum of the slots. -/
theorem sumSlots_eq (As : Nat → Option Point) (n : Nat) :
    ∀ (i : Nat) (acc A : Point), sumSlots As n i acc = some A →
      A = acc + ∑ k in Finset.range n, (As (i + k)).getD curve.ZeroPoint := by
  induction n with
  | zero =>
    intro i acc A h
    simp only [sumSlots, Option.some.injEq] at h
    simp [h]
  | succ n ih =>
    intro i acc A h
    unfold sumSlots at h
    cases hA : As i with
    | none => rw [hA] at h; simp at h
    | some p =>
      rw [hA] at h
      simp only at h
      rw [ih (i + 1) _ A h, Finset.sum_range_succ']
      have : ∀ k, i + 1 + k = i + (k + 1) := fun k => by omega
      simp only [curve.Add, Nat.add_zero, hA, Option.getD_some, this]
      abel

/-- The bits of a value of `[0, 2^n)` add up to it. -/
theorem sum_bits (b : Int) (n : Nat) (h0 : 0 ≤ b) (hn : b < 2 ^ n) :
    ∑ i in Finset.range n, bitOf b i * 2 ^ i = b := by
  obtain ⟨nb, rfl⟩ := Int.eq_ofNat_of_zero_le h0
  have key : ∀ m : Nat, ∑ i in Finset.range m, bitOf (nb : Int) i * 2 ^ i =
      (nb : Int) % 2 ^ m := by
    intro m
    induction m with
    | zero => simp [Int.emod_one]
    | succ m ih =>
      rw [Finset.sum_range_succ, ih]
      unfold bitOf
      have h2 : nb % 2 ^ m + nb / 2 ^ m % 2 * 2 ^ m = nb % 2 ^ (m + 1) := by
        rw [pow_succ, Nat.mod_mul]
        ring
      exact_mod_cast h2
  rw [key n]
  exact Int.emod_eq_of_lt h0 hn

/-- What a successful call of `Prove` went through: the parameters passed the checks, the
challenge is the reduced hash of some buffer, and the two loops and the final sum ended
without failure in slots from which the proof is read. -/
theorem Prove_ok (pp : Params Point) (b : Int) (g h : Point) (draws : RangeDraws)
    (proof : RangeProof Point) (hP : Prove pp b g h draws = GoResult.ok proof) :
    0 ≤ b ∧ b < 2 ^ RangeMaxBits ∧ (pp.Order : Int) • g = 0 ∧ (pp.Order : Int) • h = 0 ∧
      ∃ (st2 : ProverSlots Point) (buf : Bytes) (c : Int),
        pp.HashToInt buf = Except.ok c ∧ proof.C = c % pp.Q ∧ proof.G = g ∧ proof.H = h ∧
        (phase2Loop pp proof.C g h draws ((List.range' 0 RangeMaxBits).map (bitOf b)) 0 1
          (phase1Loop pp g h draws ((List.range' 0 RangeMaxBits).map (bitOf b)) 0 pp.H
            ProverSlots.empty).slots).crashed = false ∧
        st2 = (phase2Loop pp proof.C g h draws ((List.range' 0 RangeMaxBits).map (bitOf b)) 0 1
          (phase1Loop pp g h draws ((List.range' 0 RangeMaxBits).map (bitOf b)) 0 pp.H
            ProverSlots.empty).slots).slots ∧
        sumSlots st2.As RangeMaxBits 0 curve.ZeroPoint = some proof.A ∧
        proof.As = (fun i => (st2.As i).getD curve.ZeroPoint) ∧
        proof.Zs = (fun i => (st2.Zs i).getD 0) := by
  unfold Prove at hP
  split_ifs at hP with hpar
  simp only [not_or, not_lt, Bool.not_eq_false] at hpar
  obtain ⟨hb0, hg, hh⟩ := hpar
  cases hbs : toBinary b RangeMaxBits with
  | error e => rw [hbs] at hP; simp at hP
  | ok bs =>
    rw [hbs] at hP
    simp only at hP
    obtain ⟨_, hb1, hbs'⟩ := toBinary_ok b RangeMaxBits bs hbs
    subst hbs'
    split_ifs at hP with hc1
    cases hj1 : joinWorkers (phase1Loop pp g h draws
        ((List.range' 0 RangeMaxBits).map (bitOf b)) 0 pp.H ProverSlots.empty).sent
        RangeMaxBits with
    | error e => rw [hj1] at hP; simp at hP
    | crashed => rw [hj1] at hP; simp at hP
    | ok u =>
      rw [hj1] at hP
      simp only at hP
      cases hw : writeSlots pp (phase1Loop pp g h draws
          ((List.range' 0 RangeMaxBits).map (bitOf b)) 0 pp.H ProverSlots.empty).slots.A_As
          RangeMaxBits 0 [] with
      | none => rw [hw] at hP; simp at hP
      | some buf =>
        rw [hw] at hP
        simp only at hP
        cases hc : pp.HashToInt buf with
        | error e => rw [hc] at hP; simp at hP
        | ok c =>
          rw [hc] at hP
          simp only at hP
          split_ifs at hP with hc2
          cases hj2 : joinWorkers (phase2Loop pp (ffmath.Mod c pp.Q) g h draws
              ((List.range' 0 RangeMaxBits).map (bitOf b)) 0 1
              (phase1Loop pp g h draws ((List.range' 0 RangeMaxBits).map (bitOf b)) 0 pp.H
                ProverSlots.empty).slots).sent RangeMaxBits with
          | error e => rw [hj2] at hP; simp at hP
          | crashed => rw [hj2] at hP; simp at hP
          | ok u2 =>
            rw [hj2] at hP
            simp only at hP
            cases hs : sumSlots (phase2Loop pp (ffmath.Mod c pp.Q) g h draws
                ((List.range' 0 RangeMaxBits).map (bitOf b)) 0 1
                (phase1Loop pp g h draws ((List.range' 0 RangeMaxBits).map (bitOf b)) 0 pp.H
                  ProverSlots.empty).slots).slots.As RangeMaxBits 0 curve.ZeroPoint with
            | none => rw [hs] at hP; simp at hP
            | some A =>
              rw [hs] at hP
              simp only [GoResult.ok.injEq] at hP
              subst hP
              refine ⟨hb0, hb1, ?_, ?_, _, buf, c, hc, rfl, rfl, rfl, ?_, rfl, hs, rfl, rfl⟩
              · simpa [curve.IsInSubGroup] using hg
              · simpa [curve.IsInSubGroup] using hh
              · simpa using hc2

/-- The commitments of a proof returned by `Prove`, bit by bit. -/
theorem Prove_As (pp : Params Point) (b : Int) (g h : Point) (draws : RangeDraws)
    (proof : RangeProof Point) (hP : Prove pp b g h draws = GoResult.ok proof) (i : Nat)
    (hi : i < RangeMaxBits) :
    (bitOf b i = 1 → proof.As i = draws.rs i • g + ((2 : Int) ^ i) • pp.H) ∧
      (bitOf b i = 0 →
        ffmath.ModInverse (proverChallenge pp proof.C g h draws i) pp.Order =
            some (proverChallengeInv pp proof.C g h draws i) ∧
          proof.As i = (draws.alphas i * proverChallengeInv pp proof.C g h draws i) • g) := by
  obtain ⟨_, _, _, _, st2, buf, c, _, _, _, _, hcr, hst2, _, hAs, _⟩ :=
    Prove_ok pp b g h draws proof hP
  obtain ⟨_, p1E⟩ := phase1Loop_spec pp g h draws (bitOf b) (bitOf_cases b) RangeMaxBits 0
    pp.H ProverSlots.empty
  obtain ⟨_, _, p2E⟩ := phase2Loop_spec pp proof.C g h draws (bitOf b) RangeMaxBits 0 1
    (phase1Loop pp g h draws ((List.range' 0 RangeMaxBits).map (bitOf b)) 0 pp.H
      ProverSlots.empty).slots hcr
  have h1 := p1E i (Nat.zero_le i) (by omega)
  have h2 := p2E i (Nat.zero_le i) (by omega)
  rw [← hst2] at h2
  constructor
  · intro hb
    rw [hAs]
    simp only
    rw [h2.1 hb, (h1.2.2 hb).2, Nat.sub_zero]
    rfl
  · intro hb
    obtain ⟨alpha, ci, ciInv, ha, hh, hinv, hA2⟩ := h2.2 hb
    rw [h1.1] at ha
    simp only [Option.some.injEq] at ha
    subst ha
    rw [Nat.sub_zero, one_mul] at hh
    have hpc : proverChallenge pp proof.C g h draws i = ci := by
      unfold proverChallenge hashValue
      rw [hh]
    have hpi : proverChallengeInv pp proof.C g h draws i = ciInv := by
      unfold proverChallengeInv
      rw [hpc, hinv]
      rfl
    rw [hpc, hpi, hAs]
    simp only
    rw [hA2]
    exact ⟨hinv, rfl⟩

/-- C4. The aggregate published by the range prover is a Pedersen commitment to the proved
value under the fixed generator `H`: for every successful `Prove(b, g, h)`, with `b_i` the
bits of `b`, `As[i] = r_i·g + 2^i·H` when `b_i = 1` and `As[i] = (α_i·c_i⁻¹)·g` when
`b_i = 0` (`c_i` the per-bit challenge, which has an inverse modulo `Order`), hence
`proof.A = Σ As[i] = b·H + r·g` with `r = Σ_{b_i=1} r_i + Σ_{b_i=0} α_i·c_i⁻¹ (mod q)`. -/
theorem aggregate_is_commitment (pp : Params Point) (b : Int) (g h : Point)
    (draws : RangeDraws) (proof : RangeProof Point)
    (hP : Prove pp b g h draws = GoResult.ok proof) :
    (∀ i, i < RangeMaxBits → bitOf b i = 0 ∨ bitOf b i = 1) ∧
      (∀ i, i < RangeMaxBits → bitOf b i = 1 →
        proof.As i = draws.rs i • g + ((2 : Int) ^ i) • pp.H) ∧
      (∀ i, i < RangeMaxBits → bitOf b i = 0 →
        ffmath.ModInverse (proverChallenge pp proof.C g h draws i) pp.Order =
            some (proverChallengeInv pp proof.C g h draws i) ∧
          proof.As i = (draws.alphas i * proverChallengeInv pp proof.C g h draws i) • g) ∧
      proof.A = ∑ i in Finset.range RangeMaxBits, proof.As i ∧
      proof.A = b • pp.H +
        ((∑ i in Finset.range RangeMaxBits, blindingOf pp b proof.C g h draws i) %
          (pp.Order : Int)) • g := by
  obtain ⟨hb0, hb1, hg, _, st2, buf, c, _, _, _, _, _, _, hsum, hAs, _⟩ :=
    Prove_ok pp b g h draws proof hP
  have hA : proof.A = ∑ i in Finset.range RangeMaxBits, proof.As i := by
    have := sumSlots_eq st2.As RangeMaxBits 0 curve.ZeroPoint proof.A hsum
    rw [this, hAs]
    simp [curve.ZeroPoint]
  have hterm : ∀ i ∈ Finset.range RangeMaxBits,
      proof.As i = blindingOf pp b proof.C g h draws i • g +
        (bitOf b i * (2 : Int) ^ i) • pp.H := by
    intro i hi
    rw [Finset.mem_range] at hi
    have hA := Prove_As pp b g h draws proof hP i hi
    unfold blindingOf
    rcases bitOf_cases b i with h0 | h1
    · rw [(hA.2 h0).2, h0]
      simp
    · rw [hA.1 h1, h1]
      simp
  refine ⟨fun i _ => bitOf_cases b i,
    fun i hi hb => (Prove_As pp b g h draws proof hP i hi).1 hb,
    fun i hi hb => (Prove_As pp b g h draws proof hP i hi).2 hb, hA, ?_⟩
  rw [hA, Finset.sum_congr rfl hterm, Finset.sum_add_distrib, ← Finset.sum_smul,
    ← Finset.sum_smul, sum_bits b RangeMaxBits hb0 hb1, smul_emod_order pp.Order g hg]
  abel

set_option maxRecDepth 1000000 in
/-- Witness of `aggregate_is_commitment`: the range proof of `897` on the small instance. -/
theorem aggregate_is_commitment_witness :
    Prove Small.pp 897 Small.pp.G Small.pp.H (Small.rangeDraws 1) =
        GoResult.ok (Small.rangeProofOf 897 1) ∧
      (Small.rangeProofOf 897 1).A = (897 : Int) • Small.pp.H +
        ((∑ i in Finset.range RangeMaxBits,
          blindingOf Small.pp 897 (Small.rangeProofOf 897 1).C Small.pp.G Small.pp.H
            (Small.rangeDraws 1) i) % (Small.pp.Order : Int)) • Small.pp.G :=
  ⟨by rfl,
    (aggregate_is_commitment Small.pp 897 Small.pp.G Small.pp.H (Small.rangeDraws 1)
      (Small.rangeProofOf 897 1) (by rfl)).2.2.2.2⟩

set_option maxRecDepth 1000000 in
/-- C3, the code at the failing input. On the small instance, `b = 1` lies in `[0, 2^32)`,
`g = G` and `h = 2·H` pass the subgroup check and the hash never fails; `Prove(1, g, h)`
returns a proof, built with the fixed generator `H` in `phase1`, and `Verify`, which uses the
proof's generator `h`, rejects it. -/
theorem prove_other_generator_rejected :
    curve.IsInSubGroup Small.pp Small.pp.G = true ∧
      curve.IsInSubGroup Small.pp (Small.pt 32) = true ∧
      Small.pt 32 ≠ Small.pp.H ∧
      (∀ buf, ∃ v, Small.pp.HashToInt buf = Except.ok v) ∧
      Prove Small.pp 1 Small.pp.G (Small.pt 32) (Small.rangeDraws 0) =
        GoResult.ok Small.rangeProofOtherH ∧
      Small.rangeProofOtherH.Verify Small.pp = (false, none) :=
  ⟨by decide, by decide, by decide, fun _ => ⟨_, rfl⟩, by rfl, by decide⟩

end ctrange

namespace zero

variable {Point : Type} [AddCommGroup Point] [DecidableEq Point]

/-- C11. Tampering with the refreshed-balance commitment is detected: for every AddLiquidity
proof on which `Verify` returns `(true, nil)` and every point `T` different from `T_uA`, on
the proof with `T_uA` replaced by `T` (everything else unchanged) `Verify` returns
`res = false`, with the invalid-params error of the binding check `ARangeProof.A = T_uA`. -/
theorem tampered_T_uA_rejected (pp : Params Point) (proof : AddLiquidityProof Point)
    (T : Point) (h : proof.Verify pp = (true, none)) (hT : T ≠ proof.T_uA) :
    ({ proof with T_uA := T } : AddLiquidityProof Point).Verify pp =
      (false, some errVerifyInvalidParams) := by
  obtain ⟨c, hacc⟩ := (AddLiquidityProof.Verify_true_iff pp proof).mp h
  have hne : proof.ARangeProof.A ≠ T := fun e => hT (e.symm.trans hacc.bindA)
  rw [AddLiquidityProof.Verify_eq_verdict]
  unfold AddLiquidityProof.verdict
  exact if_pos (Or.inl hne)

end zero

namespace ctrange

variable {Point : Type} [AddCommGroup Point] [DecidableEq Point]

/-- `Prove` is the parameter check, `toBinary`, and then `proveBits` on the bits. -/
theorem Prove_eq_proveBits (pp : Params Point) (b : Int) (g h : Point) (draws : RangeDraws) :
    Prove pp b g h draws =
      if b < 0 ∨ curve.IsInSubGroup pp g = false ∨ curve.IsInSubGroup pp h = false then
        GoResult.error errInvalidParams
      else
        match toBinary b RangeMaxBits with
        | Except.error e => GoResult.error e
        | Except.ok bs => proveBits pp bs g h draws := rfl

/-- C16. `ctrange.Prove` rejects invalid parameters: for every `b < 0`, and for every `g` or
`h` that is not in the prime-order subgroup, `Prove(b, g, h)` returns no proof and the
invalid-params error, whatever the draws. -/
theorem prove_rejects_invalid_params (pp : Params Point) (b : Int) (g h : Point)
    (draws : RangeDraws)
    (hbad : b < 0 ∨ curve.IsInSubGroup pp g = false ∨ curve.IsInSubGroup pp h = false) :
    Prove pp b g h draws = GoResult.error errInvalidParams := by
  unfold Prove
  exact if_pos hbad

/-- The receiving loop of `Prove` returns the error as soon as one of the `n` messages it
receives is `ErrCode`. -/
theorem joinWorkers_error (msgs : List Int) :
    ∀ n, ErrCode ∈ msgs.take n → joinWorkers msgs n = GoResult.error errUnableToConstruct := by
  induction msgs with
  | nil => intro n h; simp at h
  | cons m rest ih =>
    intro n h
    cases n with
    | zero => simp at h
    | succ n =>
      unfold joinWorkers
      by_cases hm : m = ErrCode
      · rw [if_pos hm]
      · rw [if_neg hm]
        apply ih
        rw [List.take_succ_cons, List.mem_cons] at h
        rcases h with h | h
        · exact absurd h.symm hm
        · exact h

/-- The worker `phase1` on a bit outside `{0, 1}` sends `ErrCode` and writes nothing. -/
theorem phase1_invalid_bit (pp : Params Point) (i : Nat) (bi : Int) (hb0 : bi ≠ 0)
    (hb1 : bi ≠ 1) (cur : Point) (st : ProverSlots Point) (g h : Point) (a r : Int) :
    phase1 pp i bi cur st g h a r = { sent := [ErrCode], slots := st, crashed := false } := by
  unfold phase1
  rw [if_neg hb0, if_neg hb1]

/-- The worker `phase2` on a bit outside `{0, 1}` sends `ErrCode` and writes nothing. -/
theorem phase2_invalid_bit (pp : Params Point) (i : Nat) (bi : Int) (hb0 : bi ≠ 0)
    (hb1 : bi ≠ 1) (twoExp C : Int) (st : ProverSlots Point) (g h : Point) (r : Int) :
    phase2 pp i bi twoExp C st g h r = { sent := [ErrCode], slots := st, crashed := false } := by
  unfold phase2
  rw [if_neg hb0, if_neg hb1]

/-- When the hash does not fail, a worker `phase1` sends exactly one message and does not
fail. -/
theorem phase1_sent (pp : Params Point) (hH : ∀ buf, ∃ v, pp.HashToInt buf = Except.ok v)
    (i : Nat) (bi : Int) (cur : Point) (st : ProverSlots Point) (g h : Point) (a r : Int) :
    (phase1 pp i bi cur st g h a r).sent =
        [if bi = 0 ∨ bi = 1 then (i : Int) else ErrCode] ∧
      (phase1 pp i bi cur st g h a r).crashed = false := by
  unfold phase1
  simp only []
  by_cases hb0 : bi = 0
  · simp [hb0]
  by_cases hb1 : bi = 1
  · obtain ⟨v, hv⟩ := hH (writeXY pp [] (curve.ScalarMul g a))
    simp [hb1, hv]
  · simp [hb0, hb1]

/-- When the hash does not fail, the first loop of `Prove` does not fail and puts one message
per bit on the channel; a bit outside `{0, 1}` puts `ErrCode` there. -/
theorem phase1Loop_sent (pp : Params Point) (hH : ∀ buf, ∃ v, pp.HashToInt buf = Except.ok v)
    (g h : Point) (draws : RangeDraws) (bs : List Int) :
    ∀ (i0 : Nat) (cur : Point) (st : ProverSlots Point),
      (phase1Loop pp g h draws bs i0 cur st).crashed = false ∧
        (phase1Loop pp g h draws bs i0 cur st).sent.length = bs.length ∧
        ((∃ bi ∈ bs, bi ≠ 0 ∧ bi ≠ 1) →
          ErrCode ∈ (phase1Loop pp g h draws bs i0 cur st).sent) := by
  induction bs with
  | nil => intro i0 cur st; simp [phase1Loop]
  | cons bi bs ih =>
    intro i0 cur st
    obtain ⟨hs, hc⟩ := phase1_sent pp hH i0 bi cur st g h (draws.alphas i0) (draws.rs i0)
    obtain ⟨ihc, ihl, ihm⟩ := ih (i0 + 1) (curve.Add cur cur)
      (phase1 pp i0 bi cur st g h (draws.alphas i0) (draws.rs i0)).slots
    unfold phase1Loop
    simp only []
    refine ⟨by rw [hc, ihc]; rfl, by rw [List.length_append, hs, ihl]; simp [Nat.add_comm], ?_⟩
    rintro ⟨b, hb, hb0, hb1⟩
    rw [List.mem_append]
    rw [List.mem_cons] at hb
    rcases hb with rfl | hb
    · left
      rw [hs]
      simp [hb0, hb1]
    · exact Or.inr (ihm ⟨b, hb, hb0, hb1⟩)

/-- C17. A bit outside `{0,1}` makes the range prover fail: for every bit value `bi` other
than `0` and `1`, `phase1` and `phase2` send the error sentinel `ErrCode` and leave every
slot (`alphas`, `rs`, `cs`, `A_As`, `proof.As`, `proof.Zs`) as it was; the receiving loop of
`Prove` returns the error as soon as it receives the sentinel; and the body of `Prove`, run
on 32 bits one of which is `bi`, returns no proof and the unable-to-construct error (the hash
not failing in the other workers). -/
theorem invalid_bit_fails (pp : Params Point) (bi : Int) (hb0 : bi ≠ 0) (hb1 : bi ≠ 1) :
    (∀ (i : Nat) (htwoExp : Point) (st : ProverSlots Point) (g h : Point) (a r : Int),
        phase1 pp i bi htwoExp st g h a r =
          { sent := [ErrCode], slots := st, crashed := false }) ∧
      (∀ (i : Nat) (twoExp C : Int) (st : ProverSlots Point) (g h : Point) (r : Int),
        phase2 pp i bi twoExp C st g h r =
          { sent := [ErrCode], slots := st, crashed := false }) ∧
      (∀ (msgs : List Int) (n : Nat), ErrCode ∈ msgs.take n →
        joinWorkers msgs n = GoResult.error errUnableToConstruct) ∧
      (∀ (bs : List Int) (g h : Point) (draws : RangeDraws),
        (∀ buf, ∃ v, pp.HashToInt buf = Except.ok v) → bs.length = RangeMaxBits → bi ∈ bs →
        proveBits pp bs g h draws = GoResult.error errUnableToConstruct) := by
  refine ⟨fun i cur st g h a r => phase1_invalid_bit pp i bi hb0 hb1 cur st g h a r,
    fun i twoExp C st g h r => phase2_invalid_bit pp i bi hb0 hb1 twoExp C st g h r,
    fun msgs n h => joinWorkers_error msgs n h, ?_⟩
  intro bs g h draws hH hlen hmem
  obtain ⟨hc, hl, hm⟩ := phase1Loop_sent pp hH g h draws bs 0 pp.H ProverSlots.empty
  have hj := joinWorkers_error (phase1Loop pp g h draws bs 0 pp.H ProverSlots.empty).sent
    RangeMaxBits (by
      rw [List.take_of_length_le (by rw [hl, hlen])]
      exact hm ⟨bi, hmem, hb0, hb1⟩)
  unfold proveBits
  simp only []
  rw [hc, hj]
  rfl

/-- C18. An out-of-range value cannot be proved: for every `b ≥ 2^32` and generators in the
subgroup, `Prove(b, g, h)` returns no proof and the error of `toBinary`, whatever the
draws. -/
theorem prove_out_of_range_fails (pp : Params Point) (b : Int) (g h : Point)
    (draws : RangeDraws) (hb : (2 : Int) ^ 32 ≤ b)
    (hg : curve.IsInSubGroup pp g = true) (hh : curve.IsInSubGroup pp h = true) :
    Prove pp b g h draws = GoResult.error errToBinary := by
  have hb0 : ¬ b < 0 := by
    have : (0 : Int) < 2 ^ 32 := by norm_num
    omega
  rw [Prove_eq_proveBits, if_neg (by simp [hb0, hg, hh])]
  have ht : toBinary b RangeMaxBits = Except.error errToBinary := by
    unfold toBinary
    rw [if_pos (Or.inr (by simpa [RangeMaxBits] using hb))]
  rw [ht]

end ctrange

namespace bn128

/-- C20. `bn128.F` computes the curve right-hand side with constant `7`: for every integer
`x`, `F(x)` returns `((x^3 + 7) mod ORDER, nil)`, a value in `[0, ORDER)`, where `ORDER` is
`21888242871839275222246405745257275088548364400416034343698204186575808495617`. -/
theorem F_spec (x : Int) :
    F x = ((x ^ 3 + 7) % ORDER, none) ∧ 0 ≤ (F x).1 ∧ (F x).1 < ORDER ∧
      ORDER =
        21888242871839275222246405745257275088548364400416034343698204186575808495617 := by
  have hpos : (0 : Int) < ORDER := by unfold ORDER; norm_num
  have hF : F x = ((x ^ 3 + 7) % ORDER, none) := by
    unfold F ffmath.Multiply ffmath.Mod ffmath.Add
    simp only []
    have h1 : (x * x % ORDER * x) % ORDER = (x ^ 3) % ORDER := by
      rw [Int.mul_emod, Int.emod_emod_of_dvd _ (dvd_refl _), ← Int.mul_emod]
      congr 1
      ring
    rw [Int.emod_add_emod, Int.add_emod, h1, ← Int.add_emod]
  refine ⟨hF, ?_, ?_, rfl⟩
  · rw [hF]
    exact Int.emod_nonneg _ (ne_of_gt hpos)
  · rw [hF]
    exact Int.emod_lt_of_pos _ hpos

end bn128

namespace zero

variable {Point : Type} [AddCommGroup Point] [DecidableEq Point]

set_option maxRecDepth 1000000 in
/-- Witness of `tampered_T_uA_rejected`: the accepted proof of `Small.traceA` with `T_uA`
replaced by the point `0`. -/
theorem tampered_T_uA_rejected_witness :
    Small.traceA.proof.Verify Small.pp = (true, none) ∧
      Small.pt 0 ≠ Small.traceA.proof.T_uA ∧
      ({ Small.traceA.proof with T_uA := Small.pt 0 } : AddLiquidityProof Small.Pt).Verify
        Small.pp = (false, some errVerifyInvalidParams) :=
  ⟨by decide, by decide,
    tampered_T_uA_rejected Small.pp Small.traceA.proof (Small.pt 0) (by decide) (by decide)⟩

set_option maxRecDepth 1000000 in
/-- C12, the code at the failing input. On the small instance `ProveAddLiquidity` returns a
proof for the deltas `B_A_Delta = B_B_Delta = 2^32` and the LP amount `Delta_LP = 0`. The floor
square root of the product `2^64` is `2^32`, yet `verifyAddLiquidityParams` and `Verify`
accept the proof: the `uint64` product wraps to `0`. Likewise the proof returned for the
deltas `94906266` and `94906268` and the LP amount `94906267` is accepted, although the floor
square root of the product `94906267² − 1` is `94906266`: the double nearest to the square
root is `94906267.0`; with `Delta_LP = 94906266` that proof is refused. -/
theorem lp_rule_wrapped_product :
    (ProveAddLiquidity Small.pp Small.relationLPWrap Small.draws =
        GoResult.ok Small.traceLPWrap.proof ∧
      Small.traceLPWrap.proof.B_A_Delta = 2 ^ 32 ∧
      Small.traceLPWrap.proof.B_B_Delta = 2 ^ 32 ∧
      Nat.sqrt (Small.traceLPWrap.proof.B_A_Delta * Small.traceLPWrap.proof.B_B_Delta) =
        2 ^ 32 ∧
      Small.traceLPWrap.proof.Delta_LP = 0 ∧
      verifyAddLiquidityParams Small.pp Small.traceLPWrap.proof = true ∧
      Small.traceLPWrap.proof.Verify Small.pp = (true, none)) ∧
    (ProveAddLiquidity Small.pp Small.relationLP Small.draws =
        GoResult.ok Small.traceLP.proof ∧
      Small.traceLP.proof.B_A_Delta = 94906266 ∧
      Small.traceLP.proof.B_B_Delta = 94906268 ∧
      Nat.sqrt (Small.traceLP.proof.B_A_Delta * Small.traceLP.proof.B_B_Delta) = 94906266 ∧
      Small.traceLP.proof.Delta_LP = 94906267 ∧
      verifyAddLiquidityParams Small.pp Small.traceLP.proof = true ∧
      Small.traceLP.proof.Verify Small.pp = (true, none) ∧
      verifyAddLiquidityParams Small.pp
        ({ Small.traceLP.proof with Delta_LP := 94906266 } : AddLiquidityProof Small.Pt) =
          false) :=
  ⟨⟨by rfl, by rfl, by rfl, (Nat.eq_sqrt.mpr ⟨by decide, by decide⟩).symm, by rfl, by decide,
      by decide⟩,
    ⟨by rfl, by rfl, by rfl, (Nat.eq_sqrt.mpr ⟨by decide, by decide⟩).symm, by rfl, by decide,
      by decide, by decide⟩⟩

set_option maxRecDepth 1000000 in
/-- C13, the code at the failing input. On the small instance `ProveAddLiquidity` returns a
proof with both pool balances `2^53 + 1` and the deltas `2` and `1`: its four delta
ciphertexts encrypt the deltas, `Delta_LP = 1 = ⌊√2⌋`, and
`|B_poolB·B_A_Delta − B_poolA·B_B_Delta| = 2^53 + 1 = max(B_poolA, B_poolB)`; yet
`verifyAddLiquidityParams` refuses it and `Verify` returns `false` with the invalid-params
error, because `float64(2^53 + 1)` is `2^53`. In the other direction, the proof returned for
the pool balances `2^53 + 3` and `1` and the deltas `2^54 + 7` and `1` has
`|B_poolB·B_A_Delta − B_poolA·B_B_Delta| = 2^53 + 4 > max(B_poolA, B_poolB)` and is accepted,
because `float64(2^53 + 3)` is `2^53 + 4`. -/
theorem amm_rule_float_max :
    (ProveAddLiquidity Small.pp Small.relationAMM Small.draws =
        GoResult.ok Small.traceAMM.proof ∧
      Small.traceAMM.proof.B_poolA = 2 ^ 53 + 1 ∧ Small.traceAMM.proof.B_poolB = 2 ^ 53 + 1 ∧
      Small.traceAMM.proof.C_uA_Delta = Small.enc Small.traceAMM.proof.Pk_u
        (-(Small.traceAMM.proof.B_A_Delta : Int)) Small.traceAMM.proof.R_DeltaA ∧
      Small.traceAMM.proof.C_uB_Delta = Small.enc Small.traceAMM.proof.Pk_u
        (-(Small.traceAMM.proof.B_B_Delta : Int)) Small.traceAMM.proof.R_DeltaB ∧
      Small.traceAMM.proof.LC_poolA_Delta = Small.enc Small.traceAMM.proof.Pk_pool
        (Small.traceAMM.proof.B_A_Delta : Int) Small.traceAMM.proof.R_DeltaA ∧
      Small.traceAMM.proof.LC_poolB_Delta = Small.enc Small.traceAMM.proof.Pk_pool
        (Small.traceAMM.proof.B_B_Delta : Int) Small.traceAMM.proof.R_DeltaB ∧
      Small.traceAMM.proof.Delta_LP =
        Nat.sqrt (Small.traceAMM.proof.B_A_Delta * Small.traceAMM.proof.B_B_Delta) ∧
      Int.natAbs ((Small.traceAMM.proof.B_poolB : Int) * Small.traceAMM.proof.B_A_Delta -
          (Small.traceAMM.proof.B_poolA : Int) * Small.traceAMM.proof.B_B_Delta) ≤
        max Small.traceAMM.proof.B_poolA Small.traceAMM.proof.B_poolB ∧
      verifyAddLiquidityParams Small.pp Small.traceAMM.proof = false ∧
      Small.traceAMM.proof.Verify Small.pp = (false, some errVerifyInvalidParams)) ∧
    (ProveAddLiquidity Small.pp Small.relationAMMUp Small.draws =
        GoResult.ok Small.traceAMMUp.proof ∧
      Small.traceAMMUp.proof.B_poolA = 2 ^ 53 + 3 ∧ Small.traceAMMUp.proof.B_poolB = 1 ∧
      ¬ (Int.natAbs ((Small.traceAMMUp.proof.B_poolB : Int) * Small.traceAMMUp.proof.B_A_Delta -
          (Small.traceAMMUp.proof.B_poolA : Int) * Small.traceAMMUp.proof.B_B_Delta) ≤
        max Small.traceAMMUp.proof.B_poolA Small.traceAMMUp.proof.B_poolB) ∧
      verifyAddLiquidityParams Small.pp Small.traceAMMUp.proof = true ∧
      Small.traceAMMUp.proof.Verify Small.pp = (true, none)) :=
  ⟨⟨by rfl, by rfl, by rfl, by rfl, by rfl, by rfl, by rfl,
      Nat.eq_sqrt.mpr ⟨by decide, by decide⟩, by decide, by decide, by decide⟩,
    ⟨by rfl, by rfl, by rfl, by decide, by decide, by decide⟩⟩

set_option maxRecDepth 1000000 in
/-- C14, the code at the failing input. On the small instance (subgroup of order `7` in a
group of order `56`) `RangeProof.Verify` returns `(true, nil)` on a range proof whose
generator `H = 1` is not in the subgroup, although `Prove` refuses that generator; and
`AddLiquidityProof.Verify` returns `(true, nil)` on the proof `ProveAddLiquidity` returns for
a relation whose `Pk_pool = 1` and `LC_poolA_Delta.CL = 4` are not in the subgroup. -/
theorem verifiers_accept_outside_subgroup :
    curve.IsInSubGroup Small.pp Small.rangeProofBadH.H = false ∧
      ctrange.RangeProof.Verify Small.pp Small.rangeProofBadH = (true, none) ∧
      ctrange.Prove Small.pp 0 Small.pp.G Small.rangeProofBadH.H (Small.rangeDraws 0) =
        GoResult.error ctrange.errInvalidParams ∧
      curve.IsInSubGroup Small.pp Small.traceP.proof.Pk_pool = false ∧
      curve.IsInSubGroup Small.pp Small.traceP.proof.LC_poolA_Delta.CL = false ∧
      ProveAddLiquidity Small.pp Small.relationP Small.draws =
        GoResult.ok Small.traceP.proof ∧
      Small.traceP.proof.Verify Small.pp = (true, none) :=
  ⟨by decide, by decide, by rfl, by decide, by decide, by rfl, by decide⟩

/-- A response `α + c·w mod q` depends on `c` only through `c mod q`. -/
theorem response_mod (a c w q : Int) : (a + c % q * w) % q = (a + c * w) % q :=
  Int.ModEq.add_left a ((Int.mod_modEq c q).mul_right w)

/-- C15 (as amended). The AddLiquidity challenge is the transcript hash itself, not reduced:
for every successful run of `ProveAddLiquidity`, the value `c` used in the responses is the
value `util.HashToInt` returns on the prover's buffer, `Verify` obtains the same value from
the buffer it builds from the proof, and the responses `α_w + c·w mod q` — the only uses of
`c` in the proof — are those that `c mod q` would give. -/
theorem challenge_is_transcript_hash (pp : Params Point)
    (relation : AddLiquidityRelation Point) (draws : AddLiquidityDraws)
    (t : AddLiquidityTrace Point)
    (h : ProveAddLiquidity.trace pp relation draws = GoResult.ok t) :
    pp.HashToInt t.buf = Except.ok t.c ∧
      pp.HashToInt (t.proof.challengeBuf pp) = Except.ok t.c ∧
      ∃ alpha_sk_uInv Sk_uInv : Int,
        t.proof = honestProof pp relation draws alpha_sk_uInv Sk_uInv t.c ∧
        t.proof = honestProof pp relation draws alpha_sk_uInv Sk_uInv (t.c % pp.Order) := by
  obtain ⟨a, s, _, _, hbuf, hc, hproof⟩ := ProveAddLiquidity.trace_ok pp relation draws t h
  refine ⟨hc, ?_, a, s, hproof, ?_⟩
  · rw [hproof, ← hbuf]
    exact hc
  · rw [hproof]
    simp only [honestProof, response_mod]

set_option maxRecDepth 1000000 in
/-- Witness of `challenge_is_transcript_hash`: the run of `ProveAddLiquidity` on
`Small.relationZ`, whose transcript hashes to `5`. -/
theorem challenge_is_transcript_hash_witness :
    ProveAddLiquidity.trace Small.pp Small.relationZ Small.draws = GoResult.ok Small.traceZ ∧
      Small.pp.HashToInt Small.traceZ.buf = Except.ok 5 ∧
      Small.pp.HashToInt (Small.traceZ.proof.challengeBuf Small.pp) = Except.ok 5 := by
  obtain ⟨h1, h2, -⟩ :=
    challenge_is_transcript_hash Small.pp Small.relationZ Small.draws Small.traceZ (by rfl)
  exact ⟨by rfl, h1, h2⟩

set_option maxRecDepth 1000000 in
/-- C15, counterexample. With a hash whose values exceed the subgroup order (`q = 7`, hash
values in `[8, 12]`), the run of `ProveAddLiquidity` on `Small.relationA` uses the challenge
`c = 11`, which is not below `q`; `Verify` computes the same `c = 11` and accepts the
proof. -/
theorem challenge_not_below_order :
    ProveAddLiquidity.trace Small.ppWide Small.relationA Small.draws =
        GoResult.ok Small.traceWide ∧
      Small.ppWide.Order = 7 ∧
      Small.traceWide.c = 11 ∧
      ¬ (Small.traceWide.c < Small.ppWide.Order) ∧
      Small.ppWide.HashToInt (Small.traceWide.proof.challengeBuf Small.ppWide) =
        Except.ok 11 ∧
      Small.traceWide.proof.Verify Small.ppWide = (true, none) :=
  ⟨by rfl, by rfl, by rfl, by decide, by rfl, by decide⟩

/-- C19 (as amended). The fee range proof is checked in every fee case: for every proof on
which `Verify` returns `(true, nil)` — whether `GasFeeAssetId` equals `AssetAId`, `AssetBId`
or neither — `GasFeePrimeRangeProof` verifies, and the proof with `GasFeePrimeRangeProof`
replaced by any range proof `rp` (everything else unchanged) gets `(true, nil)` when `rp`
verifies and `(false, nil)` when it does not. -/
theorem fee_range_proof_always_checked (pp : Params Point) (proof : AddLiquidityProof Point)
    (rp : RangeProof Point) (h : proof.Verify pp = (true, none)) :
    ctrange.RangeProof.Verify pp proof.GasFeePrimeRangeProof = (true, none) ∧
      ({ proof with GasFeePrimeRangeProof := rp } : AddLiquidityProof Point).Verify pp =
        if ctrange.RangeProof.Verify pp rp = (true, none) then (true, none)
        else (false, none) := by
  obtain ⟨c, hacc⟩ := (AddLiquidityProof.Verify_true_iff pp proof).mp h
  refine ⟨hacc.rangeFee, ?_⟩
  have e1 : verifyAddLiquidityParams pp
      ({ proof with GasFeePrimeRangeProof := rp } : AddLiquidityProof Point) = true :=
    hacc.params
  have e2 : ({ proof with GasFeePrimeRangeProof := rp } : AddLiquidityProof Point).encHolds c
      = true := hacc.enc
  have e3 : ({ proof with GasFeePrimeRangeProof := rp } :
      AddLiquidityProof Point).ownershipHolds pp c = true := hacc.own
  have e4 : ({ proof with GasFeePrimeRangeProof := rp } : AddLiquidityProof Point).feeAliased
      = true := hacc.aliased
  have e5 : ({ proof with GasFeePrimeRangeProof := rp } :
      AddLiquidityProof Point).openingA pp c = true := hacc.openA
  have e6 : ({ proof with GasFeePrimeRangeProof := rp } :
      AddLiquidityProof Point).openingB pp c = true := hacc.openB
  have e7 : ({ proof with GasFeePrimeRangeProof := rp } :
      AddLiquidityProof Point).openingFee pp c = true := hacc.openFee
  have hv := AddLiquidityProof.Verify_cases pp
    ({ proof with GasFeePrimeRangeProof := rp } : AddLiquidityProof Point) c hacc.hash
  rw [e1, e2, e3, e4, e5, e6, e7] at hv
  rw [hv]
  simp only [hacc.bindA, hacc.bindB, hacc.rangeA, hacc.rangeB]
  by_cases hr : ctrange.RangeProof.Verify pp rp = (true, none) <;> simp [hr]

set_option maxRecDepth 1000000 in
/-- Witness of `fee_range_proof_always_checked`: in the accepted proof of `Small.traceA` (fee
paid in asset A) the fee range proof is replaced by the valid range proof of `47`. -/
theorem fee_range_proof_always_checked_witness :
    Small.traceA.proof.Verify Small.pp = (true, none) ∧
      ({ Small.traceA.proof with GasFeePrimeRangeProof := Small.rangeProofOf 47 3 } :
        AddLiquidityProof Small.Pt).Verify Small.pp = (true, none) :=
  ⟨by decide,
    (fee_range_proof_always_checked Small.pp Small.traceA.proof (Small.rangeProofOf 47 3)
      (by decide)).2.trans (if_pos (by decide))⟩

set_option maxRecDepth 1000000 in
/-- C19, counterexample. The proof of `Small.traceA` pays the fee in asset A
(`GasFeeAssetId = AssetAId`) and `Verify` returns `(true, nil)` on it; the proof that differs
from it only in `GasFeePrimeRangeProof`, replaced by a range proof that does not verify, gets
`(false, nil)`. -/
theorem fee_range_proof_matters_same_asset :
    Small.traceA.proof.GasFeeAssetId = Small.traceA.proof.AssetAId ∧
      Small.proofNoFeeRange.GasFeeAssetId = Small.proofNoFeeRange.AssetAId ∧
      Small.traceA.proof.Verify Small.pp = (true, none) ∧
      ctrange.RangeProof.Verify Small.pp Small.proofNoFeeRange.GasFeePrimeRangeProof =
        (false, none) ∧
      Small.proofNoFeeRange.Verify Small.pp = (false, none) :=
  ⟨by decide, by decide, by decide, by decide, by decide⟩

end zero

namespace ctrange

variable {Point : Type} [AddCommGroup Point] [DecidableEq Point]

set_option maxRecDepth 1000000 in
/-- Witness of `prove_rejects_invalid_params`: on the small instance, `b = -1` with the
generators `G`, `H`, and `b = 5` with `g = 1`, which is not in the subgroup of order `7`. -/
theorem prove_rejects_invalid_params_witness :
    (Prove Small.pp (-1) Small.pp.G Small.pp.H (Small.rangeDraws 0) =
        GoResult.error errInvalidParams) ∧
      curve.IsInSubGroup Small.pp (Small.pt 1) = false ∧
      Prove Small.pp 5 (Small.pt 1) Small.pp.H (Small.rangeDraws 0) =
        GoResult.error errInvalidParams :=
  ⟨prove_rejects_invalid_params Small.pp (-1) Small.pp.G Small.pp.H (Small.rangeDraws 0)
      (Or.inl (by decide)),
    by decide,
    prove_rejects_invalid_params Small.pp 5 (Small.pt 1) Small.pp.H (Small.rangeDraws 0)
      (Or.inr (Or.inl (by decide)))⟩

set_option maxRecDepth 1000000 in
/-- Witness of `invalid_bit_fails`: the bit value `2` on the small instance, in slot `3` and
as the first of 32 bits. -/
theorem invalid_bit_fails_witness :
    (2 : Int) ≠ 0 ∧ (2 : Int) ≠ 1 ∧
      phase1 Small.pp 3 2 Small.pp.H ProverSlots.empty Small.pp.G Small.pp.H 1 2 =
        { sent := [ErrCode], slots := ProverSlots.empty, crashed := false } ∧
      phase2 Small.pp 3 2 8 5 ProverSlots.empty Small.pp.G Small.pp.H 2 =
        { sent := [ErrCode], slots := ProverSlots.empty, crashed := false } ∧
      joinWorkers [0, 1, ErrCode, 3] 4 = GoResult.error errUnableToConstruct ∧
      proveBits Small.pp (2 :: List.replicate 31 0) Small.pp.G Small.pp.H
        (Small.rangeDraws 0) = GoResult.error errUnableToConstruct :=
  ⟨by decide, by decide,
    (invalid_bit_fails Small.pp 2 (by decide) (by decide)).1 3 Small.pp.H ProverSlots.empty
      Small.pp.G Small.pp.H 1 2,
    (invalid_bit_fails Small.pp 2 (by decide) (by decide)).2.1 3 8 5 ProverSlots.empty
      Small.pp.G Small.pp.H 2,
    (invalid_bit_fails Small.pp 2 (by decide) (by decide)).2.2.1 [0, 1, ErrCode, 3] 4
      (by decide),
    (invalid_bit_fails Small.pp 2 (by decide) (by decide)).2.2.2 (2 :: List.replicate 31 0)
      Small.pp.G Small.pp.H (Small.rangeDraws 0) (fun _ => ⟨_, rfl⟩) (by rfl)
      (List.mem_cons_self _ _)⟩

set_option maxRecDepth 1000000 in
/-- Witness of `prove_out_of_range_fails`: `b = 2^32` with the generators `G`, `H` of the
small instance. -/
theorem prove_out_of_range_fails_witness :
    (2 : Int) ^ 32 ≤ 4294967296 ∧
      curve.IsInSubGroup Small.pp Small.pp.G = true ∧
      curve.IsInSubGroup Small.pp Small.pp.H = true ∧
      Prove Small.pp 4294967296 Small.pp.G Small.pp.H (Small.rangeDraws 0) =
        GoResult.error errToBinary :=
  ⟨by decide, by decide, by decide,
    prove_out_of_range_fails Small.pp 4294967296 Small.pp.G Small.pp.H (Small.rangeDraws 0)
      (by decide) (by decide) (by decide)⟩

end ctrange

namespace zero

variable {Point : Type} [AddCommGroup Point] [DecidableEq Point]

/-- C21. `AddPoolInfo` is atomic and touches only the pool balances: if both arguments pass
`validUint64` it returns nil and the proof afterwards has `B_poolA = b_pool_A`,
`B_poolB = b_pool_B` and every other field unchanged; if either argument fails `validUint64`
it returns an error and leaves the proof unchanged. -/
theorem addPoolInfo_frame (validUint64 : Nat → Bool) (proof : AddLiquidityProof Point)
    (b_pool_A b_pool_B : Nat) :
    (validUint64 b_pool_A = true ∧ validUint64 b_pool_B = true →
        proof.AddPoolInfo validUint64 b_pool_A b_pool_B =
          ({ proof with B_poolA := b_pool_A, B_poolB := b_pool_B }, none)) ∧
      (validUint64 b_pool_A = false ∨ validUint64 b_pool_B = false →
        proof.AddPoolInfo validUint64 b_pool_A b_pool_B = (proof, some errAddPoolInfo)) := by
  unfold AddLiquidityProof.AddPoolInfo
  constructor
  · rintro ⟨ha, hb⟩
    simp [ha, hb]
  · rintro (ha | hb)
    · simp [ha]
    · simp [hb]

end zero

namespace txtypes

/-- A chain of checks returns nil when the first check passes and the rest returns nil. -/
theorem ite_some_eq_none {α : Type} (c : Prop) [Decidable c] (x : α) (y : Option α) :
    (if c then some x else y) = none ↔ ¬ c ∧ y = none := by
  split_ifs with h <;> simp [h]

/-- C28. `MintNftTxInfo.Validate` accepts exactly the in-range transactions: it returns nil
if and only if `CreatorAccountIndex`, `ToAccountIndex` and `GasAccountIndex` each lie in
`[minAccountIndex, maxAccountIndex]`, `ToAccountNameHash` and `NftContentHash` both satisfy
`IsValidHash`, `NftCollectionId` lies in `[minCollectionId, maxCollectionId]`,
`CreatorTreasuryRate` in `[minTreasuryRate, maxTreasuryRate]`, `GasFeeAssetId` in
`[minAssetId, maxAssetId]`, `GasFeeAssetAmount` is non-nil and lies in
`[minPackedFeeAmount, maxPackedFeeAmount]`, and `Nonce ≥ minNonce`; and `NftIndex`,
`ExpiredAt` and `Sig` never influence the result. -/
theorem validate_iff_in_range (pkg : Package) (txInfo : MintNftTxInfo) :
    (txInfo.Validate pkg = none ↔
        (pkg.minAccountIndex ≤ txInfo.CreatorAccountIndex ∧
          txInfo.CreatorAccountIndex ≤ pkg.maxAccountIndex) ∧
        (pkg.minAccountIndex ≤ txInfo.ToAccountIndex ∧
          txInfo.ToAccountIndex ≤ pkg.maxAccountIndex) ∧
        (pkg.minAccountIndex ≤ txInfo.GasAccountIndex ∧
          txInfo.GasAccountIndex ≤ pkg.maxAccountIndex) ∧
        pkg.IsValidHash txInfo.ToAccountNameHash = true ∧
        pkg.IsValidHash txInfo.NftContentHash = true ∧
        (pkg.minCollectionId ≤ txInfo.NftCollectionId ∧
          txInfo.NftCollectionId ≤ pkg.maxCollectionId) ∧
        (pkg.minTreasuryRate ≤ txInfo.CreatorTreasuryRate ∧
          txInfo.CreatorTreasuryRate ≤ pkg.maxTreasuryRate) ∧
        (pkg.minAssetId ≤ txInfo.GasFeeAssetId ∧ txInfo.GasFeeAssetId ≤ pkg.maxAssetId) ∧
        (∃ amount, txInfo.GasFeeAssetAmount = some amount ∧
          pkg.minPackedFeeAmount ≤ amount ∧ amount ≤ pkg.maxPackedFeeAmount) ∧
        pkg.minNonce ≤ txInfo.Nonce) ∧
      (∀ (nftIndex expiredAt : Int) (sig : Bytes),
        ({ txInfo with NftIndex := nftIndex, ExpiredAt := expiredAt, Sig := sig } :
          MintNftTxInfo).Validate pkg = txInfo.Validate pkg) := by
  constructor
  · unfold MintNftTxInfo.Validate
    simp only [errorfInt, ite_some_eq_none, not_lt, gt_iff_lt, Bool.not_eq_true',
      Bool.not_eq_false]
    cases txInfo.GasFeeAssetAmount with
    | none =>
      constructor
      · rintro ⟨-, -, -, -, -, -, -, -, -, -, -, -, -, -, h⟩
        simp at h
      · rintro ⟨-, -, -, -, -, -, -, -, ⟨a, ha, -⟩, -⟩
        simp at ha
    | some amount =>
      simp only [ite_some_eq_none, not_lt, and_true]
      constructor
      · rintro ⟨h1, h2, h3, h4, h7, h8, h9, h10, h11, h12, h5, h6, h13, h14, h15, h16, h17⟩
        exact ⟨⟨h1, h2⟩, ⟨h3, h4⟩, ⟨h5, h6⟩, h7, h8, ⟨h9, h10⟩, ⟨h11, h12⟩, ⟨h13, h14⟩,
          ⟨amount, rfl, h15, h16⟩, h17⟩
      · rintro ⟨⟨h1, h2⟩, ⟨h3, h4⟩, ⟨h5, h6⟩, h7, h8, ⟨h9, h10⟩, ⟨h11, h12⟩, ⟨h13, h14⟩,
          ⟨a, ha, h15, h16⟩, h17⟩
        simp only [Option.some.injEq] at ha
        subst ha
        exact ⟨h1, h2, h3, h4, h7, h8, h9, h10, h11, h12, h5, h6, h13, h14, h15, h16, h17⟩
  · intro nftIndex expiredAt sig
    rfl

/-- C29. The signed message of a mint-NFT transaction does not depend on the signature or
the NFT index: for any two `MintNftTxInfo` values that agree on every field except `Sig` and
`NftIndex`, `Hash` returns the same result (the same digest or the same error, and leaves
`hFunc` in the same state) under the same hash function. -/
theorem hash_ignores_sig_and_nftIndex {σ : Type} (pkg : Package) (hFunc : HashFunc σ)
    (st : σ) (tx1 tx2 : MintNftTxInfo)
    (h1 : tx1.CreatorAccountIndex = tx2.CreatorAccountIndex)
    (h2 : tx1.ToAccountIndex = tx2.ToAccountIndex)
    (h3 : tx1.ToAccountNameHash = tx2.ToAccountNameHash)
    (h4 : tx1.NftContentHash = tx2.NftContentHash)
    (h5 : tx1.NftCollectionId = tx2.NftCollectionId)
    (h6 : tx1.CreatorTreasuryRate = tx2.CreatorTreasuryRate)
    (h7 : tx1.GasAccountIndex = tx2.GasAccountIndex)
    (h8 : tx1.GasFeeAssetId = tx2.GasFeeAssetId)
    (h9 : tx1.GasFeeAssetAmount = tx2.GasFeeAssetAmount)
    (h10 : tx1.ExpiredAt = tx2.ExpiredAt)
    (h11 : tx1.Nonce = tx2.Nonce) :
    tx1.Hash pkg hFunc st = tx2.Hash pkg hFunc st := by
  unfold MintNftTxInfo.Hash
  rw [h1, h2, h3, h4, h5, h6, h7, h8, h9, h10, h11]

end txtypes

namespace transactions

/-- The copying loop of `SetBlockWitness` fails on a slice that reaches past slot `34`. -/
theorem SetBlockWitness.loop_crashed {Tx : Type} (txs : List Tx) :
    ∀ (i : Nat) (witness : BlockConstraints Tx), i ≤ 35 → 35 < i + txs.length →
      SetBlockWitness.loop txs i witness = GoResult.crashed := by
  induction txs with
  | nil =>
    intro i witness h1 h2
    simp only [List.length_nil, Nat.add_zero] at h2
    omega
  | cons tx rest ih =>
    intro i witness h1 h2
    unfold SetBlockWitness.loop
    by_cases hi : i < 35
    · rw [if_pos hi]
      apply ih
      · omega
      · simp only [List.length_cons] at h2
        omega
    · rw [if_neg hi]

/-- The copying loop of `SetBlockWitness` on a slice that fits: slot `k` of the range receives
`txs[k - i]`, the other slots are unchanged. -/
theorem SetBlockWitness.loop_ok {Tx : Type} (txs : List Tx) :
    ∀ (i : Nat) (witness : BlockConstraints Tx), i + txs.length ≤ 35 →
      ∃ w, SetBlockWitness.loop txs i witness = GoResult.ok w ∧
        ∀ k, w.Txs k =
          if i ≤ k ∧ k < i + txs.length then txs.getD (k - i) (witness.Txs k)
          else witness.Txs k := by
  induction txs with
  | nil =>
    intro i witness _
    refine ⟨witness, rfl, fun k => ?_⟩
    simp
  | cons tx rest ih =>
    intro i witness h
    simp only [List.length_cons] at h
    unfold SetBlockWitness.loop
    rw [if_pos (by omega)]
    obtain ⟨w, hw, hk⟩ := ih (i + 1)
      { witness with Txs := Function.update witness.Txs i tx } (by omega)
    refine ⟨w, hw, fun k => ?_⟩
    rw [hk k]
    simp only [List.length_cons]
    by_cases h1 : k = i
    · subst h1
      simp
    · by_cases h2 : i + 1 ≤ k ∧ k < i + 1 + rest.length
      · have h3 : i ≤ k ∧ k < i + (rest.length + 1) := by omega
        rw [if_pos h2, if_pos h3, Function.update_noteq h1]
        have h4 : k - i = (k - (i + 1)) + 1 := by omega
        rw [h4, List.getD_cons_succ]
      · have h3 : ¬ (i ≤ k ∧ k < i + (rest.length + 1)) := by omega
        rw [if_neg h2, if_neg h3, Function.update_noteq h1]

/-- On a slice of at most 35 transactions `SetBlockWitness` returns the witness whose slot
`i` is `txs[i]` for `i < len(txs)` and the zero value otherwise, with a nil error. -/
theorem SetBlockWitness_ok {Tx : Type} [Inhabited Tx] (txs : List Tx) (isEnabled : Bool)
    (h : txs.length ≤ 35) :
    ∃ w, SetBlockWitness txs isEnabled = GoResult.ok w ∧ ∀ k, w.Txs k = txs.getD k default := by
  obtain ⟨w, hw, hk⟩ := SetBlockWitness.loop_ok txs 0 { Txs := fun _ => default } (by omega)
  refine ⟨w, hw, fun k => ?_⟩
  rw [hk k]
  by_cases h1 : k < txs.length
  · simp [h1]
  · simp only [Nat.zero_le, Nat.zero_add, true_and, h1, if_false]
    rw [List.getD_eq_default _ _ (by omega)]

/-- C30, the code on the failing inputs. On every slice `txs` longer than the 35 slots of
`BlockConstraints`, `SetBlockWitness` does not return: the assignment `witness.Txs[35]` is
out of range. -/
theorem setBlockWitness_out_of_range {Tx : Type} [Inhabited Tx] (txs : List Tx)
    (isEnabled : Bool) (h : 35 < txs.length) :
    SetBlockWitness txs isEnabled = GoResult.crashed := by
  unfold SetBlockWitness
  exact SetBlockWitness.loop_crashed txs 0 _ (by omega) (by omega)

/-- Witness of `setBlockWitness_out_of_range`: a slice of 36 transactions (here the numbers
`0, …, 35`). -/
theorem setBlockWitness_out_of_range_witness :
    35 < (List.range 36).length ∧
      SetBlockWitness (List.range 36) true = GoResult.crashed :=
  ⟨by decide, setBlockWitness_out_of_range (List.range 36) true (by decide)⟩

end transactions

namespace ctrange

variable {Point : Type} [AddCommGroup Point] [DecidableEq Point]

/-- The result of the receiving loop does not depend on what it leaves in the channel. -/
theorem receiveWorkers_fst (chan : List Int) :
    ∀ n, (receiveWorkers chan n).1 = joinWorkers chan n := by
  induction chan with
  | nil => intro n; cases n <;> rfl
  | cons m rest ih =>
    intro n
    cases n with
    | zero => rfl
    | succ n =>
      unfold receiveWorkers joinWorkers
      by_cases hm : m = ErrCode
      · rw [if_pos hm, if_pos hm]
      · rw [if_neg hm, if_neg hm]
        exact ih n

/-- When the receiving loop succeeds it has taken exactly `n` messages from the channel. -/
theorem receiveWorkers_ok (chan : List Int) :
    ∀ (n : Nat) (u : Unit) (rest : List Int),
      receiveWorkers chan n = (GoResult.ok u, rest) → n ≤ chan.length ∧ rest = chan.drop n := by
  induction chan with
  | nil =>
    intro n u rest h
    cases n with
    | zero =>
      simp only [receiveWorkers, Prod.mk.injEq] at h
      exact ⟨Nat.le_refl _, h.2.symm⟩
    | succ n => simp [receiveWorkers] at h
  | cons m chan ih =>
    intro n u rest h
    cases n with
    | zero =>
      simp only [receiveWorkers, Prod.mk.injEq] at h
      exact ⟨Nat.zero_le _, h.2.symm⟩
    | succ n =>
      unfold receiveWorkers at h
      by_cases hm : m = ErrCode
      · rw [if_pos hm] at h
        simp at h
      · rw [if_neg hm] at h
        obtain ⟨h1, h2⟩ := ih n u rest h
        exact ⟨by simp only [List.length_cons]; omega, by simpa using h2⟩

/-- A worker `phase1` sends exactly one message, whatever happens. -/
theorem phase1_sent_length (pp : Params Point) (i : Nat) (bi : Int) (cur : Point)
    (st : ProverSlots Point) (g h : Point) (a r : Int) :
    (phase1 pp i bi cur st g h a r).sent.length = 1 := by
  unfold phase1
  simp only []
  split_ifs
  · rfl
  · cases pp.HashToInt (writeXY pp [] (curve.ScalarMul g a)) <;> rfl
  · rfl

/-- The first loop of `Prove` puts one message per bit on the channel. -/
theorem phase1Loop_sent_length (pp : Params Point) (g h : Point) (draws : RangeDraws)
    (bs : List Int) :
    ∀ (i0 : Nat) (cur : Point) (st : ProverSlots Point),
      (phase1Loop pp g h draws bs i0 cur st).sent.length = bs.length := by
  induction bs with
  | nil => intro i0 cur st; rfl
  | cons bi bs ih =>
    intro i0 cur st
    unfold phase1Loop
    simp only [List.length_append, List.length_cons, phase1_sent_length, ih]
    omega

/-- With an empty channel at the call and 32 bits, `proveBitsOn` returns what `proveBits`
returns. -/
theorem proveBitsOn_nil_fst (pp : Params Point) (bs : List Int) (g h : Point)
    (draws : RangeDraws) (hlen : bs.length = RangeMaxBits) :
    (proveBitsOn pp [] bs g h draws).1 = proveBits pp bs g h draws := by
  unfold proveBitsOn proveBits
  simp only [List.nil_append]
  split_ifs with hc1
  · rfl
  · have h1 := receiveWorkers_fst (phase1Loop pp g h draws bs 0 pp.H ProverSlots.empty).sent
      RangeMaxBits
    rcases hr : receiveWorkers (phase1Loop pp g h draws bs 0 pp.H ProverSlots.empty).sent
      RangeMaxBits with ⟨r1, chan1⟩
    rw [hr] at h1
    simp only at h1
    rw [← h1]
    cases r1 with
    | error e => rfl
    | crashed => rfl
    | ok u =>
      have hch : chan1 = [] := by
        rw [(receiveWorkers_ok _ _ u chan1 hr).2]
        apply List.drop_of_length_le
        rw [phase1Loop_sent_length, hlen]
      subst hch
      simp only
      cases writeSlots pp (phase1Loop pp g h draws bs 0 pp.H ProverSlots.empty).slots.A_As
        RangeMaxBits 0 [] with
      | none => rfl
      | some buf =>
        simp only
        cases pp.HashToInt buf with
        | error e => rfl
        | ok c =>
          simp only [List.nil_append]
          split_ifs with hc2
          · rfl
          · have h2 := receiveWorkers_fst (phase2Loop pp (ffmath.Mod c pp.Q) g h draws bs 0 1
              (phase1Loop pp g h draws bs 0 pp.H ProverSlots.empty).slots).sent RangeMaxBits
            rcases hr2 : receiveWorkers (phase2Loop pp (ffmath.Mod c pp.Q) g h draws bs 0 1
              (phase1Loop pp g h draws bs 0 pp.H ProverSlots.empty).slots).sent RangeMaxBits
              with ⟨r2, chan2⟩
            rw [hr2] at h2
            simp only at h2
            rw [← h2]
            cases r2 with
            | error e => rfl
            | crashed => rfl
            | ok u2 =>
              simp only
              cases sumSlots (phase2Loop pp (ffmath.Mod c pp.Q) g h draws bs 0 1
                (phase1Loop pp g h draws bs 0 pp.H ProverSlots.empty).slots).slots.As
                RangeMaxBits 0 curve.ZeroPoint <;> rfl

/-- With an empty channel at the call, `ProveOn` returns what `Prove` returns. -/
theorem ProveOn_nil_fst (pp : Params Point) (b : Int) (g h : Point) (draws : RangeDraws) :
    (ProveOn pp [] b g h draws).1 = Prove pp b g h draws := by
  rw [Prove_eq_proveBits]
  unfold ProveOn
  split_ifs
  · rfl
  · cases hb : toBinary b RangeMaxBits with
    | error e => rfl
    | ok bs =>
      simp only
      apply proveBitsOn_nil_fst
      rw [(toBinary_ok b RangeMaxBits bs hb).2.2]
      simp

end ctrange

namespace ctrange

variable {Point : Type} [AddCommGroup Point] [DecidableEq Point]

/-- The slot `A_As[i]` after the worker `phase1`, and the other slots of `A_As`. -/
theorem phase1_A_As (pp : Params Point) (i : Nat) (bi : Int) (cur : Point)
    (st : ProverSlots Point) (g h : Point) (a r : Int) :
    (∀ j, j ≠ i → (phase1 pp i bi cur st g h a r).slots.A_As j = st.A_As j) ∧
      (bi = 0 → (phase1 pp i bi cur st g h a r).slots.A_As i = some (a • g)) ∧
      (bi = 1 → (phase1 pp i bi cur st g h a r).crashed = false →
        (phase1 pp i bi cur st g h a r).slots.A_As i =
          some (hashValue pp (writeXY pp [] (a • g)) • (r • g + cur))) := by
  unfold phase1 hashValue
  simp only [curve.ScalarMul, curve.Add]
  refine ⟨fun j hj => ?_, fun h0 => ?_, fun h1 hc => ?_⟩
  · split_ifs
    · simp [Function.update_noteq hj]
    · cases pp.HashToInt (writeXY pp [] (a • g)) <;> simp [Function.update_noteq hj]
    · rfl
  · simp [h0]
  · subst h1
    simp only [one_ne_zero, if_false, if_true] at hc ⊢
    cases hh : pp.HashToInt (writeXY pp [] (a • g)) with
    | error e => rw [hh] at hc; simp at hc
    | ok c => simp

/-- The slots `A_As` after the first loop of `Prove`, when no worker failed: outside the
range of the loop nothing has changed; inside, `A_As[j]` is `α_j·g` for a bit `0` and
`c_j·(r_j·g + 2^(j - i0)·current)` for a bit `1`. -/
theorem phase1Loop_A_As (pp : Params Point) (g h : Point) (draws : RangeDraws)
    (f : Nat → Int) (hf : ∀ j, f j = 0 ∨ f j = 1) (n : Nat) :
    ∀ (i0 : Nat) (cur : Point) (st : ProverSlots Point),
      (phase1Loop pp g h draws ((List.range' i0 n).map f) i0 cur st).crashed = false →
      (∀ j, (j < i0 ∨ i0 + n ≤ j) →
        (phase1Loop pp g h draws ((List.range' i0 n).map f) i0 cur st).slots.A_As j =
          st.A_As j) ∧
      (∀ j, i0 ≤ j → j < i0 + n →
        (phase1Loop pp g h draws ((List.range' i0 n).map f) i0 cur st).slots.A_As j =
          some (if f j = 1 then
            hashValue pp (writeXY pp [] (draws.alphas j • g)) •
              (draws.rs j • g + ((2 : Int) ^ (j - i0)) • cur)
            else draws.alphas j • g)) := by
  induction n with
  | zero =>
    intro i0 cur st _
    exact ⟨fun j _ => rfl, fun j h1 h2 => by omega⟩
  | succ n ih =>
    intro i0 cur st hc
    have hl : (List.range' i0 (n + 1)).map f = f i0 :: (List.range' (i0 + 1) n).map f := by
      rw [List.range'_succ, List.map_cons]
    rw [hl] at hc ⊢
    unfold phase1Loop at hc ⊢
    simp only [Bool.or_eq_false_iff] at hc ⊢
    obtain ⟨hc1, hc2⟩ := hc
    obtain ⟨ihF, ihE⟩ := ih (i0 + 1) (curve.Add cur cur)
      (phase1 pp i0 (f i0) cur st g h (draws.alphas i0) (draws.rs i0)).slots hc2
    obtain ⟨pF, p0, p1⟩ := phase1_A_As pp i0 (f i0) cur st g h (draws.alphas i0) (draws.rs i0)
    constructor
    · intro j hj
      rw [ihF j (by omega)]
      exact pF j (by omega)
    · intro j hj1 hj2
      by_cases hj : j = i0
      · subst hj
        rw [ihF j (Or.inl (by omega))]
        rcases hf j with h0 | h1
        · rw [p0 h0, h0]
          simp
        · rw [p1 h1 hc1, h1]
          simp
      · rw [ihE j (by omega) (by omega)]
        have hp : j - i0 = (j - (i0 + 1)) + 1 := by omega
        rw [hp, pow_succ]
        simp only [curve.Add]
        congr 3
        module

/-- The loop writing the slots `A_As[i], …, A_As[i + n - 1]` appends their encodings in index
order. -/
theorem writeSlots_eq (pp : Params Point) (A_As : Nat → Option Point) (F : Nat → Point)
    (n : Nat) :
    ∀ (i : Nat) (buf : Bytes), (∀ k, k < n → A_As (i + k) = some (F (i + k))) →
      writeSlots pp A_As n i buf =
        some (buf ++ ((List.range n).map
          (fun k => pp.marshalX (F (i + k)) ++ pp.marshalY (F (i + k)))).flatten) := by
  induction n with
  | zero => intro i buf _; simp [writeSlots]
  | succ n ih =>
    intro i buf hA
    unfold writeSlots
    have h0 := hA 0 (by omega)
    rw [Nat.add_zero] at h0
    rw [h0]
    simp only
    rw [ih (i + 1) _ (fun k hk => by
      have := hA (k + 1) (by omega)
      rw [show i + 1 + k = i + (k + 1) by omega]
      exact this)]
    rw [List.range_succ_eq_map, List.map_cons, List.map_map, List.flatten_cons]
    simp only [writeXY, Nat.add_zero, List.append_assoc]
    congr 5
    apply List.map_congr_left
    intro k _
    simp only [Function.comp, Nat.succ_eq_add_one]
    rw [show i + 1 + k = i + (k + 1) by omega]

/-- The challenge of a proof returned by `Prove` is the reduced hash of the prover's per-bit
auxiliary points, written in index order. -/
theorem Prove_challenge (pp : Params Point) (b : Int) (g h : Point) (draws : RangeDraws)
    (proof : RangeProof Point) (hP : Prove pp b g h draws = GoResult.ok proof) :
    ∃ c, pp.HashToInt (((List.range RangeMaxBits).map
        (fun i => pp.marshalX (proverAux pp b g draws i) ++
          pp.marshalY (proverAux pp b g draws i))).flatten) = Except.ok c ∧
      proof.C = c % pp.Q := by
  unfold Prove at hP
  split_ifs at hP with hpar
  cases hbs : toBinary b RangeMaxBits with
  | error e => rw [hbs] at hP; simp at hP
  | ok bs =>
    rw [hbs] at hP
    simp only at hP
    obtain ⟨_, _, hbs'⟩ := toBinary_ok b RangeMaxBits bs hbs
    subst hbs'
    split_ifs at hP with hc1
    simp only [Bool.not_eq_true] at hc1
    obtain ⟨_, hE⟩ := phase1Loop_A_As pp g h draws (bitOf b) (bitOf_cases b) RangeMaxBits 0
      pp.H ProverSlots.empty hc1
    have hw := writeSlots_eq pp (phase1Loop pp g h draws
      ((List.range' 0 RangeMaxBits).map (bitOf b)) 0 pp.H ProverSlots.empty).slots.A_As
      (proverAux pp b g draws) RangeMaxBits 0 [] (fun k hk => by
        rw [hE (0 + k) (by omega) (by omega)]
        unfold proverAux
        simp)
    rw [hw] at hP
    cases hj1 : joinWorkers (phase1Loop pp g h draws
        ((List.range' 0 RangeMaxBits).map (bitOf b)) 0 pp.H ProverSlots.empty).sent
        RangeMaxBits with
    | error e => rw [hj1] at hP; simp at hP
    | crashed => rw [hj1] at hP; simp at hP
    | ok u =>
      rw [hj1] at hP
      simp only [List.nil_append, Nat.zero_add] at hP
      cases hc : pp.HashToInt (((List.range RangeMaxBits).map
          (fun k => pp.marshalX (proverAux pp b g draws k) ++
            pp.marshalY (proverAux pp b g draws k))).flatten) with
      | error e => rw [hc] at hP; simp at hP
      | ok c =>
        rw [hc] at hP
        simp only at hP
        split_ifs at hP with hc2
        cases hj2 : joinWorkers (phase2Loop pp (ffmath.Mod c pp.Q) g h draws
            ((List.range' 0 RangeMaxBits).map (bitOf b)) 0 1
            (phase1Loop pp g h draws ((List.range' 0 RangeMaxBits).map (bitOf b)) 0 pp.H
              ProverSlots.empty).slots).sent RangeMaxBits with
        | error e => rw [hj2] at hP; simp at hP
        | crashed => rw [hj2] at hP; simp at hP
        | ok u2 =>
          rw [hj2] at hP
          simp only at hP
          cases hs : sumSlots (phase2Loop pp (ffmath.Mod c pp.Q) g h draws
              ((List.range' 0 RangeMaxBits).map (bitOf b)) 0 1
              (phase1Loop pp g h draws ((List.range' 0 RangeMaxBits).map (bitOf b)) 0 pp.H
                ProverSlots.empty).slots).slots.As RangeMaxBits 0 curve.ZeroPoint with
          | none => rw [hs] at hP; simp at hP
          | some A =>
            rw [hs] at hP
            simp only [GoResult.ok.injEq] at hP
            subst hP
            exact ⟨c, rfl, rfl⟩

/-- When the first loop of `Prove` ends without failure, the hash of every worker of a bit
`1` has succeeded. -/
theorem phase1Loop_hash_ok (pp : Params Point) (g h : Point) (draws : RangeDraws)
    (f : Nat → Int) (n : Nat) :
    ∀ (i0 : Nat) (cur : Point) (st : ProverSlots Point),
      (phase1Loop pp g h draws ((List.range' i0 n).map f) i0 cur st).crashed = false →
      ∀ j, i0 ≤ j → j < i0 + n → f j = 1 →
        ∃ c, pp.HashToInt (writeXY pp [] (draws.alphas j • g)) = Except.ok c := by
  induction n with
  | zero =>
    intro i0 cur st _ j h1 h2
    omega
  | succ n ih =>
    intro i0 cur st hc j hj1 hj2 hf
    have hl : (List.range' i0 (n + 1)).map f = f i0 :: (List.range' (i0 + 1) n).map f := by
      rw [List.range'_succ, List.map_cons]
    rw [hl] at hc
    unfold phase1Loop at hc
    simp only [Bool.or_eq_false_iff] at hc
    obtain ⟨hc1, hc2⟩ := hc
    by_cases hj : j = i0
    · subst hj
      rw [hf] at hc1
      unfold phase1 at hc1
      simp only [one_ne_zero, if_false, if_true, curve.ScalarMul] at hc1
      cases hh : pp.HashToInt (writeXY pp [] (draws.alphas j • g)) with
      | error e => rw [hh] at hc1; simp at hc1
      | ok c => exact ⟨c, rfl⟩
    · exact ih (i0 + 1) _ _ hc2 j (by omega) (by omega) hf

/-- The first loop of a call of `Prove` that returns a proof ended without failure. -/
theorem Prove_phase1_ok (pp : Params Point) (b : Int) (g h : Point) (draws : RangeDraws)
    (proof : RangeProof Point) (hP : Prove pp b g h draws = GoResult.ok proof) :
    (phase1Loop pp g h draws ((List.range' 0 RangeMaxBits).map (bitOf b)) 0 pp.H
      ProverSlots.empty).crashed = false := by
  unfold Prove at hP
  split_ifs at hP with hpar
  cases hbs : toBinary b RangeMaxBits with
  | error e => rw [hbs] at hP; simp at hP
  | ok bs =>
    rw [hbs] at hP
    simp only at hP
    obtain ⟨_, _, hbs'⟩ := toBinary_ok b RangeMaxBits bs hbs
    subst hbs'
    split_ifs at hP with hc1
    simpa using hc1

/-- When the hash succeeds on every buffer, `Verify` accepts exactly when the recomputed
challenge is `proof.C` and the sum of the commitments is `proof.A`. -/
theorem RangeProof.Verify_eq_ite (pp : Params Point) (proof : RangeProof Point)
    (hh : ∀ buf, ∃ v, pp.HashToInt buf = Except.ok v) :
    proof.Verify pp =
      if proof.recomputedChallenge pp = proof.C ∧
          ∑ i in Finset.range RangeMaxBits, proof.As i = proof.A
      then (true, none) else (false, none) := by
  unfold RangeProof.Verify
  have h0 := RangeProof.verifyBits_eq pp proof hh RangeMaxBits 0
  simp only [pow_zero, one_smul, Nat.zero_add] at h0
  simp only [curve.Neg]
  rw [h0]
  simp only
  rw [foldl_writeXY, List.nil_append, List.map_map]
  obtain ⟨v, hv⟩ := hh ((List.map ((fun p => pp.marshalX p ++ pp.marshalY p) ∘
    fun k => proof.auxPoint pp k) (List.range RangeMaxBits)).flatten)
  have hrc : proof.recomputedChallenge pp = v % pp.Q := by
    unfold RangeProof.recomputedChallenge hashValue
    have : (List.map (fun i => pp.marshalX (proof.auxPoint pp i) ++
        pp.marshalY (proof.auxPoint pp i)) (List.range RangeMaxBits)) =
        (List.map ((fun p => pp.marshalX p ++ pp.marshalY p) ∘
          fun k => proof.auxPoint pp k) (List.range RangeMaxBits)) := rfl
    rw [this, hv]
  rw [hv, hrc, sumAs_eq]
  simp only [ffmath.Mod, ffmath.Equal]
  by_cases h1 : v % (pp.Q : Int) = proof.C <;>
    by_cases h2 : ∑ i in Finset.range RangeMaxBits, proof.As i = proof.A <;>
    simp [h1, h2]

/-- C22. The range-proof challenge is the reduced hash of the per-bit auxiliary points in
index order: for every successful `Prove`, `proof.C = Hash(A_A_0.X ‖ A_A_0.Y ‖ … ‖ A_A_31.X ‖
A_A_31.Y) mod Q` with `A_A_i = α_i·g` for a bit `0` and `A_A_i = c_i·As[i]`,
`c_i = Hash(α_i·g)`, for a bit `1`, so `0 ≤ proof.C < Q` (for `Q > 0`); and `Verify`
recomputes the challenge with the same formula and the same order from its own per-bit
points `c_i·As[i]`: whenever hashing succeeds, `Verify` returns `(true, nil)` exactly when
`Hash(A_A_0.X ‖ A_A_0.Y ‖ … ‖ A_A_31.X ‖ A_A_31.Y) mod Q` over these points is `proof.C` and
the commitments add up to `proof.A`, and `(false, nil)` otherwise. -/
theorem challenge_is_reduced_hash (pp : Params Point) (b : Int) (g h : Point)
    (draws : RangeDraws) (proof : RangeProof Point)
    (hP : Prove pp b g h draws = GoResult.ok proof) :
    (∃ c, pp.HashToInt (((List.range RangeMaxBits).map
          (fun i => pp.marshalX (proverAux pp b g draws i) ++
            pp.marshalY (proverAux pp b g draws i))).flatten) = Except.ok c ∧
        proof.C = c % pp.Q) ∧
      (∀ i, i < RangeMaxBits → bitOf b i = 0 →
        proverAux pp b g draws i = draws.alphas i • g) ∧
      (∀ i, i < RangeMaxBits → bitOf b i = 1 →
        ∃ ci, pp.HashToInt (writeXY pp [] (draws.alphas i • g)) = Except.ok ci ∧
          proverAux pp b g draws i = ci • proof.As i) ∧
      (0 < pp.Q → 0 ≤ proof.C ∧ proof.C < pp.Q) ∧
      (∀ p : RangeProof Point, p.recomputedChallenge pp =
        hashValue pp (((List.range RangeMaxBits).map
          (fun i => pp.marshalX (p.bitChallenge pp i • p.As i) ++
            pp.marshalY (p.bitChallenge pp i • p.As i))).flatten) % pp.Q) ∧
      ((∀ buf, ∃ v, pp.HashToInt buf = Except.ok v) → ∀ p : RangeProof Point,
        p.Verify pp =
          if hashValue pp (((List.range RangeMaxBits).map
                (fun i => pp.marshalX (p.bitChallenge pp i • p.As i) ++
                  pp.marshalY (p.bitChallenge pp i • p.As i))).flatten) % pp.Q = p.C ∧
              ∑ i in Finset.range RangeMaxBits, p.As i = p.A
          then (true, none) else (false, none)) := by
  obtain ⟨c, hc, hC⟩ := Prove_challenge pp b g h draws proof hP
  refine ⟨⟨c, hc, hC⟩, fun i _ h0 => ?_, fun i hi h1 => ?_, fun hq => ?_, fun p => rfl,
    fun hh p => ?_⟩
  · unfold proverAux
    rw [h0]
    simp
  · obtain ⟨ci, hci⟩ := phase1Loop_hash_ok pp g h draws (bitOf b) RangeMaxBits 0 pp.H
      ProverSlots.empty (Prove_phase1_ok pp b g h draws proof hP) i (by omega) (by omega) h1
    refine ⟨ci, hci, ?_⟩
    unfold proverAux hashValue
    rw [if_pos h1, hci, (Prove_As pp b g h draws proof hP i hi).1 h1]
  · rw [hC]
    have hq' : (0 : Int) < pp.Q := by exact_mod_cast hq
    exact ⟨Int.emod_nonneg c hq'.ne', Int.emod_lt_of_pos c hq'⟩
  · rw [RangeProof.Verify_eq_ite pp p hh]
    rfl

set_option maxRecDepth 1000000 in
/-- Witness of `challenge_is_reduced_hash`: the range proof of `897` on the small instance,
whose challenge is below `Q = 7`, and what `Verify` returns on it. -/
theorem challenge_is_reduced_hash_witness :
    Prove Small.pp 897 Small.pp.G Small.pp.H (Small.rangeDraws 1) =
        GoResult.ok (Small.rangeProofOf 897 1) ∧
      (∃ c, Small.pp.HashToInt (((List.range RangeMaxBits).map
          (fun i =>
            Small.pp.marshalX (proverAux Small.pp 897 Small.pp.G (Small.rangeDraws 1) i) ++
              Small.pp.marshalY
                (proverAux Small.pp 897 Small.pp.G (Small.rangeDraws 1) i))).flatten) =
          Except.ok c ∧
        (Small.rangeProofOf 897 1).C = c % Small.pp.Q) ∧
      (0 ≤ (Small.rangeProofOf 897 1).C ∧ (Small.rangeProofOf 897 1).C < Small.pp.Q) ∧
      (Small.rangeProofOf 897 1).Verify Small.pp =
        if hashValue Small.pp (((List.range RangeMaxBits).map
              (fun i =>
                Small.pp.marshalX ((Small.rangeProofOf 897 1).bitChallenge Small.pp i •
                  (Small.rangeProofOf 897 1).As i) ++
                Small.pp.marshalY ((Small.rangeProofOf 897 1).bitChallenge Small.pp i •
                  (Small.rangeProofOf 897 1).As i))).flatten) % Small.pp.Q =
              (Small.rangeProofOf 897 1).C ∧
            ∑ i in Finset.range RangeMaxBits, (Small.rangeProofOf 897 1).As i =
              (Small.rangeProofOf 897 1).A
        then (true, none) else (false, none) := by
  obtain ⟨h1, -, -, h4, -, h6⟩ :=
    challenge_is_reduced_hash Small.pp 897 Small.pp.G Small.pp.H (Small.rangeDraws 1)
      (Small.rangeProofOf 897 1) (by rfl)
  exact ⟨by rfl, h1, h4 (by decide), h6 (fun buf => ⟨_, rfl⟩) (Small.rangeProofOf 897 1)⟩

end ctrange

namespace zero

variable {Point : Type} [AddCommGroup Point] [DecidableEq Point]

set_option maxRecDepth 1000000 in
/-- Witness of `addPoolInfo_frame`: the proof of `Small.traceA` with `validUint64` the test
`a < 2^40`, on the balances `5, 6` (both valid) and `2^40, 6` (the first invalid). -/
theorem addPoolInfo_frame_witness :
    Small.traceA.proof.AddPoolInfo (fun a => decide (a < 2 ^ 40)) 5 6 =
        ({ Small.traceA.proof with B_poolA := 5, B_poolB := 6 }, none) ∧
      Small.traceA.proof.AddPoolInfo (fun a => decide (a < 2 ^ 40)) (2 ^ 40) 6 =
        (Small.traceA.proof, some errAddPoolInfo) :=
  ⟨(addPoolInfo_frame (fun a => decide (a < 2 ^ 40)) Small.traceA.proof 5 6).1
      ⟨by decide, by decide⟩,
    (addPoolInfo_frame (fun a => decide (a < 2 ^ 40)) Small.traceA.proof (2 ^ 40) 6).2
      (Or.inl (by decide))⟩

/-- What `verifyAddLiquidityParams` has checked of the delta ciphertexts when it returns
true: each is the ciphertext built from the randomness and the value `-int64(B_Delta)` the
code computes. -/
theorem verifyAddLiquidityParams_deltas (pp : Params Point) (proof : AddLiquidityProof Point)
    (h : verifyAddLiquidityParams pp proof = true) :
    (proof.C_uA_Delta.CL = proof.R_DeltaA • proof.Pk_u ∧
        proof.C_uA_Delta.CR =
          proof.R_DeltaA • pp.G + int64 (-(int64 proof.B_A_Delta)) • pp.H) ∧
      (proof.LC_poolA_Delta.CL = proof.R_DeltaA • proof.Pk_pool ∧
        proof.LC_poolA_Delta.CR =
          proof.R_DeltaA • pp.G - int64 (-(int64 proof.B_A_Delta)) • pp.H) ∧
      (proof.C_uB_Delta.CL = proof.R_DeltaB • proof.Pk_u ∧
        proof.C_uB_Delta.CR =
          proof.R_DeltaB • pp.G + int64 (-(int64 proof.B_B_Delta)) • pp.H) ∧
      (proof.LC_poolB_Delta.CL = proof.R_DeltaB • proof.Pk_pool ∧
        proof.LC_poolB_Delta.CR =
          proof.R_DeltaB • pp.G - int64 (-(int64 proof.B_B_Delta)) • pp.H) := by
  unfold verifyAddLiquidityParams at h
  simp only [equalEnc, curve.Add, curve.ScalarMul, curve.Neg, curve.ScalarBaseMul] at h
  split_ifs at h with h1
  all_goals simp only [Bool.or_eq_true, Bool.not_eq_true', Bool.and_eq_false_iff,
    decide_eq_false_iff_not, not_or, not_not] at h1
  all_goals obtain ⟨⟨⟨⟨a1, a2⟩, ⟨b1, b2⟩⟩, ⟨c1, c2⟩⟩, ⟨d1, d2⟩⟩ := h1
  all_goals exact ⟨⟨a1.symm, a2.symm⟩, ⟨c1.symm, by rw [← c2, sub_eq_add_neg]⟩,
    ⟨b1.symm, b2.symm⟩, ⟨d1.symm, by rw [← d2, sub_eq_add_neg]⟩⟩

/-- For amounts up to `2^63`, accepted delta ciphertexts move the amount from the user to
the pool: the user-side ciphertext encrypts `−B_Delta` and the pool-side one `+B_Delta`
under the same randomness. -/
theorem accepted_deltas_small (pp : Params Point) (proof : AddLiquidityProof Point)
    (h : verifyAddLiquidityParams pp proof = true)
    (hA : proof.B_A_Delta ≤ 2 ^ 63) (hB : proof.B_B_Delta ≤ 2 ^ 63) :
    (proof.C_uA_Delta.CL = proof.R_DeltaA • proof.Pk_u ∧
        proof.C_uA_Delta.CR = proof.R_DeltaA • pp.G - (proof.B_A_Delta : Int) • pp.H) ∧
      (proof.LC_poolA_Delta.CL = proof.R_DeltaA • proof.Pk_pool ∧
        proof.LC_poolA_Delta.CR = proof.R_DeltaA • pp.G + (proof.B_A_Delta : Int) • pp.H) ∧
      (proof.C_uB_Delta.CL = proof.R_DeltaB • proof.Pk_u ∧
        proof.C_uB_Delta.CR = proof.R_DeltaB • pp.G - (proof.B_B_Delta : Int) • pp.H) ∧
      (proof.LC_poolB_Delta.CL = proof.R_DeltaB • proof.Pk_pool ∧
        proof.LC_poolB_Delta.CR = proof.R_DeltaB • pp.G + (proof.B_B_Delta : Int) • pp.H) := by
  obtain ⟨⟨a1, a2⟩, ⟨b1, b2⟩, ⟨c1, c2⟩, ⟨d1, d2⟩⟩ := verifyAddLiquidityParams_deltas pp proof h
  rw [int64_neg_int64 _ hA] at a2 b2
  rw [int64_neg_int64 _ hB] at c2 d2
  refine ⟨⟨a1, ?_⟩, ⟨b1, ?_⟩, ⟨c1, ?_⟩, ⟨d1, ?_⟩⟩
  · rw [a2]; module
  · rw [b2]; module
  · rw [c2]; module
  · rw [d2]; module

set_option maxRecDepth 1000000 in
/-- C25, the code at the failing input. On the small instance `verifyAddLiquidityParams`
returns true on a proof with `B_A_Delta = 2^63 + 2` whose user-side ciphertext `C_uA_Delta`
is `(R_DeltaA·Pk_u, R_DeltaA·G + (2^63 − 2)·H)` and whose pool-side ciphertext
`LC_poolA_Delta` is `(R_DeltaA·Pk_pool, R_DeltaA·G − (2^63 − 2)·H)`: the value
`-int64(B_A_Delta)` is `2^63 − 2`, so the user-side ciphertext encrypts `+(2^63 − 2)`, not
`−B_A_Delta`, and the pool-side one `−(2^63 − 2)`, not `+B_A_Delta`. -/
theorem delta_sign_flips :
    verifyAddLiquidityParams Small.pp Small.proofSignFlip = true ∧
      Small.proofSignFlip.B_A_Delta = 2 ^ 63 + 2 ∧
      int64 (-(int64 Small.proofSignFlip.B_A_Delta)) = 2 ^ 63 - 2 ∧
      Small.proofSignFlip.C_uA_Delta.CL =
        Small.proofSignFlip.R_DeltaA • Small.proofSignFlip.Pk_u ∧
      Small.proofSignFlip.C_uA_Delta.CR =
        Small.proofSignFlip.R_DeltaA • Small.pp.G + ((2 : Int) ^ 63 - 2) • Small.pp.H ∧
      Small.proofSignFlip.C_uA_Delta.CR ≠
        Small.proofSignFlip.R_DeltaA • Small.pp.G -
          (Small.proofSignFlip.B_A_Delta : Int) • Small.pp.H ∧
      Small.proofSignFlip.LC_poolA_Delta.CL =
        Small.proofSignFlip.R_DeltaA • Small.proofSignFlip.Pk_pool ∧
      Small.proofSignFlip.LC_poolA_Delta.CR =
        Small.proofSignFlip.R_DeltaA • Small.pp.G - ((2 : Int) ^ 63 - 2) • Small.pp.H ∧
      Small.proofSignFlip.LC_poolA_Delta.CR ≠
        Small.proofSignFlip.R_DeltaA • Small.pp.G +
          (Small.proofSignFlip.B_A_Delta : Int) • Small.pp.H :=
  ⟨by decide, by decide, by decide, by decide, by decide, by decide, by decide, by decide,
    by decide⟩

/-- The ownership check is specially sound for a public key in the subgroup: for two
proofs accepted by `Verify` under the challenges `c` and `c'` that differ modulo the prime
`q`, with the same `Pk_u` in the prime-order subgroup and the same `A_pk_u`, the scalar
`(Z_sk_u − Z_sk_u')·(c − c')⁻¹ mod q` is a discrete logarithm of `Pk_u` to the base `G`. -/
theorem ownership_extractor (pp : Params Point) (p1 p2 : AddLiquidityProof Point)
    (c1 c2 : Int) (hq : Nat.Prime pp.Order) (hG : curve.IsInSubGroup pp pp.G = true)
    (hPk : curve.IsInSubGroup pp p1.Pk_u = true)
    (h1 : p1.Accepted pp c1) (h2 : p2.Accepted pp c2)
    (hpk : p2.Pk_u = p1.Pk_u) (hA : p2.A_pk_u = p1.A_pk_u)
    (hne : (c1 - c2) % (pp.Order : Int) ≠ 0) :
    ∃ d, ffmath.ModInverse (c1 - c2) pp.Order = some d ∧
      (ffmath.Mod (ffmath.Multiply (ffmath.Sub p1.Z_sk_u p2.Z_sk_u) d) pp.Order) • pp.G =
        p1.Pk_u := by
  have hq0 : (0 : Int) < pp.Order := by exact_mod_cast hq.pos
  have hGq : (pp.Order : Int) • pp.G = 0 := by simpa [curve.IsInSubGroup] using hG
  have hPq : (pp.Order : Int) • p1.Pk_u = 0 := by simpa [curve.IsInSubGroup] using hPk
  -- the inverse exists
  obtain ⟨x, hx⟩ := ffmath.ModInverse_isSome_of_prime ((c1 - c2) % (pp.Order : Int)) pp.Order hq
    (lt_of_le_of_ne (Int.emod_nonneg _ hq0.ne') (Ne.symm hne)) (Int.emod_lt_of_pos _ hq0)
  have hx1 := (ffmath.ModInverse_spec _ _ _ hx).1
  have hx2 : ((c1 - c2) * x) % (pp.Order : Int) = 1 % (pp.Order : Int) := by
    rw [← hx1, Int.mul_emod ((c1 - c2) % (pp.Order : Int)), Int.emod_emod_of_dvd _ (dvd_refl _),
      ← Int.mul_emod]
  obtain ⟨d, hd⟩ := ffmath.ModInverse_isSome (c1 - c2) pp.Order x hq0 hx2
  have hd1 := (ffmath.ModInverse_spec _ _ _ hd).1
  refine ⟨d, hd, ?_⟩
  -- the two ownership equations
  have e1 : p1.Z_sk_u • pp.G = p1.A_pk_u + c1 • p1.Pk_u := by
    simpa [AddLiquidityProof.ownershipHolds] using h1.own
  have e2 : p2.Z_sk_u • pp.G = p1.A_pk_u + c2 • p1.Pk_u := by
    have := h2.own
    rw [AddLiquidityProof.ownershipHolds, hpk, hA] at this
    simpa using this
  have e3 : (p1.Z_sk_u - p2.Z_sk_u) • pp.G = (c1 - c2) • p1.Pk_u := by
    rw [sub_smul, sub_smul, e1, e2]
    abel
  unfold ffmath.Mod ffmath.Multiply ffmath.Sub
  rw [smul_emod_order pp.Order pp.G hGq, mul_comm, mul_smul, e3, ← mul_smul,
    smul_congr_order pp.Order p1.Pk_u hPq (d * (c1 - c2)) 1 (by rw [mul_comm]; exact hd1),
    one_smul]

end zero

namespace zero

variable {Point : Type} [AddCommGroup Point] [DecidableEq Point]

/-- C26 (as amended). The ownership check is specially sound for a public key in the
prime-order subgroup: for any two AddLiquidity proofs accepted by `Verify` that have the same
`Pk_u`, lying in the prime-order subgroup, and the same `A_pk_u`, and whose challenges `c`,
`c'` (the hashes of their transcripts) differ modulo the prime `q`, the inverse
`(c − c')⁻¹ mod q` exists and the scalar `(Z_sk_u − Z_sk_u')·(c − c')⁻¹ mod q` is a discrete
logarithm of `Pk_u` to the base `G`: multiplying `G` by it gives `Pk_u`. -/
theorem ownership_special_soundness (pp : Params Point) (p1 p2 : AddLiquidityProof Point)
    (c1 c2 : Int) (hq : Nat.Prime pp.Order) (hG : curve.IsInSubGroup pp pp.G = true)
    (hPk : curve.IsInSubGroup pp p1.Pk_u = true)
    (hv1 : p1.Verify pp = (true, none)) (hv2 : p2.Verify pp = (true, none))
    (hc1 : pp.HashToInt (p1.challengeBuf pp) = Except.ok c1)
    (hc2 : pp.HashToInt (p2.challengeBuf pp) = Except.ok c2)
    (hpk : p2.Pk_u = p1.Pk_u) (hA : p2.A_pk_u = p1.A_pk_u)
    (hne : (c1 - c2) % (pp.Order : Int) ≠ 0) :
    ∃ d, ffmath.ModInverse (c1 - c2) pp.Order = some d ∧
      (ffmath.Mod (ffmath.Multiply (ffmath.Sub p1.Z_sk_u p2.Z_sk_u) d) pp.Order) • pp.G =
        p1.Pk_u := by
  obtain ⟨a1, hacc1⟩ := (AddLiquidityProof.Verify_true_iff pp p1).mp hv1
  obtain ⟨a2, hacc2⟩ := (AddLiquidityProof.Verify_true_iff pp p2).mp hv2
  have e1 : a1 = c1 := by
    have := hacc1.hash
    rw [hc1] at this
    exact (Except.ok.inj this).symm
  have e2 : a2 = c2 := by
    have := hacc2.hash
    rw [hc2] at this
    exact (Except.ok.inj this).symm
  subst e1 e2
  exact ownership_extractor pp p1 p2 a1 a2 hq hG hPk hacc1 hacc2 hpk hA hne

set_option maxRecDepth 1000000 in
/-- Witness of `ownership_special_soundness`: the accepted proofs of `Small.traceA` and
`Small.traceZ`, with the challenges `4` and `5`, the same `Pk_u = 3·G` and the same `A_pk_u`;
the extracted scalar is the secret key `3`. -/
theorem ownership_special_soundness_witness :
    Small.traceA.proof.Verify Small.pp = (true, none) ∧
      Small.traceZ.proof.Verify Small.pp = (true, none) ∧
      ffmath.ModInverse (4 - 5) Small.pp.Order = some 6 ∧
      ffmath.Mod (ffmath.Multiply
        (ffmath.Sub Small.traceA.proof.Z_sk_u Small.traceZ.proof.Z_sk_u) 6) Small.pp.Order = 3 ∧
      (ffmath.Mod (ffmath.Multiply
        (ffmath.Sub Small.traceA.proof.Z_sk_u Small.traceZ.proof.Z_sk_u) 6) Small.pp.Order) •
          Small.pp.G = Small.traceA.proof.Pk_u := by
  obtain ⟨d, hd, he⟩ := ownership_special_soundness Small.pp Small.traceA.proof
    Small.traceZ.proof 4 5 (by norm_num [Small.pp]) (by decide) (by decide) (by decide)
    (by decide) (by rfl) (by rfl) (by rfl) (by rfl) (by decide)
  have h6 : ffmath.ModInverse (4 - 5) Small.pp.Order = some 6 := by decide
  rw [h6] at hd
  cases hd
  exact ⟨by decide, by decide, h6, by decide, he⟩

set_option maxRecDepth 1000000 in
/-- C26, counterexample. On the small instance with the hash of `Small.ppBig`, `Verify`
accepts two simulated proofs with the same `Pk_u = 1`, which is not in the subgroup of order
`q = 7`, and the same `A_pk_u`; their challenges `8` and `24` differ modulo `7`, the
responses are `Z_sk_u = 1` and `Z_sk_u' = 3`, and the scalar `(1 − 3)·(8 − 24)⁻¹ mod 7 = 1`
multiplied with `G` does not give `Pk_u`. -/
theorem ownership_extraction_fails_outside_subgroup :
    (Small.simulatedProof 8 1 (Small.pt 14)).Verify Small.ppBig = (true, none) ∧
      (Small.simulatedProof 24 3 (Small.pt 7)).Verify Small.ppBig = (true, none) ∧
      Small.ppBig.HashToInt ((Small.simulatedProof 8 1 (Small.pt 14)).challengeBuf Small.ppBig) =
        Except.ok 8 ∧
      Small.ppBig.HashToInt ((Small.simulatedProof 24 3 (Small.pt 7)).challengeBuf Small.ppBig) =
        Except.ok 24 ∧
      (Small.simulatedProof 24 3 (Small.pt 7)).Pk_u =
        (Small.simulatedProof 8 1 (Small.pt 14)).Pk_u ∧
      (Small.simulatedProof 24 3 (Small.pt 7)).A_pk_u =
        (Small.simulatedProof 8 1 (Small.pt 14)).A_pk_u ∧
      ((8 : Int) - 24) % (Small.ppBig.Order : Int) ≠ 0 ∧
      curve.IsInSubGroup Small.ppBig Small.ppBig.G = true ∧
      curve.IsInSubGroup Small.ppBig (Small.simulatedProof 8 1 (Small.pt 14)).Pk_u = false ∧
      ffmath.ModInverse (8 - 24) Small.ppBig.Order = some 3 ∧
      (ffmath.Mod (ffmath.Multiply (ffmath.Sub (Small.simulatedProof 8 1 (Small.pt 14)).Z_sk_u
        (Small.simulatedProof 24 3 (Small.pt 7)).Z_sk_u) 3) Small.ppBig.Order) • Small.ppBig.G ≠
        (Small.simulatedProof 8 1 (Small.pt 14)).Pk_u :=
  ⟨by decide, by decide, by rfl, by rfl, by rfl, by decide, by decide, by decide, by decide,
    by decide, by decide⟩

end zero

namespace ctrange

variable {Point : Type} [AddCommGroup Point] [DecidableEq Point]

set_option maxRecDepth 1000000 in
/-- C23, the code at the failing input. On the small instance with a hash whose values
include `0`, the worker `phase2` for a bit `0` whose commitment `(C·2^i)·h + r_i·g` hashes to
`0` sends no message at all: `ModInverse(0, Order)` is nil and the product with it fails
before `bitchan <- i`. When the hash fails, `phase1` (bit `1`) and `phase2` (bit `0`) send
`ErrCode` and then go on with the nil challenge instead of returning. -/
theorem phase2_sends_nothing :
    Small.ppZero.HashToInt (writeXY Small.ppZero []
        (pedersen.Commit (ffmath.Multiply 2 1) 3 Small.pp.H Small.pp.G)) = Except.ok 0 ∧
      (phase2 Small.ppZero 0 0 1 2 Small.slotsAlpha Small.pp.G Small.pp.H 3).sent = [] ∧
      (phase2 Small.ppZero 0 0 1 2 Small.slotsAlpha Small.pp.G Small.pp.H 3).crashed = true ∧
      (phase1 Small.ppNoHash 0 1 Small.pp.H ProverSlots.empty Small.pp.G Small.pp.H 3 2).sent =
        [ErrCode] ∧
      (phase1 Small.ppNoHash 0 1 Small.pp.H ProverSlots.empty Small.pp.G Small.pp.H 3 2).crashed =
        true ∧
      (phase2 Small.ppNoHash 0 0 1 2 Small.slotsAlpha Small.pp.G Small.pp.H 3).sent =
        [ErrCode] ∧
      (phase2 Small.ppNoHash 0 0 1 2 Small.slotsAlpha Small.pp.G Small.pp.H 3).crashed = true :=
  ⟨by rfl, by decide, by decide, by decide, by decide, by decide, by decide⟩

set_option maxRecDepth 1000000 in
/-- The receiving loops on bit values that `toBinary` does not produce. On the small
instance, the body of `Prove` run with an empty channel on 32 bits of which the first two are
`2` returns the error at the first `ErrCode` it receives, after one message: the second
`ErrCode` and the 30 indices of the other workers stay in `bitchan`. A call
`Prove(897, G, H)`, which returns a proof when the channel is empty at the call, would then
receive that `ErrCode` and return the error. -/
theorem early_return_leaves_messages :
    Small.bitsInvalid.length = RangeMaxBits ∧
      (proveBitsOn Small.pp [] Small.bitsInvalid Small.pp.G Small.pp.H
        (Small.rangeDraws 0)).1 = GoResult.error errUnableToConstruct ∧
      (proveBitsOn Small.pp [] Small.bitsInvalid Small.pp.G Small.pp.H
        (Small.rangeDraws 0)).2 = ErrCode :: Small.indicesFrom2 ∧
      (ProveOn Small.pp [] 897 Small.pp.G Small.pp.H (Small.rangeDraws 1)).1 =
        GoResult.ok (Small.rangeProofOf 897 1) ∧
      (ProveOn Small.pp [] 897 Small.pp.G Small.pp.H (Small.rangeDraws 1)).2 = [] ∧
      (ProveOn Small.pp (ErrCode :: Small.indicesFrom2) 897 Small.pp.G Small.pp.H
        (Small.rangeDraws 1)).1 = GoResult.error errUnableToConstruct :=
  ⟨by rfl, by rfl, by rfl, by rfl, by rfl, by rfl⟩

set_option maxRecDepth 1000000 in
/-- C27, the code at the failing input. On the small instance with a hash whose values
include `0`, the commitment of `phase2` for bit `0` with `C = 2`, `r_0 = 3` hashes to
`c_0 = 0`, which has no inverse modulo `Order = 7`: `ModInverse` returns nil, the worker
fails and neither `As[0]` nor `Zs[0]` is written. With this hash `Prove(897, G, H)` does not
return. -/
theorem zero_bit_branch_fails :
    Small.ppZero.HashToInt (writeXY Small.ppZero []
        (pedersen.Commit (ffmath.Multiply 2 1) 3 Small.pp.H Small.pp.G)) = Except.ok 0 ∧
      ffmath.ModInverse 0 Small.ppZero.Order = none ∧
      (phase2 Small.ppZero 0 0 1 2 Small.slotsAlpha Small.pp.G Small.pp.H 3).crashed = true ∧
      (phase2 Small.ppZero 0 0 1 2 Small.slotsAlpha Small.pp.G Small.pp.H 3).slots.As 0 =
        none ∧
      (phase2 Small.ppZero 0 0 1 2 Small.slotsAlpha Small.pp.G Small.pp.H 3).slots.Zs 0 =
        none ∧
      curve.IsInSubGroup Small.ppZero Small.pp.G = true ∧
      curve.IsInSubGroup Small.ppZero Small.pp.H = true ∧
      Prove Small.ppZero 897 Small.pp.G Small.pp.H (Small.rangeDraws 1) = GoResult.crashed :=
  ⟨by rfl, by decide, by decide, by decide, by decide, by decide, by decide, by rfl⟩

end ctrange

namespace txtypes

/-- Witness of `hash_ignores_sig_and_nftIndex`: the transactions `Small.mintTx` and
`Small.mintTxSigned`, which differ in `Sig` and `NftIndex` only. -/
theorem hash_ignores_sig_and_nftIndex_witness :
    Small.mintTx.Sig ≠ Small.mintTxSigned.Sig ∧
      Small.mintTx.NftIndex ≠ Small.mintTxSigned.NftIndex ∧
      Small.mintTx.Hash Small.pkg Small.hFunc [9] =
        Small.mintTxSigned.Hash Small.pkg Small.hFunc [9] :=
  ⟨by decide, by decide,
    hash_ignores_sig_and_nftIndex Small.pkg Small.hFunc [9] Small.mintTx Small.mintTxSigned
      rfl rfl rfl rfl rfl rfl rfl rfl rfl rfl rfl⟩

end txtypes

namespace ctrange

variable {Point : Type} [AddCommGroup Point] [DecidableEq Point]

/-- A worker `phase2` sends at most one message, and exactly one when it does not fail. -/
theorem phase2_sent_length (pp : Params Point) (i : Nat) (bi : Int) (twoExp C : Int)
    (st : ProverSlots Point) (g h : Point) (r : Int) :
    (phase2 pp i bi twoExp C st g h r).sent.length ≤ 1 ∧
      ((phase2 pp i bi twoExp C st g h r).crashed = false →
        (phase2 pp i bi twoExp C st g h r).sent.length = 1) := by
  unfold phase2
  simp only []
  split_ifs
  · cases pp.HashToInt (writeXY pp [] (pedersen.Commit (ffmath.Multiply C twoExp) r h g)) with
    | error e => simp
    | ok ci =>
      simp only []
      cases st.alphas i <;> cases ffmath.ModInverse ci pp.Order <;> simp
  · cases st.alphas i <;> cases st.rs i <;> simp
  · simp

end ctrange

namespace ctrange

variable {Point : Type} [AddCommGroup Point] [DecidableEq Point]

end ctrange

namespace zero

variable {Point : Type} [AddCommGroup Point] [DecidableEq Point]

set_option maxRecDepth 1000000 in
/-- C1, the code at the failing input. On the small instance the relation `Small.relationAMM`
meets every condition of the claim with the fee paid in asset A: `Pk_u = Sk_u·G`, `Sk_u`
invertible, the delta and pool ciphertexts encrypt `∓2` and `∓1` under `R_DeltaA`, `R_DeltaB`,
`Delta_LP = 1 = ⌊√(2·1)⌋`, `|B_poolB·B_A_Delta − B_poolA·B_B_Delta| = 2^53 + 1 =
max(B_poolA, B_poolB)`, the three openings and the range proofs are in place, and the prover
randomness is in `[1, q)`. `ProveAddLiquidity` returns a proof, and `Verify` on that proof
returns `false` with the invalid-params error: `verifyAddLiquidityParams` compares with
`float64(2^53 + 1) = 2^53`. -/
theorem same_asset_honest_proof_rejected :
    Small.relationAMM.WellFormed Small.pp 5 ∧
      Small.relationAMM.FeeInA Small.pp 5 ∧
      (0 < Small.draws.alpha_sk_u ∧ Small.draws.alpha_sk_u < Small.pp.Order) ∧
      Small.relationAMM.B_poolA = 2 ^ 53 + 1 ∧ Small.relationAMM.B_poolB = 2 ^ 53 + 1 ∧
      ProveAddLiquidity Small.pp Small.relationAMM Small.draws =
        GoResult.ok Small.traceAMM.proof ∧
      verifyAddLiquidityParams Small.pp Small.traceAMM.proof = false ∧
      Small.traceAMM.proof.Verify Small.pp = (false, some errVerifyInvalidParams) :=
  ⟨{ pk := by decide, skInv := by decide, lpEnc := by decide, subA := by decide,
      subB := by decide, amounts := by decide, deltaACL := by decide, deltaACR := by decide,
      deltaBCL := by decide, deltaBCR := by decide, poolACL := by decide,
      poolACR := by decide, poolBCL := by decide, poolBCR := by decide,
      lpRule := Nat.eq_sqrt.mpr ⟨by decide, by decide⟩, ammRule := by decide,
      rangeA := by decide, rangeB := by decide, rangeFee := by decide, bindA := by decide,
      bindB := by decide },
    { asset := by decide, feeCL := by decide, feeCR := by decide, openA := by decide,
      openB := by decide, openFee := by decide },
    by decide, by rfl, by rfl, by rfl, by decide, by decide⟩

set_option maxRecDepth 1000000 in
/-- C2, the code at the failing input. On the small instance the relation
`Small.relationAMMX` meets every condition of the claim with the fee paid in a third asset:
it is well formed (the delta and pool ciphertexts encrypt `∓2` and `∓1`, `Delta_LP = 1 =
⌊√(2·1)⌋`, `|B_poolB·B_A_Delta − B_poolA·B_B_Delta| = 2^53 + 1 = max(B_poolA, B_poolB)`),
`T_fee` opens `C_fee` with the fee deducted, `T_uA` and `T_uB` open the refreshed
ciphertexts without fee deduction, the three range proofs verify, and the prover randomness
is in `[1, q)`. `ProveAddLiquidity` returns a proof, and `Verify` on that proof returns
`false` with the invalid-params error: `verifyAddLiquidityParams` compares with
`float64(2^53 + 1) = 2^53`. -/
theorem cross_asset_honest_proof_rejected :
    Small.relationAMMX.WellFormed Small.pp 5 ∧
      Small.relationAMMX.CrossFee Small.pp 5 ∧
      (0 < Small.draws.alpha_sk_u ∧ Small.draws.alpha_sk_u < Small.pp.Order) ∧
      Small.relationAMMX.B_poolA = 2 ^ 53 + 1 ∧ Small.relationAMMX.B_poolB = 2 ^ 53 + 1 ∧
      ProveAddLiquidity Small.pp Small.relationAMMX Small.draws =
        GoResult.ok Small.traceAMMX.proof ∧
      verifyAddLiquidityParams Small.pp Small.traceAMMX.proof = false ∧
      Small.traceAMMX.proof.Verify Small.pp = (false, some errVerifyInvalidParams) :=
  ⟨{ pk := by decide, skInv := by decide, lpEnc := by decide, subA := by decide,
      subB := by decide, amounts := by decide, deltaACL := by decide, deltaACR := by decide,
      deltaBCL := by decide, deltaBCR := by decide, poolACL := by decide,
      poolACR := by decide, poolBCL := by decide, poolBCR := by decide,
      lpRule := Nat.eq_sqrt.mpr ⟨by decide, by decide⟩, ammRule := by decide,
      rangeA := by decide, rangeB := by decide, rangeFee := by decide, bindA := by decide,
      bindB := by decide },
    { notA := by decide, notB := by decide, subFee := by decide, openA := by decide,
      openB := by decide, openFee := by decide },
    by decide, by rfl, by rfl, by rfl, by decide, by decide⟩

end zero
